import Mathlib

/-!
# kmeans.c : a shallow embedding

The program reads comma separated vectors from standard input, runs Lloyd's
k-means iteration on them and prints the final centroids.

Modelling conventions

* A C string is a `List Char` without its terminating NUL; a pointer into a
  string is the suffix that starts at the pointed character.
* A `double` is a value of the type `Double` below: an IEEE 754 binary64
  number with its two zeros, its infinities and NaN.  Every arithmetic
  operation computes the exact result and rounds it to the nearest
  representable number, ties to even; there is no excess precision.  The sign
  and the payload of a NaN are not modelled, so nothing is said of the text
  that `printf` writes for a NaN.
* The library functions are those of a C99 library in the C locale: `strtod`
  reads decimal and hexadecimal numbers and the words `inf`, `infinity` and
  `nan`, and rounds correctly; `sqrt` rounds correctly; `pow(x, 2)` is taken to
  be the correctly rounded square; `printf("%.4f")` rounds the exact value of
  its argument to four decimals, ties to even.
* `error_and_exit msg` is the result `Except.error msg`.
* `malloc`, `calloc` and `realloc` are assumed to succeed, so the branches
  that only release memory and exit on a failed allocation are not modelled.
* An access outside an array is undefined behaviour and is the result `none`
  of the step that performs it.
* The counters of lines, tokens and cluster members are natural numbers or
  integers without bound: an input on which an `int` counter would overflow
  (two to the power 31 lines or more) is outside the model.
-/

namespace Kmeans

/-! ## Characters -/

/-- The characters for which `isspace` is true in the C locale; the same six
characters are tested one by one in `validate_integer_input`. -/
def isspace (c : Char) : Bool :=
  c == ' ' || c == '\t' || c == '\n' || c == Char.ofNat 11 || c == Char.ofNat 12 || c == '\r'

/-- The decimal digits. -/
def isdigit (c : Char) : Bool := '0' ≤ c && c ≤ '9'

/-- The hexadecimal digits. -/
def isxdigit (c : Char) : Bool :=
  isdigit c || ('a' ≤ c && c ≤ 'f') || ('A' ≤ c && c ≤ 'F')

/-- The characters of the sequence that may follow `nan` in parentheses:
digits, letters and the underscore. -/
def isnchar (c : Char) : Bool :=
  isdigit c || ('a' ≤ c && c ≤ 'z') || ('A' ≤ c && c ≤ 'Z') || c == '_'

/-- The number written by a sequence of decimal digits. -/
def digitsVal (ds : List Char) : Nat :=
  ds.foldl (fun acc c => 10 * acc + (c.toNat - 48)) 0

/-- The value of a hexadecimal digit. -/
def xdigitVal (c : Char) : Nat :=
  if isdigit c then c.toNat - 48
  else if 'a' ≤ c then c.toNat - 87
  else c.toNat - 55

/-- The number written by a sequence of hexadecimal digits. -/
def xdigitsVal (ds : List Char) : Nat :=
  ds.foldl (fun acc c => 16 * acc + xdigitVal c) 0

/-! ## The type `double` -/

/-- A value of the type `double`, an IEEE 754 binary64 number: a finite number,
given by its sign and its magnitude, so that there are two zeros, an infinity,
or a NaN.  The magnitude of every finite value that the operations below
produce is a rational number that binary64 represents. -/
inductive Double where
  /-- The finite number with this sign and this magnitude. -/
  | finite (neg : Bool) (mag : ℚ)
  /-- Plus or minus infinity. -/
  | inf (neg : Bool)
  /-- Not a number; its sign and payload are not modelled. -/
  | nan
deriving DecidableEq, Repr

/-- The nearest natural number to a rational that is not negative, the even
one of the two when it is half way. -/
def round_half_even (x : ℚ) : Nat :=
  if x - (⌊x⌋ : ℚ) < 1 / 2 then ⌊x⌋.toNat
  else if 1 / 2 < x - (⌊x⌋ : ℚ) then ⌊x⌋.toNat + 1
  else if ⌊x⌋.toNat % 2 = 0 then ⌊x⌋.toNat
  else ⌊x⌋.toNat + 1

/-- The exponent of the greatest power of two that is at most `n`, for `n` not
zero, found by halving; `fuel` bounds the number of halvings. -/
def log2_fuel : Nat → Nat → Nat
  | 0, _ => 0
  | fuel + 1, n => if n < 2 then 0 else log2_fuel fuel (n / 2) + 1

/-- The exponent of the greatest power of two that is at most `n`. -/
def nat_log2 (n : Nat) : Nat := log2_fuel n n

/-- The exponent of the greatest power of two that is at most the positive
rational `q`. -/
def ilog2 (q : ℚ) : Int :=
  if (2 : ℚ) ^ ((nat_log2 q.num.toNat : Int) - (nat_log2 q.den : Int)) ≤ q
  then (nat_log2 q.num.toNat : Int) - (nat_log2 q.den : Int)
  else (nat_log2 q.num.toNat : Int) - (nat_log2 q.den : Int) - 1

/-- Rounding to binary64 in the mode round to nearest, ties to even: the value
with the sign `neg` that is nearest to the magnitude `q`.  The significand has
53 bits, the least exponent of its last bit is -1074, and a result of `2^1024`
or more is an infinity. -/
def Double.round (neg : Bool) (q : ℚ) : Double :=
  if q = 0 then Double.finite neg 0
  else if (round_half_even (q / 2 ^ max (ilog2 q - 52) (-1074)) : ℚ)
      * 2 ^ max (ilog2 q - 52) (-1074) < 2 ^ 1024 then
    Double.finite neg ((round_half_even (q / 2 ^ max (ilog2 q - 52) (-1074)) : ℚ)
      * 2 ^ max (ilog2 q - 52) (-1074))
  else Double.inf neg

/-- The `double` nearest to a rational number. -/
def Double.ofRat (q : ℚ) : Double := Double.round (decide (q < 0)) |q|

/-- The conversion of an `int` to `double`. -/
def Double.ofInt (n : Int) : Double := Double.ofRat n

instance (n : Nat) : OfNat Double n := ⟨Double.ofRat n⟩

/-- The rational value of a finite `double`. -/
def Double.toRat : Double → Option ℚ
  | Double.finite neg mag => some (if neg then -mag else mag)
  | _ => none

/-- Whether a `double` is finite. -/
def Double.isFinite : Double → Bool
  | Double.finite _ _ => true
  | _ => false

/-- The unary minus. -/
def Double.neg : Double → Double
  | Double.finite neg mag => Double.finite (!neg) mag
  | Double.inf neg => Double.inf (!neg)
  | Double.nan => Double.nan

/-- The sum `a + b`.  An exact sum of zero is `+0`, except that `-0 + -0` is
`-0`. -/
def Double.add : Double → Double → Double
  | Double.nan, _ => Double.nan
  | _, Double.nan => Double.nan
  | Double.inf s, Double.inf t => if s = t then Double.inf s else Double.nan
  | Double.inf s, Double.finite _ _ => Double.inf s
  | Double.finite _ _, Double.inf t => Double.inf t
  | Double.finite s a, Double.finite t b =>
    if (if s then -a else a) + (if t then -b else b) = 0 then Double.finite (s && t) 0
    else Double.ofRat ((if s then -a else a) + (if t then -b else b))

/-- The difference `a - b`. -/
def Double.sub (a b : Double) : Double := Double.add a (Double.neg b)

/-- The quotient `a / b`. -/
def Double.div : Double → Double → Double
  | Double.nan, _ => Double.nan
  | _, Double.nan => Double.nan
  | Double.inf _, Double.inf _ => Double.nan
  | Double.inf s, Double.finite t _ => Double.inf (xor s t)
  | Double.finite s _, Double.inf t => Double.finite (xor s t) 0
  | Double.finite s a, Double.finite t b =>
    if b = 0 then (if a = 0 then Double.nan else Double.inf (xor s t))
    else Double.round (xor s t) (a / b)

/-- The library call `pow(x, 2)`: the square, correctly rounded. -/
def Double.pow2 : Double → Double
  | Double.nan => Double.nan
  | Double.inf _ => Double.inf false
  | Double.finite _ a => Double.round false (a * a)

/-- The greatest natural number whose square is at most `n`, found bit by bit:
`r` is the part of the root found so far, `b` the number of bits still to be
tried. -/
def isqrt_bits (n : Nat) : Nat → Nat → Nat
  | 0, r => r
  | b + 1, r =>
    if (r + 2 ^ b) * (r + 2 ^ b) ≤ n then isqrt_bits n b (r + 2 ^ b) else isqrt_bits n b r

/-- The integer square root. -/
def isqrt (n : Nat) : Nat := isqrt_bits n (nat_log2 n / 2 + 1) 0

/-- The square root of a positive magnitude, correctly rounded: the radicand is
scaled by a power of four so that the root has 53 bits before the point, the
integer part of the root is taken and rounded up when the radicand is beyond
the square of the half way point. -/
def Double.sqrtMag (q : ℚ) : ℚ :=
  (if q / 4 ^ (ilog2 q / 2 - 52)
      < ((isqrt ⌊q / 4 ^ (ilog2 q / 2 - 52)⌋.toNat : ℚ) + 1 / 2) ^ 2 then
    (isqrt ⌊q / 4 ^ (ilog2 q / 2 - 52)⌋.toNat : ℚ)
  else if ((isqrt ⌊q / 4 ^ (ilog2 q / 2 - 52)⌋.toNat : ℚ) + 1 / 2) ^ 2
      < q / 4 ^ (ilog2 q / 2 - 52) then
    (isqrt ⌊q / 4 ^ (ilog2 q / 2 - 52)⌋.toNat : ℚ) + 1
  else if isqrt ⌊q / 4 ^ (ilog2 q / 2 - 52)⌋.toNat % 2 = 0 then
    (isqrt ⌊q / 4 ^ (ilog2 q / 2 - 52)⌋.toNat : ℚ)
  else (isqrt ⌊q / 4 ^ (ilog2 q / 2 - 52)⌋.toNat : ℚ) + 1)
  * 2 ^ (ilog2 q / 2 - 52)

/-- The library function `sqrt`. -/
def Double.sqrt : Double → Double
  | Double.nan => Double.nan
  | Double.inf neg => if neg then Double.nan else Double.inf false
  | Double.finite neg a =>
    if a = 0 then Double.finite neg 0
    else if neg then Double.nan
    else Double.finite false (Double.sqrtMag a)

/-- The comparison `a < b`, false when an operand is a NaN. -/
def Double.lt : Double → Double → Bool
  | Double.nan, _ => false
  | _, Double.nan => false
  | Double.inf s, Double.inf t => s && !t
  | Double.inf s, Double.finite _ _ => s
  | Double.finite _ _, Double.inf t => !t
  | Double.finite s a, Double.finite t b => decide ((if s then -a else a) < (if t then -b else b))

/-- The comparison `a <= b`, false when an operand is a NaN. -/
def Double.le : Double → Double → Bool
  | Double.nan, _ => false
  | _, Double.nan => false
  | Double.inf s, Double.inf t => s || !t
  | Double.inf s, Double.finite _ _ => s
  | Double.finite _ _, Double.inf t => !t
  | Double.finite s a, Double.finite t b => decide ((if s then -a else a) ≤ (if t then -b else b))

/-- The comparison `a != b`, true when an operand is a NaN; the two zeros are
equal. -/
def Double.ne : Double → Double → Bool
  | Double.nan, _ => true
  | _, Double.nan => true
  | Double.inf s, Double.inf t => s != t
  | Double.inf _, Double.finite _ _ => true
  | Double.finite _ _, Double.inf _ => true
  | Double.finite s a, Double.finite t b => decide ((if s then -a else a) ≠ (if t then -b else b))

instance : Add Double := ⟨Double.add⟩

instance : Sub Double := ⟨Double.sub⟩

instance : Div Double := ⟨Double.div⟩

instance : Neg Double := ⟨Double.neg⟩

instance : LT Double := ⟨fun a b => Double.lt a b = true⟩

instance : LE Double := ⟨fun a b => Double.le a b = true⟩

instance (a b : Double) : Decidable (a < b) := inferInstanceAs (Decidable (Double.lt a b = true))

instance (a b : Double) : Decidable (a ≤ b) := inferInstanceAs (Decidable (Double.le a b = true))

/-- The library function `modf(x, &int_part)`: the fractional part (the
result) and the integral part of `x`, both with the sign of `x`. -/
def modf : Double → Double × Double
  | Double.nan => (Double.nan, Double.nan)
  | Double.inf neg => (Double.finite neg 0, Double.inf neg)
  | Double.finite neg a => (Double.finite neg (a - (⌊a⌋ : ℚ)), Double.finite neg (⌊a⌋ : ℚ))

/-- The conversion `(int)x` of a finite `double` whose integral part is in the
range of `int`: the fractional part is discarded. -/
def toInt : Double → Int
  | Double.finite neg a => if neg then -⌊a⌋ else ⌊a⌋
  | _ => 0

/-- The constant `DBL_MAX` of `float.h`. -/
def DBL_MAX : Double := Double.finite false (2 ^ 1024 - 2 ^ 971)

/-- The constant `EPSILON` (line 8): the `double` nearest to 0.001. -/
def EPSILON : Double := Double.ofRat (1 / 1000)

/-! ## strtod -/

/-- The optional sign in front of a number: whether it is a minus, and what
follows it. -/
def strtodSign : List Char → Bool × List Char
  | '-' :: t => (true, t)
  | '+' :: t => (false, t)
  | s => (false, s)

/-- The optional fractional part of a number written with the digits `digit`:
its digits, and everything that it consumes (the point and the digits). -/
def strtodFrac (digit : Char → Bool) : List Char → List Char × List Char
  | '.' :: t => (t.takeWhile digit, '.' :: t.takeWhile digit)
  | _ => ([], [])

/-- The optional exponent part of a number, introduced by a character `marker`:
its value and what follows it.  A marker that is not followed by at least one
decimal digit (after an optional sign) is not part of the number. -/
def strtodExp (marker : Char → Bool) (s : List Char) : Int × List Char :=
  match s with
  | c :: t =>
    if marker c then
      if ((strtodSign t).2.takeWhile isdigit).isEmpty then (0, s)
      else ((if (strtodSign t).1 then -(digitsVal ((strtodSign t).2.takeWhile isdigit) : Int)
              else (digitsVal ((strtodSign t).2.takeWhile isdigit) : Int)),
            (strtodSign t).2.dropWhile isdigit)
    else (0, s)
  | [] => (0, s)

/-- The longest sequence `digits [. digits] [marker [+-] digits]` with at least
one digit before the exponent at the start of a string: the digits before the
point, the digits after it, the exponent, and what follows the sequence. -/
def strtodDigits (digit marker : Char → Bool) (s : List Char) :
    Option ((List Char × List Char × Int) × List Char) :=
  if (s.takeWhile digit).isEmpty && (strtodFrac digit (s.dropWhile digit)).1.isEmpty then none
  else
    some ((s.takeWhile digit, (strtodFrac digit (s.dropWhile digit)).1,
           (strtodExp marker ((s.dropWhile digit).drop
              (strtodFrac digit (s.dropWhile digit)).2.length)).1),
          (strtodExp marker ((s.dropWhile digit).drop
              (strtodFrac digit (s.dropWhile digit)).2.length)).2)

/-- What `strtod` finds after the white space and the sign, before rounding. -/
inductive Subject where
  /-- A decimal or hexadecimal number with this exact value. -/
  | number (value : ℚ)
  /-- The word `inf` or `infinity`. -/
  | inf
  /-- The word `nan`, possibly followed by a sequence in parentheses. -/
  | nan
deriving DecidableEq, Repr

/-- The rest of a string that starts with a word, every letter of which is
given in lower and in upper case; `none` when the string does not start with
the word. -/
def strtodLit : List (Char × Char) → List Char → Option (List Char)
  | [], s => some s
  | _ :: _, [] => none
  | (a, b) :: w, c :: s => if c == a || c == b then strtodLit w s else none

/-- What follows the word `nan`: a sequence of letters, digits and
underscores in parentheses is consumed with its parentheses, anything else is
left. -/
def strtodNanSeq (r : List Char) : List Char :=
  match r with
  | '(' :: t =>
    match t.dropWhile isnchar with
    | ')' :: u => u
    | _ => r
  | _ => r

/-- The words that `strtod` reads, in any mix of upper and lower case: `inf`,
`infinity`, `nan` and `nan(...)`. -/
def strtodWord (s : List Char) : Option (Subject × List Char) :=
  match strtodLit [('i', 'I'), ('n', 'N'), ('f', 'F')] s with
  | some r =>
    match strtodLit [('i', 'I'), ('n', 'N'), ('i', 'I'), ('t', 'T'), ('y', 'Y')] r with
    | some r2 => some (Subject.inf, r2)
    | none => some (Subject.inf, r)
  | none =>
    match strtodLit [('n', 'N'), ('a', 'A'), ('n', 'N')] s with
    | some r => some (Subject.nan, strtodNanSeq r)
    | none => none

/-- A hexadecimal number: `0x` or `0X`, hexadecimal digits with an optional
point, and an optional binary exponent introduced by `p` or `P`. -/
def strtodHex (s : List Char) : Option (Subject × List Char) :=
  match s with
  | '0' :: x :: t =>
    if x == 'x' || x == 'X' then
      match strtodDigits isxdigit (fun c => c == 'p' || c == 'P') t with
      | some r =>
        some (Subject.number ((xdigitsVal (r.1.1 ++ r.1.2.1) : ℚ)
                * 2 ^ (r.1.2.2 - 4 * (r.1.2.1.length : Int))), r.2)
      | none => none
    else none
  | _ => none

/-- A decimal number: digits with an optional point, and an optional decimal
exponent introduced by `e` or `E`. -/
def strtodDec (s : List Char) : Option (Subject × List Char) :=
  match strtodDigits isdigit (fun c => c == 'e' || c == 'E') s with
  | some r =>
    some (Subject.number ((digitsVal (r.1.1 ++ r.1.2.1) : ℚ)
            * 10 ^ (r.1.2.2 - (r.1.2.1.length : Int))), r.2)
  | none => none

/-- The subject sequence of `strtod`, looked for after the white space and the
sign: a word, else a hexadecimal number, else a decimal number. -/
def strtodSubject (s : List Char) : Option (Subject × List Char) :=
  match strtodWord s with
  | some r => some r
  | none =>
    match strtodHex s with
    | some r => some r
    | none => strtodDec s

/-- The `double` that a subject sequence with the sign `neg` is converted to:
a number is rounded to the nearest `double`. -/
def Subject.toDouble (neg : Bool) : Subject → Double
  | Subject.number value => Double.round neg value
  | Subject.inf => Double.inf neg
  | Subject.nan => Double.nan

/-- The library function `strtod(nptr, &endptr)`: white space is skipped, then
an optional sign and the longest sequence that is a decimal number, a
hexadecimal number or one of the words `inf`, `infinity`, `nan` is converted.
The result is the value and the end pointer; when no conversion is performed
the value is zero and the end pointer is `nptr`. -/
def strtod (nptr : List Char) : Double × List Char :=
  match strtodSubject (strtodSign (nptr.dropWhile isspace)).2 with
  | some r => (r.1.toDouble (strtodSign (nptr.dropWhile isspace)).1, r.2)
  | none => (0, nptr)

/-! ## strtok, fgets -/

/-- The tokens that `strtok(s, ",")` followed by repeated `strtok(NULL, ",")`
returns: the maximal non-empty runs of characters other than the delimiter. -/
def strtok_all (delim : Char) (s : List Char) : List (List Char) :=
  (s.splitOn delim).filter (fun t => !t.isEmpty)

/-- One call `fgets(line, size, stdin)` on a stream that is not at its end:
characters are read up to and including the first newline, and at most
`size - 1` of them.  The result is the line and the rest of the stream. -/
def fgets : Nat → List Char → List Char × List Char
  | _, [] => ([], [])
  | 0, s => ([], s)
  | 1, s => ([], s)
  | size + 2, c :: cs =>
    if c == '\n' then ([c], cs)
    else ((c :: (fgets (size + 1) cs).1), (fgets (size + 1) cs).2)

/-- The string that a buffer filled by `fgets` holds for `strcpy`, `strtok`
and `strtod`: a NUL character that was read from the stream ends it. -/
def cstr (line : List Char) : List Char := line.takeWhile (fun c => c != Char.ofNat 0)

/-! ## validate_integer_input -/

/-- The function `validate_integer_input(s, &out_val)`: `none` is the result
0, `some v` is the result 1 with `v` stored in `out_val`. -/
def validate_integer_input (s : List Char) : Option Int :=
  let start_num := s.dropWhile isspace
  if start_num.isEmpty then none
  else
    let r := strtod start_num
    if r.2.length == start_num.length then none
    else if !(r.2.all isspace) then none
    else
      let m := modf r.1
      if Double.ne m.1 0 then none
      else if m.2 < Double.ofInt (-2147483648) ∨ m.2 > Double.ofInt 2147483647 then none
      else some (toInt m.2)

/-! ## read_datapoints -/

/-- The message of every failure that is not about `K` or `iter`. -/
def generalError : String := "An Error Has Occurred"

/-- The three results of `read_datapoints`. -/
structure Dataset where
  /-- The vectors, in input order. -/
  datapoints : List (List Double)
  /-- The number of vectors. -/
  n : Nat
  /-- The dimension. -/
  d : Nat
deriving DecidableEq, Repr

/-- The local variables of `read_datapoints` that live across lines. -/
structure ReadState where
  /-- The vectors read so far. -/
  datapoints : List (List Double)
  /-- The number of vectors read so far. -/
  current_n : Nat
  /-- The dimension, once the first line has been seen. -/
  current_d : Nat
  /-- Whether no line has been counted yet. -/
  first_line : Bool
deriving DecidableEq, Repr

/-- The test `*endptr != '\0' && *endptr != '\n' && *endptr != '\r'` that
rejects a token (lines 160 to 169). -/
def endptr_bad (endptr : List Char) : Bool :=
  match endptr with
  | [] => false
  | c :: _ => c != '\n' && c != '\r'

/-- The loop of lines 155 to 172: every token is converted by `strtod` and
stored in the vector; the first token with a bad end pointer ends the run. -/
def parse_tokens : List (List Char) → Except String (List Double)
  | [] => .ok []
  | token :: rest =>
    if endptr_bad (strtod token).2 then .error generalError
    else
      match parse_tokens rest with
      | .ok vector => .ok ((strtod token).1 :: vector)
      | .error e => .error e

/-- The body of the `while` loop of `read_datapoints` for one line returned by
`fgets` (lines 101 to 187). -/
def read_line (st : ReadState) (line : List Char) : Except String ReadState :=
  if line.head? = some '\n' ∨ line.head? = some '\r' then .ok st
  else
    let tokens := strtok_all ',' (cstr line)
    if !st.first_line && tokens.length ≠ st.current_d then .error generalError
    else
      match parse_tokens tokens with
      | .error e => .error e
      | .ok vector =>
        .ok { datapoints := st.datapoints ++ [vector]
              current_n := st.current_n + 1
              current_d := if st.first_line then tokens.length else st.current_d
              first_line := false }

/-- The `while (fgets(...) != NULL)` loop of `read_datapoints`.  Every call of
`fgets` consumes at least one character, so a number of rounds equal to the
length of the stream is enough to reach its end. -/
def read_loop : Nat → List Char → ReadState → Except String ReadState
  | 0, _, st => .ok st
  | fuel + 1, stream, st =>
    if stream.isEmpty then .ok st
    else
      match read_line st (fgets 4096 stream).1 with
      | .error e => .error e
      | .ok st1 => read_loop fuel (fgets 4096 stream).2 st1

/-- The function `read_datapoints` on the contents of standard input. -/
def read_datapoints (stdin : List Char) : Except String Dataset :=
  match read_loop stdin.length stdin
      { datapoints := [], current_n := 0, current_d := 0, first_line := true } with
  | .error e => .error e
  | .ok st =>
    if st.current_n = 0 then .error generalError
    else .ok { datapoints := st.datapoints, n := st.current_n, d := st.current_d }

/-! ## The clustering -/

/-- The function `calculate_distance(p1, p2, d)`.  Both vectors have at least
`d` components wherever the program calls it. -/
def calculate_distance (p1 p2 : List Double) (d : Nat) : Double :=
  Double.sqrt
    ((List.range d).foldl (fun dist i => dist + Double.pow2 (p1.getD i 0 - p2.getD i 0)) 0)

/-- The loop over `j` of lines 333 to 342 for one data point: the value of
`closest_cluster_idx` when it ends. -/
def closest_cluster (point : List Double) (centroids : List (List Double)) (k d : Nat) : Int :=
  ((List.range k).foldl
    (fun (s : Double × Int) j =>
      if calculate_distance point (centroids.getD j []) d < s.1 then
        (calculate_distance point (centroids.getD j []) d, (j : Int))
      else s)
    (DBL_MAX, -1)).2

/-- The assignment pass (lines 329 to 349): the table of assignments and the
flag `changed_assignments` when the loop over `i` ends. -/
def assign_step (datapoints centroids : List (List Double)) (n k d iter_count : Nat)
    (assignments : List Int) : List Int × Bool :=
  (List.range n).foldl
    (fun (s : List Int × Bool) i =>
      if iter_count = 0 ∨ s.1.getD i 0 ≠ closest_cluster (datapoints.getD i []) centroids k d then
        (s.1.set i (closest_cluster (datapoints.getD i []) centroids k d), true)
      else s)
    (assignments, false)

/-- The accumulation loop (lines 404 to 410): the arrays `cluster_sizes` and
`new_centroids_sum` when it ends.  Both arrays have `k` entries, so an
assignment outside `0 .. k-1` is an access outside them: the result is
`none`. -/
def accumulate (datapoints : List (List Double)) (n k d : Nat) (assignments : List Int) :
    Option (List Int × List (List Double)) :=
  (List.range n).foldl
    (fun (acc : Option (List Int × List (List Double))) i =>
      match acc with
      | none => none
      | some s =>
        if assignments.getD i 0 < 0 ∨ (k : Int) ≤ assignments.getD i 0 then none
        else
          some (s.1.set (assignments.getD i 0).toNat (s.1.getD (assignments.getD i 0).toNat 0 + 1),
                s.2.set (assignments.getD i 0).toNat
                  ((List.range d).map (fun j =>
                    (s.2.getD (assignments.getD i 0).toNat []).getD j 0
                      + (datapoints.getD i []).getD j 0))))
    (some (List.replicate k 0, List.replicate k (List.replicate d 0)))

/-- The loop over the clusters of lines 413 to 454: the centroids and the flag
`converged` when it ends. -/
def recompute (centroids : List (List Double)) (k d : Nat) (cluster_sizes : List Int)
    (new_centroids_sum : List (List Double)) : List (List Double) × Bool :=
  (List.range k).foldl
    (fun (s : List (List Double) × Bool) i =>
      if cluster_sizes.getD i 0 > 0 then
        (s.1.set i ((List.range d).map (fun j =>
            (new_centroids_sum.getD i []).getD j 0 / Double.ofInt (cluster_sizes.getD i 0))),
         if EPSILON ≤ calculate_distance (s.1.getD i [])
              ((List.range d).map (fun j =>
                (new_centroids_sum.getD i []).getD j 0 / Double.ofInt (cluster_sizes.getD i 0))) d
         then false else s.2)
      else (s.1, false))
    (centroids, true)

/-- The update step (lines 357 to 461): the new centroids and the flag
`converged`, or `none` when the accumulation leaves its arrays. -/
def update_step (datapoints centroids : List (List Double)) (n k d : Nat) (assignments : List Int) :
    Option (List (List Double) × Bool) :=
  match accumulate datapoints n k d assignments with
  | none => none
  | some acc => some (recompute centroids k d acc.1 acc.2)

/-- Why the main loop ended. -/
inductive Stop where
  /-- No assignment changed (the `break` of line 353). -/
  | stable
  /-- Every centroid moved less than `EPSILON` (the `break` of line 465). -/
  | moved
  /-- The counter `iter_count` reached `iter`. -/
  | budget
deriving DecidableEq, Repr

/-- The state of the program when the main loop has ended. -/
structure Final where
  /-- The centroids, which step 4 prints. -/
  centroids : List (List Double)
  /-- The table of assignments. -/
  assignments : List Int
  /-- The value of `iter_count`. -/
  iter_count : Nat
  /-- The way the loop ended. -/
  stop : Stop
deriving DecidableEq, Repr

/-- The main loop (lines 328 to 467), started at `iter_count` with `remaining`
rounds left before the counter reaches `iter`.  The result is `none` when the
update step leaves its arrays. -/
def kmeans_loop (datapoints : List (List Double)) (n k d : Nat) :
    Nat → Nat → List (List Double) → List Int → Option Final
  | 0, iter_count, centroids, assignments =>
    some { centroids := centroids, assignments := assignments, iter_count := iter_count,
           stop := Stop.budget }
  | remaining + 1, iter_count, centroids, assignments =>
    let a := assign_step datapoints centroids n k d iter_count assignments
    if !a.2 && decide (iter_count > 0) then
      some { centroids := centroids, assignments := a.1, iter_count := iter_count,
             stop := Stop.stable }
    else
      match update_step datapoints centroids n k d a.1 with
      | none => none
      | some u =>
        if u.2 then
          some { centroids := u.1, assignments := a.1, iter_count := iter_count,
                 stop := Stop.moved }
        else kmeans_loop datapoints n k d remaining (iter_count + 1) u.1 a.1

/-- The initial centroids (lines 292 to 310): copies of the first `k` data
points. -/
def init_centroids (datapoints : List (List Double)) (k d : Nat) : List (List Double) :=
  (List.range k).map (fun i => (List.range d).map (fun j => (datapoints.getD i []).getD j 0))

/-- Steps 3 and 4 of `main` for a dataset and validated `k` and `iter`: the
centroids are initialised, the main loop runs and its final state is returned.
The table of assignments is allocated without being initialised; its contents
are not read before the first pass has written them. -/
def kmeans (data : Dataset) (k iter : Nat) : Option Final :=
  kmeans_loop data.datapoints data.n k data.d iter 0
    (init_centroids data.datapoints k data.d) (List.replicate data.n 0)

/-! ## main -/

/-- The message for a bad `K`. -/
def clustersError : String := "Incorrect number of clusters!"

/-- The message for a bad `iter`. -/
def iterationError : String := "Incorrect maximum iteration!"

/-- What a run of the program does. -/
inductive Outcome where
  /-- The run ends in `error_and_exit` with this message: the message goes to
  standard error, nothing is printed on standard output, the exit code is 1. -/
  | failure (message : String)
  /-- The run prints these centroids, one per line, and returns 0. -/
  | printed (centroids : List (List Double))
  /-- The run leaves the bounds of an array. -/
  | undefined
deriving DecidableEq, Repr

/-- The part of `main` that follows the parsing of the arguments (lines 265 to
478), for the values of `k` and `iter` that the arguments gave. -/
def run (k iter : Int) (stdin : List Char) : Outcome :=
  match read_datapoints stdin with
  | .error e => Outcome.failure e
  | .ok data =>
    if k ≥ (data.n : Int) then Outcome.failure clustersError
    else
      match kmeans data k.toNat iter.toNat with
      | none => Outcome.undefined
      | some final => Outcome.printed final.centroids

/-- The function `main`: `argv` holds the program name and the arguments, so
`argc` is its length. -/
def main (argv : List (List Char)) (stdin : List Char) : Outcome :=
  if argv.length < 2 ∨ argv.length > 3 then Outcome.failure generalError
  else
    match validate_integer_input (argv.getD 1 []) with
    | none => Outcome.failure clustersError
    | some k =>
      if k ≤ 1 then Outcome.failure clustersError
      else if argv.length = 3 then
        match validate_integer_input (argv.getD 2 []) with
        | none => Outcome.failure iterationError
        | some iter =>
          if iter ≤ 1 ∨ iter ≥ 1000 then Outcome.failure iterationError
          else run k iter stdin
      else run k 400 stdin



/-! ## The output -/

/-- The character of a decimal digit. -/
def digit_char (n : Nat) : Char := Char.ofNat (48 + n % 10)

/-- The decimal digits of a natural number, most significant first; `fuel`
bounds the number of digits. -/
def nat_digits_fuel : Nat → Nat → List Char
  | 0, n => [digit_char n]
  | fuel + 1, n =>
    if n < 10 then [digit_char n] else nat_digits_fuel fuel (n / 10) ++ [digit_char n]

/-- The decimal digits of a natural number. -/
def nat_digits (n : Nat) : List Char := nat_digits_fuel n n

/-- The text that `printf("%.4f", x)` writes: for a finite `x` a minus sign if
the sign of `x` is negative, the integral digits, a point and four decimals,
the exact value of `x` being rounded to the nearest multiple of 0.0001, ties
to even; for an infinity the word `inf` after the sign.  The text for a NaN
(`nan` or `-nan`) is not modelled. -/
def printf_4f : Double → Option (List Char)
  | Double.nan => none
  | Double.inf neg => some ((if neg then ['-'] else []) ++ ['i', 'n', 'f'])
  | Double.finite neg a =>
    some ((if neg then ['-'] else [])
      ++ nat_digits (round_half_even (a * 10000) / 10000)
      ++ ['.', digit_char (round_half_even (a * 10000) / 1000),
          digit_char (round_half_even (a * 10000) / 100),
          digit_char (round_half_even (a * 10000) / 10),
          digit_char (round_half_even (a * 10000))])

/-- Step 4 of `main` (lines 470 to 478): the text written on standard
output, when no value is a NaN. -/
def print_centroids (centroids : List (List Double)) (k d : Nat) : Option (List Char) :=
  (List.range k).foldl
    (fun out i =>
      ((List.range d).foldl
        (fun out j =>
          match out, printf_4f ((centroids.getD i []).getD j 0) with
          | some text, some value => some (text ++ value ++ (if j + 1 < d then [','] else []))
          | _, _ => none)
        out).map (fun text => text ++ ['\n']))
    (some [])

/-- What a run leaves behind: the text on standard output, the text on
standard error and the exit code. -/
structure Streams where
  /-- The text written on standard output. -/
  stdout : List Char
  /-- The text written on standard error. -/
  stderr : List Char
  /-- The exit code. -/
  exit_code : Int
deriving DecidableEq, Repr

/-- The function `error_and_exit` (lines 10 to 13): the message and a line
feed go to standard error, the exit code is 1. -/
def error_and_exit (message : String) : Streams :=
  { stdout := [], stderr := message.toList ++ ['\n'], exit_code := 1 }

/-- The streams of a run of `main`: a failure is `error_and_exit`, a run that
reaches step 4 prints the centroids with the `k` of the arguments and the `d`
of the dataset and returns 0.  Nothing is said (`none`) of a run that leaves
the bounds of an array or prints a NaN. -/
def main_streams (argv : List (List Char)) (stdin : List Char) : Option Streams :=
  match main argv stdin with
  | Outcome.failure message => some (error_and_exit message)
  | Outcome.undefined => none
  | Outcome.printed centroids =>
    match validate_integer_input (argv.getD 1 []), read_datapoints stdin with
    | some k, .ok data =>
      match print_centroids centroids k.toNat data.d with
      | some text => some { stdout := text, stderr := [], exit_code := 0 }
      | none => none
    | _, _ => none
/-! ## Auxiliary definitions for the statements -/

deriving instance DecidableEq for Except

/-- Whether a run ended in `error_and_exit`. -/
def Outcome.isFailure : Outcome → Bool
  | Outcome.failure _ => true
  | _ => false

/-- The lines that the successive calls of `fgets` in `read_datapoints` return
on a stream, `fuel` calls at most. -/
def stdin_lines_aux : Nat → List Char → List (List Char)
  | 0, _ => []
  | fuel + 1, stream =>
    if stream.isEmpty then []
    else (fgets 4096 stream).1 :: stdin_lines_aux fuel (fgets 4096 stream).2

/-- The lines that the successive calls of `fgets` return on the whole of
standard input. -/
def stdin_lines (stdin : List Char) : List (List Char) := stdin_lines_aux stdin.length stdin

/-- The loop body `read_line` run over a list of lines, up to the first
failure. -/
def read_lines : ReadState → List (List Char) → Except String ReadState
  | st, [] => .ok st
  | st, line :: rest =>
    match read_line st line with
    | .error e => .error e
    | .ok st1 => read_lines st1 rest

/-- Whether `read_datapoints` skips a line (line 102). -/
def is_skipped (line : List Char) : Bool :=
  line.head? = some '\n' || line.head? = some '\r'

/-- The number of tokens that `strtok` finds in a line. -/
def token_count (line : List Char) : Nat := (strtok_all ',' (cstr line)).length

/-- A string that `strtod` converts completely: it is not empty and the end
pointer is its end. -/
def is_number (s : List Char) : Bool := !s.isEmpty && (strtod s).2.isEmpty

/-- A field of an input line that is a number: `strtod` converts all of it, and
it holds no comma, line feed, carriage return or NUL. -/
def is_number_field (f : List Char) : Bool :=
  is_number f && f.all (fun c => c != ',' && c != '\n' && c != '\r' && c != Char.ofNat 0)

/-- The text of a line: its fields, separated by commas. -/
def line_text (fields : List (List Char)) : List Char := [','].intercalate fields

/-- A character that can continue a number or a word that `strtod` has read: a
hexadecimal digit (which includes the decimal digits and the letter of the
decimal exponent), the point, the letter `x` of a hexadecimal number, the
letter `p` of its exponent, the letter `i` that continues `inf` to `infinity`,
and the parenthesis that may follow `nan`. -/
def continues_number (c : Char) : Bool :=
  isxdigit c || c == '.' || c == 'x' || c == 'X' || c == 'p' || c == 'P' || c == 'i'
    || c == 'I' || c == '('

/-- The tokens of a line whose last field is followed by the end of the line:
the fields, the last one with the end of the line attached. -/
def append_last : List (List Char) → List Char → List (List Char)
  | [], _ => []
  | [f], eol => [f ++ eol]
  | f :: g :: fs, eol => f :: append_last (g :: fs) eol

/-- The vector that a line of number fields is read as. -/
def field_values (fields : List (List Char)) : List Double := fields.map (fun f => (strtod f).1)

/-- The state of `read_datapoints` once it has read the given records of
dimension `d` from the state `st`. -/
def after_records (st : ReadState) (d : Nat) (records : List (List (List Char))) : ReadState :=
  if records = [] then st
  else
    { datapoints := st.datapoints ++ records.map field_values
      current_n := st.current_n + records.length
      current_d := d
      first_line := false }

/-- The end of a line in front of its line feed: a carriage return, or
nothing. -/
def line_end (cr : Bool) : List Char := if cr then ['\r'] else []

/-- The data points, among the first `n`, that a table of assignments gives to
cluster `j`. -/
def cluster_members (assignments : List Int) (n j : Nat) : List Nat :=
  (List.range n).filter (fun i => assignments.getD i 0 == (j : Int))

/-- The sum of component `c` over the data points of cluster `j`, as the
program computes it: the components are added to `+0`, one after the other,
in the order of the data points, every sum being rounded. -/
def cluster_sum (datapoints : List (List Double)) (assignments : List Int) (n j c : Nat) :
    Double :=
  (cluster_members assignments n j).foldl
    (fun acc i => acc + (datapoints.getD i []).getD c 0) 0

/-- The mean of the data points of cluster `j` as the program computes it,
component by component: the computed sum, divided by the number of the points
converted to `double`, the quotient being rounded. -/
def cluster_mean (datapoints : List (List Double)) (assignments : List Int) (n d j : Nat) :
    List Double :=
  (List.range d).map (fun c =>
    cluster_sum datapoints assignments n j c
      / Double.ofInt ((cluster_members assignments n j).length : Int))

/-- The exact sum of a list of `double` values, when all are finite. -/
def sum_exact (values : List Double) : Option ℚ :=
  values.foldl
    (fun acc x =>
      match acc, x.toRat with
      | some s, some v => some (s + v)
      | _, _ => none)
    (some 0)

/-- The arithmetic mean of component `c` of the data points of cluster `j`, in
exact arithmetic, when the cluster is not empty and the components are
finite. -/
def mean_exact (datapoints : List (List Double)) (assignments : List Int) (n j c : Nat) :
    Option ℚ :=
  if cluster_members assignments n j = [] then none
  else
    (sum_exact ((cluster_members assignments n j).map
        (fun i => (datapoints.getD i []).getD c 0))).map
      (fun s => s / ((cluster_members assignments n j).length : ℚ))

/-- The square of the Euclidean distance of two vectors of dimension `d`, in
exact arithmetic, when their components are finite. -/
def sq_dist_exact (p1 p2 : List Double) (d : Nat) : Option ℚ :=
  (List.range d).foldl
    (fun acc i =>
      match acc, (p1.getD i 0).toRat, (p2.getD i 0).toRat with
      | some s, some x, some y => some (s + (x - y) ^ 2)
      | _, _, _ => none)
    (some 0)

/-- The value `new_centroid_val` that line 439 computes for cluster `i`. -/
def new_centroid_val (d : Nat) (cluster_sizes : List Int) (new_centroids_sum : List (List Double))
    (i : Nat) : List Double :=
  (List.range d).map (fun j =>
    (new_centroids_sum.getD i []).getD j 0 / Double.ofInt (cluster_sizes.getD i 0))

/-- The values of `min_dist` and `closest_cluster_idx` when the loop over `j` of
lines 336 to 342 has looked at the first `k` centroids. -/
def closest_scan (point : List Double) (centroids : List (List Double)) (k d : Nat) :
    Double × Int :=
  (List.range k).foldl
    (fun (s : Double × Int) j =>
      if calculate_distance point (centroids.getD j []) d < s.1 then
        (calculate_distance point (centroids.getD j []) d, (j : Int))
      else s)
    (DBL_MAX, -1)

/-! ## Auxiliary definitions for the statements about the main loop -/

/-- The main loop with two counters that the program does not have: the
number of assignment passes and the number of update steps that it starts. -/
def kmeans_loop_count (datapoints : List (List Double)) (n k d : Nat) :
    Nat → Nat → List (List Double) → List Int → Option Final × Nat × Nat
  | 0, iter_count, centroids, assignments =>
    (some { centroids := centroids, assignments := assignments, iter_count := iter_count,
            stop := Stop.budget }, 0, 0)
  | remaining + 1, iter_count, centroids, assignments =>
    let a := assign_step datapoints centroids n k d iter_count assignments
    if !a.2 && decide (iter_count > 0) then
      (some { centroids := centroids, assignments := a.1, iter_count := iter_count,
              stop := Stop.stable }, 1, 0)
    else
      match update_step datapoints centroids n k d a.1 with
      | none => (none, 1, 1)
      | some u =>
        if u.2 then
          (some { centroids := u.1, assignments := a.1, iter_count := iter_count,
                  stop := Stop.moved }, 1, 1)
        else
          ((kmeans_loop_count datapoints n k d remaining (iter_count + 1) u.1 a.1).1,
           (kmeans_loop_count datapoints n k d remaining (iter_count + 1) u.1 a.1).2.1 + 1,
           (kmeans_loop_count datapoints n k d remaining (iter_count + 1) u.1 a.1).2.2 + 1)


/-! ## Auxiliary definitions for the statements about the output -/

/-- Whether the magnitude of a `double`, if it is finite, is not negative.
Every value that the program reads or computes is of this kind. -/
def Double.isValid : Double → Bool
  | Double.finite _ mag => decide (0 ≤ mag)
  | _ => true

/-! ## The checks of `main` on its arguments -/

theorem run_of_read_ok {stdin : List Char} {data : Dataset} (k iter : Int)
    (hdata : read_datapoints stdin = .ok data) :
    run k iter stdin =
      if k ≥ (data.n : Int) then Outcome.failure clustersError
      else
        match kmeans data k.toNat iter.toNat with
        | none => Outcome.undefined
        | some final => Outcome.printed final.centroids := by
  simp only [run, hdata]

/-- The function `main` once its arguments have been accepted. -/
theorem main_of_args_ok (argv : List (List Char)) (k iter : Int) (stdin : List Char)
    (hk : validate_integer_input (argv.getD 1 []) = some k) (hk1 : 1 < k)
    (hiter : (argv.length = 2 ∧ iter = 400) ∨
      (argv.length = 3 ∧ validate_integer_input (argv.getD 2 []) = some iter ∧
        1 < iter ∧ iter < 1000)) :
    main argv stdin = run k iter stdin := by
  unfold main
  rcases hiter with ⟨hl, hi⟩ | ⟨hl, hv, h1, h2⟩
  · subst hi
    rw [if_neg (by omega), hk]
    simp only [if_neg (not_le.mpr hk1), hl]
    rfl
  · have h3 : ¬ (iter ≤ 1 ∨ iter ≥ 1000) := by omega
    rw [if_neg (by omega), hk]
    simp only [if_neg (not_le.mpr hk1), hl, if_true, hv, if_neg h3]

/-- The check of `K` against `n`: when `K` is well formed, the iteration
argument is absent or valid and the input parses to `n` records, the run fails
with "Incorrect number of clusters!" if `K <= 1` or `K >= n`; if `1 < K < n`
it does not fail in `error_and_exit`: it runs the main loop on the parsed data
with the first `K` points as centroids, and prints the centroids that the loop
leaves unless the loop leaves the bounds of an array. -/
theorem main_cluster_count (argv : List (List Char)) (stdin : List Char) (k iter : Int)
    (data : Dataset)
    (hk : validate_integer_input (argv.getD 1 []) = some k)
    (hiter : (argv.length = 2 ∧ iter = 400) ∨
      (argv.length = 3 ∧ validate_integer_input (argv.getD 2 []) = some iter ∧
        1 < iter ∧ iter < 1000))
    (hdata : read_datapoints stdin = .ok data) :
    ((k ≤ 1 ∨ (data.n : Int) ≤ k) → main argv stdin = Outcome.failure clustersError) ∧
    ((1 < k ∧ k < (data.n : Int)) →
      (main argv stdin).isFailure = false ∧
      main argv stdin =
        match kmeans_loop data.datapoints data.n k.toNat data.d iter.toNat 0
            (init_centroids data.datapoints k.toNat data.d) (List.replicate data.n 0) with
        | none => Outcome.undefined
        | some final => Outcome.printed final.centroids) := by
  have hlen : ¬ (argv.length < 2 ∨ argv.length > 3) := by
    rcases hiter with ⟨hl, _⟩ | ⟨hl, _⟩ <;> omega
  constructor
  · intro h
    by_cases hk1 : k ≤ 1
    · unfold main
      rw [if_neg hlen, hk]
      simp only [if_pos hk1]
    · have hn : (data.n : Int) ≤ k := by
        rcases h with h | h
        · exact absurd h hk1
        · exact h
      rw [main_of_args_ok argv k iter stdin hk (not_le.mp hk1) hiter, run_of_read_ok k iter hdata]
      simp [hn]
  · rintro ⟨hk1, hkn⟩
    rw [main_of_args_ok argv k iter stdin hk hk1 hiter, run_of_read_ok k iter hdata]
    simp only [ge_iff_le, not_le.mpr hkn, if_false, kmeans]
    cases kmeans_loop data.datapoints data.n k.toNat data.d iter.toNat 0
        (init_centroids data.datapoints k.toNat data.d) (List.replicate data.n 0) <;>
      simp [Outcome.isFailure]

/-- C1 on the input `0`, `0`, `1e200` with `K = 2`, a run with a valid
`K` (`1 < 2 < n = 3`): the square of the difference of the third point and a
centroid overflows, the computed distance is infinite, no centroid is at a
distance below `DBL_MAX`, the first assignment pass stores -1 for the third
point and the accumulation leaves the arrays `cluster_sizes` and
`new_centroids_sum`: the run does not print centroids.  On the same input the
values 1, 3 and 4 of `K` end in "Incorrect number of clusters!". -/
theorem cluster_count_valid_run_overflow :
    validate_integer_input "2".toList = some 2 ∧
    read_datapoints "0\n0\n1e200\n".toList =
      .ok { datapoints := [[0], [0], [Double.ofRat (10 ^ 200)]], n := 3, d := 1 } ∧
    Double.pow2 (Double.ofRat (10 ^ 200) - 0) = Double.inf false ∧
    calculate_distance [Double.ofRat (10 ^ 200)] [0] 1 = Double.inf false ∧
    assign_step [[0], [0], [Double.ofRat (10 ^ 200)]] [[0], [0]] 3 2 1 0 [0, 0, 0]
      = ([0, 0, -1], true) ∧
    accumulate [[0], [0], [Double.ofRat (10 ^ 200)]] 3 2 1 [0, 0, -1] = none ∧
    main ["kmeans".toList, "2".toList] "0\n0\n1e200\n".toList = Outcome.undefined ∧
    main_streams ["kmeans".toList, "2".toList] "0\n0\n1e200\n".toList = none ∧
    main ["kmeans".toList, "1".toList] "0\n0\n1e200\n".toList = Outcome.failure clustersError ∧
    main ["kmeans".toList, "3".toList] "0\n0\n1e200\n".toList = Outcome.failure clustersError ∧
    main ["kmeans".toList, "4".toList] "0\n0\n1e200\n".toList
      = Outcome.failure clustersError := by
  decide!

/-- C2: for a well formed `K > 1`, an iteration argument that
`validate_integer_input` rejects or whose value is `<= 1` or `>= 1000` ends
the run with "Incorrect maximum iteration!"; a value with `1 < iter < 1000` is
accepted and is the cap of the main loop; without the argument the cap is 400,
and the run is the same as the run with the argument `400`. -/
theorem iteration_check (prog karg iarg stdin : List Char) (k : Int)
    (hk : validate_integer_input karg = some k) (hk1 : 1 < k) :
    (validate_integer_input iarg = none →
      main [prog, karg, iarg] stdin = Outcome.failure iterationError) ∧
    (∀ iter : Int, validate_integer_input iarg = some iter → (iter ≤ 1 ∨ 1000 ≤ iter) →
      main [prog, karg, iarg] stdin = Outcome.failure iterationError) ∧
    (∀ iter : Int, validate_integer_input iarg = some iter → 1 < iter → iter < 1000 →
      main [prog, karg, iarg] stdin = run k iter stdin) ∧
    main [prog, karg] stdin = run k 400 stdin ∧
    main [prog, karg] stdin = main [prog, karg, ['4', '0', '0']] stdin := by
  have h400 : validate_integer_input ['4', '0', '0'] = some 400 := by decide!
  have hdef : main [prog, karg] stdin = run k 400 stdin :=
    main_of_args_ok [prog, karg] k 400 stdin hk hk1 (Or.inl ⟨rfl, rfl⟩)
  have hk1' : ¬ k ≤ 1 := not_le.mpr hk1
  refine ⟨?_, ?_, ?_, hdef, ?_⟩
  · intro hv
    unfold main
    rw [if_neg (by simp)]
    simp only [List.getD_cons_succ, List.getD_cons_zero, hk, if_neg hk1', hv, List.length_cons,
      List.length_nil, if_true]
  · intro iter hv hr
    unfold main
    rw [if_neg (by simp)]
    simp only [List.getD_cons_succ, List.getD_cons_zero, hk, if_neg hk1', hv, List.length_cons,
      List.length_nil, if_true]
    rw [if_pos (by omega)]
  · intro iter hv h1 h2
    exact main_of_args_ok [prog, karg, iarg] k iter stdin hk hk1 (Or.inr ⟨rfl, hv, h1, h2⟩)
  · rw [hdef]
    exact (main_of_args_ok [prog, karg, ['4', '0', '0']] k 400 stdin hk hk1
      (Or.inr ⟨rfl, h400, by decide, by decide⟩)).symm

/-- An instance: the argument `1000` is rejected. -/
theorem iteration_check_witness :
    main ["kmeans".toList, "2".toList, "1000".toList] "1\n2\n3\n".toList
      = Outcome.failure iterationError :=
  (iteration_check "kmeans".toList "2".toList "1000".toList "1\n2\n3\n".toList 2
    (by decide!) (by decide)).2.1 1000 (by decide!) (Or.inr (by decide))

/-! ## strtod: what it converts only depends on what it consumes -/

theorem takeWhile_append_stop {p : Char → Bool} (l r : List Char)
    (hr : ∀ c ∈ r.head?, p c = false) : (l ++ r).takeWhile p = l.takeWhile p := by
  induction l with
  | nil =>
    cases r with
    | nil => rfl
    | cons c t => simp [List.takeWhile_cons, hr c (by simp)]
  | cons a l ih => simp [List.takeWhile_cons, ih]

theorem dropWhile_append_stop {p : Char → Bool} (l r : List Char)
    (hr : ∀ c ∈ r.head?, p c = false) : (l ++ r).dropWhile p = l.dropWhile p ++ r := by
  induction l with
  | nil =>
    cases r with
    | nil => rfl
    | cons c t => simp [List.dropWhile_cons, hr c (by simp)]
  | cons a l ih =>
    by_cases h : p a = true
    · simp [List.dropWhile_cons, h, ih]
    · simp [List.dropWhile_cons, h]

theorem dropWhile_append_of_ne_nil {p : Char → Bool} (l r : List Char)
    (h : l.dropWhile p ≠ []) : (l ++ r).dropWhile p = l.dropWhile p ++ r := by
  induction l with
  | nil => exact absurd rfl h
  | cons a l ih =>
    by_cases ha : p a = true
    · simp only [List.cons_append, List.dropWhile_cons, ha, if_true] at h ⊢
      exact ih h
    · simp [List.dropWhile_cons, ha]

theorem drop_length_takeWhile (p : Char → Bool) (l : List Char) :
    l.drop (l.takeWhile p).length = l.dropWhile p := by
  induction l with
  | nil => rfl
  | cons a l ih =>
    by_cases h : p a = true
    · simp [List.takeWhile_cons, List.dropWhile_cons, h, ih]
    · simp [List.takeWhile_cons, List.dropWhile_cons, h]

theorem dropWhile_takeWhile_self (p : Char → Bool) (l : List Char) :
    (l.takeWhile p).dropWhile p = [] := by
  rw [List.dropWhile_eq_nil_iff]
  intro x hx
  exact (List.mem_takeWhile_imp hx)

theorem takeWhile_append_all_stop (p : Char → Bool) (l r : List Char)
    (hl : ∀ x ∈ l, p x = true) (hr : ∀ c ∈ r.head?, p c = false) :
    (l ++ r).takeWhile p = l ∧ (l ++ r).dropWhile p = r := by
  constructor
  · rw [takeWhile_append_stop l r hr, List.takeWhile_eq_self_iff]
    exact hl
  · rw [dropWhile_append_stop l r hr, List.dropWhile_eq_nil_iff.mpr hl, List.nil_append]

theorem dropWhile_dropWhile_self {α : Type} (p : α → Bool) (l : List α) :
    (l.dropWhile p).dropWhile p = l.dropWhile p := by
  induction l with
  | nil => rfl
  | cons a t ih =>
    by_cases h : p a = true
    · rw [List.dropWhile_cons_of_pos h, ih]
    · rw [List.dropWhile_cons_of_neg h, List.dropWhile_cons_of_neg h]

theorem dropWhile_all {α : Type} (p : α → Bool) (ws rest : List α)
    (h : ws.all p = true) : (ws ++ rest).dropWhile p = rest.dropWhile p := by
  induction ws with
  | nil => rfl
  | cons a t ih =>
    simp only [List.all_cons, Bool.and_eq_true] at h
    rw [List.cons_append, List.dropWhile_cons_of_pos h.1, ih h.2]

theorem head_dropWhile_not (p : Char → Bool) (l : List Char) :
    ∀ c ∈ (l.dropWhile p).head?, p c = false := by
  intro c hc
  have := List.head?_dropWhile_not p l
  rw [Option.mem_def.mp hc] at this
  simpa using this

theorem strtodSign_append (s r : List Char) (hs : s ≠ []) :
    strtodSign (s ++ r) = ((strtodSign s).1, (strtodSign s).2 ++ r) := by
  cases s with
  | nil => exact absurd rfl hs
  | cons c t =>
    by_cases h1 : c = '-'
    · subst h1; rfl
    · by_cases h2 : c = '+'
      · subst h2; rfl
      · have e1 : ∀ u, strtodSign (c :: u) = (false, c :: u) := by
          intro u
          unfold strtodSign
          split
          · rename_i heq; cases heq; exact absurd rfl h1
          · rename_i heq; cases heq; exact absurd rfl h2
          · rfl
        rw [List.cons_append, e1, e1]
        rfl

/-- What `strtodSign` does only depends on the first character. -/
theorem strtodSign_not_sign (c : Char) (u : List Char) (h1 : c ≠ '-') (h2 : c ≠ '+') :
    strtodSign (c :: u) = (false, c :: u) := by
  unfold strtodSign
  split
  · rename_i heq; cases heq; exact absurd rfl h1
  · rename_i heq; cases heq; exact absurd rfl h2
  · rfl

theorem strtodFrac_append (digit : Char → Bool) (s r : List Char)
    (hr : ∀ c ∈ r.head?, digit c = false ∧ c ≠ '.') :
    strtodFrac digit (s ++ r) = strtodFrac digit s := by
  have hdig : ∀ c ∈ r.head?, digit c = false := fun c hc => (hr c hc).1
  cases s with
  | nil =>
    cases r with
    | nil => rfl
    | cons c t =>
      have hc := hr c (by simp)
      unfold strtodFrac
      split
      · rename_i heq
        simp only [List.nil_append, List.cons.injEq] at heq
        exact absurd heq.1 hc.2
      · rfl
  | cons a t =>
    by_cases ha : a = '.'
    · subst ha
      simp only [List.cons_append, strtodFrac, takeWhile_append_stop t r hdig]
    · have e1 : ∀ u, strtodFrac digit (a :: u) = ([], []) := by
        intro u
        unfold strtodFrac
        split
        · rename_i heq; cases heq; exact absurd rfl ha
        · rfl
      rw [List.cons_append, e1, e1]

theorem strtodFrac_length_le (digit : Char → Bool) (s : List Char) :
    (strtodFrac digit s).2.length ≤ s.length := by
  unfold strtodFrac
  split
  · rename_i t
    simp only [List.length_cons, Nat.add_le_add_iff_right]
    exact (List.takeWhile_sublist _).length_le
  · simp

theorem strtodExp_append (marker : Char → Bool) (s r : List Char)
    (hs : (strtodExp marker s).2 = [])
    (hr : ∀ c ∈ r.head?, isdigit c = false ∧ marker c = false) :
    strtodExp marker (s ++ r) = ((strtodExp marker s).1, r) := by
  have hdig : ∀ c ∈ r.head?, isdigit c = false := fun c hc => (hr c hc).1
  cases s with
  | nil =>
    cases r with
    | nil => rfl
    | cons c t =>
      have hc := hr c (by simp)
      simp [strtodExp, hc.2]
  | cons c t =>
    by_cases hce : marker c = true
    · simp only [strtodExp, hce, if_true] at hs
      by_cases hds : ((strtodSign t).2.takeWhile isdigit).isEmpty = true
      · simp [hds] at hs
      · simp only [hds] at hs
        have ht : t ≠ [] := by
          intro h
          subst h
          simp [strtodSign] at hds
        have hs2 : (strtodSign t).2.dropWhile isdigit = [] := by simpa using hs
        simp only [List.cons_append, strtodExp, hce, if_true, strtodSign_append t r ht,
          takeWhile_append_stop _ r hdig, dropWhile_append_stop _ r hdig, hds, hs2,
          List.nil_append]
        simp
    · simp [strtodExp, hce] at hs

/-- What `strtodExp` consumes is an exponent, and it is the start of the
argument. -/
theorem strtodExp_split (marker : Char → Bool) (s : List Char) :
    ∃ ec, s = ec ++ (strtodExp marker s).2 ∧
      strtodExp marker ec = ((strtodExp marker s).1, []) ∧
      ∀ c ∈ ec.head?, marker c = true := by
  cases s with
  | nil => exact ⟨[], rfl, rfl, by simp⟩
  | cons c t =>
    by_cases hce : marker c = true
    · by_cases hds : ((strtodSign t).2.takeWhile isdigit).isEmpty = true
      · refine ⟨[], ?_, ?_, by simp⟩
        · simp [strtodExp, hce, hds]
        · simp [strtodExp, hce, hds]
      · have hex : strtodExp marker (c :: t) =
            ((if (strtodSign t).1 then -(digitsVal ((strtodSign t).2.takeWhile isdigit) : Int)
              else (digitsVal ((strtodSign t).2.takeWhile isdigit) : Int)),
             (strtodSign t).2.dropWhile isdigit) := by
          simp only [strtodExp, hce, if_true, hds]
          rfl
        have hdne : (strtodSign t).2.takeWhile isdigit ≠ [] := by simpa using hds
        obtain ⟨d0, drest, hd0⟩ := List.exists_cons_of_ne_nil hdne
        have hd0dig : isdigit d0 = true :=
          List.mem_takeWhile_imp (by rw [hd0]; exact List.mem_cons_self _ _)
        have hsign0 : d0 ≠ '-' ∧ d0 ≠ '+' := by
          constructor <;> intro h <;> rw [h] at hd0dig <;> exact absurd hd0dig (by decide)
        have hsign : strtodSign (t.take (t.length - (strtodSign t).2.length)
            ++ (strtodSign t).2.takeWhile isdigit)
              = ((strtodSign t).1, (strtodSign t).2.takeWhile isdigit) ∧
            t = t.take (t.length - (strtodSign t).2.length) ++ (strtodSign t).2 := by
          cases t with
          | nil => simp [strtodSign] at hdne
          | cons x v =>
            by_cases h1 : x = '-'
            · subst h1
              simp [strtodSign]
            · by_cases h2 : x = '+'
              · subst h2
                simp [strtodSign]
              · rw [strtodSign_not_sign x v h1 h2] at hd0 ⊢
                simp only [Nat.sub_self, List.take_zero, List.nil_append, and_true]
                rw [hd0]
                exact strtodSign_not_sign d0 drest hsign0.1 hsign0.2
        refine ⟨c :: (t.take (t.length - (strtodSign t).2.length)
            ++ (strtodSign t).2.takeWhile isdigit), ?_, ?_, ?_⟩
        · rw [hex]
          simp only [List.cons_append, List.append_assoc, List.takeWhile_append_dropWhile]
          rw [← hsign.2]
        · rw [hex]
          simp only [strtodExp, hce, if_true, hsign.1, List.takeWhile_idem,
            dropWhile_takeWhile_self, hds]
          rfl
        · intro x hx
          simp only [List.head?_cons, Option.mem_def, Option.some.injEq] at hx
          subst hx
          exact hce
    · refine ⟨[], ?_, ?_, by simp⟩
      · simp [strtodExp, hce]
      · simp [strtodExp, hce]

/-- The digits, the fraction and the exponent that `strtodDigits` finds in a
string that it consumes completely are found again when a remainder that does
not continue them is appended. -/
theorem strtodDigits_append (digit marker : Char → Bool) (s r : List Char)
    (v : List Char × List Char × Int)
    (h : strtodDigits digit marker s = some (v, []))
    (hr : ∀ c ∈ r.head?, digit c = false ∧ isdigit c = false ∧ c ≠ '.' ∧ marker c = false) :
    strtodDigits digit marker (s ++ r) = some (v, r) := by
  have hdig : ∀ c ∈ r.head?, digit c = false := fun c hc => (hr c hc).1
  have hfr : ∀ c ∈ r.head?, digit c = false ∧ c ≠ '.' := fun c hc => ⟨(hr c hc).1, (hr c hc).2.2.1⟩
  have hexp : ∀ c ∈ r.head?, isdigit c = false ∧ marker c = false :=
    fun c hc => ⟨(hr c hc).2.1, (hr c hc).2.2.2⟩
  unfold strtodDigits at h ⊢
  by_cases hconv : ((s.takeWhile digit).isEmpty &&
      (strtodFrac digit (s.dropWhile digit)).1.isEmpty) = true
  · rw [if_pos hconv] at h
    cases h
  · rw [if_neg hconv] at h
    simp only [Option.some.injEq, Prod.mk.injEq] at h
    obtain ⟨hv, hrest⟩ := h
    rw [takeWhile_append_stop s r hdig, dropWhile_append_stop s r hdig,
      strtodFrac_append digit _ r hfr, if_neg hconv,
      List.drop_append_of_le_length (strtodFrac_length_le digit _),
      strtodExp_append marker _ r hrest hexp, hv]

/-- The part of a string that `strtodDigits` consumes: it starts with a digit
or the point, and `strtodDigits` finds in it what it finds in the whole
string. -/
theorem strtodDigits_split (digit marker : Char → Bool) (s r : List Char)
    (v : List Char × List Char × Int)
    (hdot : digit '.' = false)
    (hm : ∀ c, marker c = true → digit c = false ∧ c ≠ '.')
    (h : strtodDigits digit marker s = some (v, r)) :
    ∃ p, s = p ++ r ∧ strtodDigits digit marker p = some (v, []) ∧
      ∃ c0 rest0, p = c0 :: rest0 ∧ (digit c0 = true ∨ c0 = '.') := by
  unfold strtodDigits at h
  by_cases hconv : ((s.takeWhile digit).isEmpty &&
      (strtodFrac digit (s.dropWhile digit)).1.isEmpty) = true
  · rw [if_pos hconv] at h
    cases h
  rw [if_neg hconv] at h
  simp only [Option.some.injEq, Prod.mk.injEq] at h
  obtain ⟨hv, hrest⟩ := h
  have hs2 : s.takeWhile digit ++ s.dropWhile digit = s :=
    List.takeWhile_append_dropWhile digit s
  have hipall : ∀ x ∈ s.takeWhile digit, digit x = true :=
    fun x hx => List.mem_takeWhile_imp hx
  have hiphead : s.takeWhile digit ≠ [] →
      ∃ c0 rest0, s.takeWhile digit = c0 :: rest0 ∧ digit c0 = true := by
    intro hne
    obtain ⟨c0, rest0, h⟩ := List.exists_cons_of_ne_nil hne
    exact ⟨c0, rest0, h, hipall c0 (by rw [h]; exact List.mem_cons_self _ _)⟩
  by_cases hcase : ∃ u, s.dropWhile digit = '.' :: u
  · obtain ⟨u, hu⟩ := hcase
    rw [hu] at hs2 hv hrest hconv
    have hfr : strtodFrac digit ('.' :: u) = (u.takeWhile digit, '.' :: u.takeWhile digit) := rfl
    have hdrop : ('.' :: u).drop ('.' :: u.takeWhile digit).length = u.dropWhile digit := by
      simp [drop_length_takeWhile]
    rw [hfr] at hv hrest hconv
    simp only at hv hrest hconv
    rw [hdrop] at hv hrest
    obtain ⟨ec, hec, hex, hehead⟩ := strtodExp_split marker (u.dropWhile digit)
    have hecd : ∀ c ∈ ec.head?, digit c = false := fun c hc => (hm c (hehead c hc)).1
    have hfd := takeWhile_append_all_stop digit (u.takeWhile digit) ec
      (fun x hx => List.mem_takeWhile_imp hx) hecd
    have hcore := takeWhile_append_all_stop digit (s.takeWhile digit)
      ('.' :: (u.takeWhile digit ++ ec)) hipall
      (by intro c hc; simp only [List.head?_cons, Option.mem_def, Option.some.injEq] at hc
          rw [← hc]; exact hdot)
    refine ⟨s.takeWhile digit ++ '.' :: (u.takeWhile digit ++ ec), ?_, ?_, ?_⟩
    · conv_lhs => rw [← hs2, ← List.takeWhile_append_dropWhile digit u]
      conv_lhs => rw [hec, hrest]
      simp
    · unfold strtodDigits
      rw [hcore.1, hcore.2]
      have hfr2 : strtodFrac digit ('.' :: (u.takeWhile digit ++ ec))
          = (u.takeWhile digit, '.' :: u.takeWhile digit) := by
        show (List.takeWhile digit (u.takeWhile digit ++ ec),
          '.' :: List.takeWhile digit (u.takeWhile digit ++ ec)) = _
        rw [hfd.1]
      rw [hfr2]
      simp only
      rw [if_neg hconv]
      have hdrop2 : ('.' :: (u.takeWhile digit ++ ec)).drop ('.' :: u.takeWhile digit).length
          = ec := by
        simp
      rw [hdrop2, hex, hv]
    · by_cases hne : s.takeWhile digit = []
      · rw [hne]
        exact ⟨'.', _, rfl, Or.inr rfl⟩
      · obtain ⟨c0, rest0, h, hd⟩ := hiphead hne
        rw [h]
        exact ⟨c0, _, rfl, Or.inl hd⟩
  · have hfr : strtodFrac digit (s.dropWhile digit) = ([], []) := by
      cases hs3 : s.dropWhile digit with
      | nil => rfl
      | cons c u =>
        unfold strtodFrac
        split
        · rename_i heq
          cases heq
          exact absurd ⟨u, hs3⟩ hcase
        · rfl
    rw [hfr] at hconv hv hrest
    simp only [List.length_nil, List.drop_zero] at hv hrest
    have hipne : s.takeWhile digit ≠ [] := by
      intro h
      apply hconv
      simp [h]
    obtain ⟨ec, hec, hex, hehead⟩ := strtodExp_split marker (s.dropWhile digit)
    have hecd : ∀ c ∈ ec.head?, digit c = false := fun c hc => (hm c (hehead c hc)).1
    have hcore := takeWhile_append_all_stop digit (s.takeWhile digit) ec hipall hecd
    refine ⟨s.takeWhile digit ++ ec, ?_, ?_, ?_⟩
    · conv_lhs => rw [← hs2, hec, hrest]
      simp
    · unfold strtodDigits
      rw [hcore.1, hcore.2]
      have hfr2 : strtodFrac digit ec = ([], []) := by
        cases ec with
        | nil => rfl
        | cons c w =>
          have hc := hm c (hehead c (by simp))
          unfold strtodFrac
          split
          · rename_i heq
            cases heq
            exact absurd rfl hc.2
          · rfl
      rw [hfr2]
      simp only [List.length_nil, List.drop_zero]
      rw [if_neg hconv, hex, hv]
    · obtain ⟨c0, rest0, h, hd⟩ := hiphead hipne
      rw [h]
      exact ⟨c0, _, rfl, Or.inl hd⟩

theorem strtodLit_append (w : List (Char × Char)) (s r t : List Char)
    (h : strtodLit w s = some r) : strtodLit w (s ++ t) = some (r ++ t) := by
  induction w generalizing s with
  | nil =>
    simp only [strtodLit, Option.some.injEq] at h
    rw [← h]
    rfl
  | cons ab w ih =>
    obtain ⟨a, b⟩ := ab
    cases s with
    | nil => simp [strtodLit] at h
    | cons c s =>
      simp only [strtodLit] at h
      by_cases hc : (c == a || c == b) = true
      · rw [if_pos hc] at h
        simp only [List.cons_append, strtodLit, if_pos hc]
        exact ih s h
      · rw [if_neg hc] at h
        cases h

theorem strtodLit_split (w : List (Char × Char)) (s r : List Char)
    (h : strtodLit w s = some r) : ∃ p, s = p ++ r ∧ strtodLit w p = some [] := by
  induction w generalizing s with
  | nil =>
    simp only [strtodLit, Option.some.injEq] at h
    exact ⟨[], by rw [h]; rfl, rfl⟩
  | cons ab w ih =>
    obtain ⟨a, b⟩ := ab
    cases s with
    | nil => simp [strtodLit] at h
    | cons c s =>
      simp only [strtodLit] at h
      by_cases hc : (c == a || c == b) = true
      · rw [if_pos hc] at h
        obtain ⟨p, hp, hlit⟩ := ih s h
        refine ⟨c :: p, by rw [hp]; rfl, ?_⟩
        simp only [strtodLit, if_pos hc]
        exact hlit
      · rw [if_neg hc] at h
        cases h

theorem strtodLit_head (a b : Char) (w : List (Char × Char)) (s r : List Char)
    (h : strtodLit ((a, b) :: w) s = some r) : ∃ c t, s = c :: t ∧ (c = a ∨ c = b) := by
  cases s with
  | nil => simp [strtodLit] at h
  | cons c s =>
    simp only [strtodLit] at h
    by_cases hc : (c == a || c == b) = true
    · exact ⟨c, s, rfl, by simpa using hc⟩
    · rw [if_neg hc] at h
      cases h

theorem strtodLit_none_of_head (a b : Char) (w : List (Char × Char)) (c : Char)
    (t : List Char) (h1 : c ≠ a) (h2 : c ≠ b) : strtodLit ((a, b) :: w) (c :: t) = none := by
  simp [strtodLit, h1, h2]

theorem strtodLit_none_of_head? (a b : Char) (w : List (Char × Char)) (t : List Char)
    (h : ∀ c ∈ t.head?, c ≠ a ∧ c ≠ b) : strtodLit ((a, b) :: w) t = none := by
  cases t with
  | nil => rfl
  | cons c t => exact strtodLit_none_of_head a b w c t (h c (by simp)).1 (h c (by simp)).2

/-- A string that starts with none of the letters `i` and `n` does not start
with a word. -/
theorem strtodWord_none_of_head (c : Char) (t : List Char)
    (h : c ≠ 'i' ∧ c ≠ 'I' ∧ c ≠ 'n' ∧ c ≠ 'N') : strtodWord (c :: t) = none := by
  unfold strtodWord
  rw [strtodLit_none_of_head _ _ _ c t h.1 h.2.1, strtodLit_none_of_head _ _ _ c t h.2.2.1 h.2.2.2]

theorem strtodWord_head (s : List Char) (r : Subject × List Char)
    (h : strtodWord s = some r) :
    ∃ c t, s = c :: t ∧ (c = 'i' ∨ c = 'I' ∨ c = 'n' ∨ c = 'N') := by
  cases s with
  | nil => simp [strtodWord, strtodLit] at h
  | cons c t =>
    refine ⟨c, t, rfl, ?_⟩
    by_contra hc
    simp only [not_or] at hc
    rw [strtodWord_none_of_head c t ⟨hc.1, hc.2.1, hc.2.2.1, hc.2.2.2⟩] at h
    cases h

theorem strtodNanSeq_append (r tail : List Char) (h : strtodNanSeq r = [])
    (ht : ∀ c ∈ tail.head?, c ≠ '(') : strtodNanSeq (r ++ tail) = tail := by
  cases r with
  | nil =>
    rw [List.nil_append]
    cases tail with
    | nil => rfl
    | cons x xs =>
      have hx := ht x (by simp)
      unfold strtodNanSeq
      split
      · rename_i heq
        cases heq
        exact absurd rfl hx
      · rfl
  | cons x xs =>
    by_cases hx : x = '('
    · subst hx
      cases hd : xs.dropWhile isnchar with
      | nil => simp [strtodNanSeq, hd] at h
      | cons y ys =>
        by_cases hy : y = ')'
        · subst hy
          have hys : ys = [] := by simpa [strtodNanSeq, hd] using h
          have hd2 : (xs ++ tail).dropWhile isnchar = ')' :: tail := by
            rw [dropWhile_append_of_ne_nil xs tail (by rw [hd]; simp), hd, hys]
            rfl
          simp [strtodNanSeq, hd2]
        · exfalso
          have : strtodNanSeq ('(' :: xs) = '(' :: xs := by
            unfold strtodNanSeq
            simp only [hd]
            split
            · rename_i heq
              cases heq
              exact absurd rfl hy
            · rfl
          rw [this] at h
          cases h
    · exfalso
      have : strtodNanSeq (x :: xs) = x :: xs := by
        unfold strtodNanSeq
        split
        · rename_i heq
          cases heq
          exact absurd rfl hx
        · rfl
      rw [this] at h
      cases h

theorem strtodNanSeq_split (r : List Char) :
    ∃ q, r = q ++ strtodNanSeq r ∧ strtodNanSeq q = [] := by
  have hkeep : strtodNanSeq r = r → ∃ q, r = q ++ strtodNanSeq r ∧ strtodNanSeq q = [] :=
    fun h => ⟨[], by rw [h]; rfl, rfl⟩
  cases r with
  | nil => exact hkeep rfl
  | cons x xs =>
    by_cases hx : x = '('
    · subst hx
      cases hd : xs.dropWhile isnchar with
      | nil => exact hkeep (by simp [strtodNanSeq, hd])
      | cons y ys =>
        by_cases hy : y = ')'
        · subst hy
          have hval : strtodNanSeq ('(' :: xs) = ys := by simp [strtodNanSeq, hd]
          refine ⟨'(' :: (xs.takeWhile isnchar ++ [')']), ?_, ?_⟩
          · rw [hval]
            conv_lhs => rw [← List.takeWhile_append_dropWhile isnchar xs, hd]
            simp
          · have hd2 : (xs.takeWhile isnchar ++ [')']).dropWhile isnchar = [')'] :=
              (takeWhile_append_all_stop isnchar (xs.takeWhile isnchar) [')']
                (fun c hc => List.mem_takeWhile_imp hc)
                (by intro c hc
                    simp only [List.head?_cons, Option.mem_def, Option.some.injEq] at hc
                    rw [← hc]; decide)).2
            simp [strtodNanSeq, hd2]
        · apply hkeep
          unfold strtodNanSeq
          simp only [hd]
          split
          · rename_i heq
            cases heq
            exact absurd rfl hy
          · rfl
    · apply hkeep
      unfold strtodNanSeq
      split
      · rename_i heq
        cases heq
        exact absurd rfl hx
      · rfl

theorem strtodWord_append (s tail : List Char) (v : Subject)
    (h : strtodWord s = some (v, []))
    (ht : ∀ c ∈ tail.head?, c ≠ 'i' ∧ c ≠ 'I' ∧ c ≠ '(') :
    strtodWord (s ++ tail) = some (v, tail) := by
  unfold strtodWord at h ⊢
  cases hinf : strtodLit [('i', 'I'), ('n', 'N'), ('f', 'F')] s with
  | some r =>
    rw [hinf] at h
    rw [strtodLit_append _ s r tail hinf]
    simp only at h ⊢
    cases hity : strtodLit [('i', 'I'), ('n', 'N'), ('i', 'I'), ('t', 'T'), ('y', 'Y')] r with
    | some r2 =>
      rw [hity] at h
      simp only [Option.some.injEq, Prod.mk.injEq] at h
      rw [strtodLit_append _ r r2 tail hity]
      simp only [h.1, h.2, List.nil_append]
    | none =>
      rw [hity] at h
      simp only [Option.some.injEq, Prod.mk.injEq] at h
      rw [h.2, List.nil_append,
        strtodLit_none_of_head? _ _ _ tail (fun c hc => ⟨(ht c hc).1, (ht c hc).2.1⟩)]
      simp only [h.1]
  | none =>
    rw [hinf] at h
    simp only at h
    cases hnan : strtodLit [('n', 'N'), ('a', 'A'), ('n', 'N')] s with
    | none => rw [hnan] at h; cases h
    | some r =>
      rw [hnan] at h
      simp only [Option.some.injEq, Prod.mk.injEq] at h
      obtain ⟨c, t, hs, hc⟩ := strtodLit_head _ _ _ s r hnan
      have hnotinf : strtodLit [('i', 'I'), ('n', 'N'), ('f', 'F')] (s ++ tail) = none := by
        rw [hs, List.cons_append]
        apply strtodLit_none_of_head
        · rcases hc with hc | hc <;> rw [hc] <;> decide
        · rcases hc with hc | hc <;> rw [hc] <;> decide
      rw [hnotinf, strtodLit_append _ s r tail hnan]
      simp only
      rw [strtodNanSeq_append r tail h.2 (fun c hc => (ht c hc).2.2), h.1]

/-- The word that `strtodWord` consumes is the start of the string, and it is
read again when it stands alone. -/
theorem strtodWord_split (s r : List Char) (v : Subject) (h : strtodWord s = some (v, r)) :
    ∃ p, s = p ++ r ∧ strtodWord p = some (v, []) := by
  unfold strtodWord at h
  cases hinf : strtodLit [('i', 'I'), ('n', 'N'), ('f', 'F')] s with
  | some r1 =>
    rw [hinf] at h
    simp only at h
    obtain ⟨p1, hp1, hl1⟩ := strtodLit_split _ s r1 hinf
    cases hity : strtodLit [('i', 'I'), ('n', 'N'), ('i', 'I'), ('t', 'T'), ('y', 'Y')] r1 with
    | some r2 =>
      rw [hity] at h
      simp only [Option.some.injEq, Prod.mk.injEq] at h
      obtain ⟨p2, hp2, hl2⟩ := strtodLit_split _ r1 r2 hity
      refine ⟨p1 ++ p2, by rw [hp1, hp2, ← h.2]; simp, ?_⟩
      unfold strtodWord
      have e1 := strtodLit_append _ p1 [] p2 hl1
      rw [List.nil_append] at e1
      rw [e1]
      simp only [hl2, h.1]
    | none =>
      rw [hity] at h
      simp only [Option.some.injEq, Prod.mk.injEq] at h
      refine ⟨p1, by rw [hp1, ← h.2], ?_⟩
      unfold strtodWord
      rw [hl1]
      simp only [strtodLit, h.1]
  | none =>
    rw [hinf] at h
    simp only at h
    cases hnan : strtodLit [('n', 'N'), ('a', 'A'), ('n', 'N')] s with
    | none => rw [hnan] at h; cases h
    | some r1 =>
      rw [hnan] at h
      simp only [Option.some.injEq, Prod.mk.injEq] at h
      obtain ⟨p1, hp1, hl1⟩ := strtodLit_split _ s r1 hnan
      obtain ⟨q, hq, hq0⟩ := strtodNanSeq_split r1
      obtain ⟨c, t, hs, hc⟩ := strtodLit_head _ _ _ p1 [] hl1
      refine ⟨p1 ++ q, by rw [hp1]; conv_lhs => rw [hq, h.2]
                          simp, ?_⟩
      unfold strtodWord
      have hnotinf : strtodLit [('i', 'I'), ('n', 'N'), ('f', 'F')] (p1 ++ q) = none := by
        rw [hs, List.cons_append]
        apply strtodLit_none_of_head
        · rcases hc with hc | hc <;> rw [hc] <;> decide
        · rcases hc with hc | hc <;> rw [hc] <;> decide
      have e1 := strtodLit_append _ p1 [] q hl1
      rw [List.nil_append] at e1
      rw [hnotinf, e1]
      simp only [hq0, h.1]

theorem not_continues_spec (c : Char) (h : continues_number c = false) :
    isxdigit c = false ∧ isdigit c = false ∧ c ≠ '.' ∧ c ≠ 'x' ∧ c ≠ 'X' ∧ c ≠ 'p' ∧ c ≠ 'P' ∧
      c ≠ 'i' ∧ c ≠ 'I' ∧ c ≠ '(' := by
  simp only [continues_number, Bool.or_eq_false_iff, beq_eq_false_iff_ne, ne_eq] at h
  obtain ⟨⟨⟨⟨⟨⟨⟨⟨h1, h2⟩, h3⟩, h4⟩, h5⟩, h6⟩, h7⟩, h8⟩, h9⟩ := h
  refine ⟨h1, ?_, h2, h3, h4, h5, h6, h7, h8, h9⟩
  simp only [isxdigit, Bool.or_eq_false_iff] at h1
  exact h1.1.1

theorem strtodHex_none_of_head (c : Char) (t : List Char) (hc : c ≠ '0') :
    strtodHex (c :: t) = none := by
  unfold strtodHex
  split
  · rename_i heq
    cases heq
    exact absurd rfl hc
  · rfl

theorem strtodHex_none_of_second (c x : Char) (t : List Char)
    (hx : (x == 'x' || x == 'X') = false) : strtodHex (c :: x :: t) = none := by
  unfold strtodHex
  split
  · rename_i heq
    cases heq
    simp [hx]
  · rfl

theorem strtodHex_single (c : Char) : strtodHex [c] = none := by
  unfold strtodHex
  split
  · rename_i heq
    cases heq
  · rfl

theorem strtodHex_shape (s : List Char) (r : Subject × List Char)
    (h : strtodHex s = some r) :
    ∃ x t, s = '0' :: x :: t ∧ (x == 'x' || x == 'X') = true := by
  cases s with
  | nil => simp [strtodHex] at h
  | cons c s =>
    cases s with
    | nil => rw [strtodHex_single] at h; cases h
    | cons x t =>
      by_cases hc : c = '0'
      · by_cases hx : (x == 'x' || x == 'X') = true
        · exact ⟨x, t, by rw [hc], hx⟩
        · rw [strtodHex_none_of_second c x t (by simpa using hx)] at h
          cases h
      · rw [strtodHex_none_of_head c _ hc] at h
        cases h

theorem strtodHex_append (s tail : List Char) (v : Subject)
    (h : strtodHex s = some (v, []))
    (ht : ∀ c ∈ tail.head?, continues_number c = false) :
    strtodHex (s ++ tail) = some (v, tail) := by
  obtain ⟨x, t, hs, hx⟩ := strtodHex_shape s _ h
  subst hs
  simp only [strtodHex] at h
  by_cases hx : (x == 'x' || x == 'X') = true
  · · rw [if_pos hx] at h
      cases hd : strtodDigits isxdigit (fun c => c == 'p' || c == 'P') t with
      | none => rw [hd] at h; cases h
      | some r =>
        rw [hd] at h
        simp only [Option.some.injEq, Prod.mk.injEq] at h
        have hr : r = (r.1, []) := by rw [← h.2]
        rw [hr] at hd
        have happ := strtodDigits_append isxdigit (fun c => c == 'p' || c == 'P') t tail r.1 hd
          (by intro c hc
              obtain ⟨h1, h2, h3, _, _, h6, h7, _⟩ := not_continues_spec c (ht c hc)
              exact ⟨h1, h2, h3, by simp [h6, h7]⟩)
        simp only [List.cons_append, strtodHex, if_pos hx, happ, h.1]
  · rw [if_neg hx] at h
    cases h

theorem strtodHex_split (s r : List Char) (v : Subject) (h : strtodHex s = some (v, r)) :
    ∃ p, s = p ++ r ∧ strtodHex p = some (v, []) ∧ ∃ t, p = '0' :: t := by
  obtain ⟨x, t, hs, hx⟩ := strtodHex_shape s _ h
  subst hs
  simp only [strtodHex] at h
  by_cases hx : (x == 'x' || x == 'X') = true
  · · rw [if_pos hx] at h
      cases hd : strtodDigits isxdigit (fun c => c == 'p' || c == 'P') t with
      | none => rw [hd] at h; cases h
      | some q =>
        rw [hd] at h
        simp only [Option.some.injEq, Prod.mk.injEq] at h
        have hq : q = (q.1, r) := by rw [← h.2]
        rw [hq] at hd
        obtain ⟨p, hp, hsp, _⟩ := strtodDigits_split isxdigit (fun c => c == 'p' || c == 'P')
          t r q.1 (by decide)
          (by intro c hc
              simp only [Bool.or_eq_true, beq_iff_eq] at hc
              rcases hc with hc | hc <;> rw [hc] <;> exact ⟨by decide, by decide⟩) hd
        refine ⟨'0' :: x :: p, by rw [hp]; rfl, ?_, _, rfl⟩
        simp only [strtodHex, if_pos hx, hsp, h.1]
  · rw [if_neg hx] at h
    cases h

theorem strtodDec_append (s tail : List Char) (v : Subject)
    (h : strtodDec s = some (v, []))
    (ht : ∀ c ∈ tail.head?, continues_number c = false) :
    strtodDec (s ++ tail) = some (v, tail) := by
  unfold strtodDec at h ⊢
  cases hd : strtodDigits isdigit (fun c => c == 'e' || c == 'E') s with
  | none => rw [hd] at h; cases h
  | some r =>
    rw [hd] at h
    simp only [Option.some.injEq, Prod.mk.injEq] at h
    have hr : r = (r.1, []) := by rw [← h.2]
    rw [hr] at hd
    have happ := strtodDigits_append isdigit (fun c => c == 'e' || c == 'E') s tail r.1 hd
      (by intro c hc
          obtain ⟨h1, h2, h3, _⟩ := not_continues_spec c (ht c hc)
          refine ⟨h2, h2, h3, ?_⟩
          simp only [Bool.or_eq_false_iff, beq_eq_false_iff_ne, ne_eq]
          constructor <;> intro hce <;> rw [hce] at h1 <;> exact absurd h1 (by decide))
    simp only [happ, h.1]

theorem strtodDec_split (s r : List Char) (v : Subject) (h : strtodDec s = some (v, r)) :
    ∃ p, s = p ++ r ∧ strtodDec p = some (v, []) ∧
      ∃ c0 rest0, p = c0 :: rest0 ∧ (isdigit c0 = true ∨ c0 = '.') := by
  unfold strtodDec at h
  cases hd : strtodDigits isdigit (fun c => c == 'e' || c == 'E') s with
  | none => rw [hd] at h; cases h
  | some q =>
    rw [hd] at h
    simp only [Option.some.injEq, Prod.mk.injEq] at h
    have hq : q = (q.1, r) := by rw [← h.2]
    rw [hq] at hd
    obtain ⟨p, hp, hsp, hhead⟩ := strtodDigits_split isdigit (fun c => c == 'e' || c == 'E')
      s r q.1 (by decide)
      (by intro c hc
          simp only [Bool.or_eq_true, beq_iff_eq] at hc
          rcases hc with hc | hc <;> rw [hc] <;> exact ⟨by decide, by decide⟩) hd
    refine ⟨p, hp, ?_, hhead⟩
    unfold strtodDec
    simp only [hsp, h.1]

/-- A decimal number does not go on after a zero that is followed by the
letter `x`. -/
theorem strtodDec_zero_x (x : Char) (t : List Char) (hx : (x == 'x' || x == 'X') = true)
    (v : Subject) : strtodDec ('0' :: x :: t) ≠ some (v, []) := by
  have hxd : isdigit x = false := by
    simp only [Bool.or_eq_true, beq_iff_eq] at hx
    rcases hx with hx | hx <;> rw [hx] <;> decide
  have hxdot : x ≠ '.' := by
    simp only [Bool.or_eq_true, beq_iff_eq] at hx
    rcases hx with hx | hx <;> rw [hx] <;> decide
  have hxe : (x == 'e' || x == 'E') = false := by
    simp only [Bool.or_eq_true, beq_iff_eq] at hx
    rcases hx with hx | hx <;> rw [hx] <;> decide
  have h0 : isdigit '0' = true := by decide
  have htake : ('0' :: x :: t).takeWhile isdigit = ['0'] := by
    simp [List.takeWhile_cons, h0, hxd]
  have hdrop : ('0' :: x :: t).dropWhile isdigit = x :: t := by
    simp [List.dropWhile_cons, h0, hxd]
  have hfr : strtodFrac isdigit (x :: t) = ([], []) := by
    unfold strtodFrac
    split
    · rename_i heq
      cases heq
      exact absurd rfl hxdot
    · rfl
  intro h
  unfold strtodDec strtodDigits at h
  rw [htake, hdrop, hfr] at h
  simp only [List.isEmpty_cons, Bool.false_and, Bool.false_eq_true, if_false, List.length_nil,
    List.drop_zero, strtodExp, hxe, Option.some.injEq, Prod.mk.injEq] at h
  exact absurd h.2 (by simp)

/-- A string that a decimal number fills completely is not the start of a
hexadecimal number, whatever remainder that does not continue it follows. -/
theorem strtodHex_none_append (s tail : List Char) (v : Subject)
    (hdec : strtodDec s = some (v, []))
    (ht : ∀ c ∈ tail.head?, continues_number c = false) :
    strtodHex (s ++ tail) = none := by
  cases s with
  | nil =>
    simp [strtodDec, strtodDigits, strtodFrac] at hdec
  | cons c s =>
    cases s with
    | nil =>
      cases tail with
      | nil => exact strtodHex_single c
      | cons x xs =>
        obtain ⟨_, _, _, h4, h5, _⟩ := not_continues_spec x (ht x (by simp))
        exact strtodHex_none_of_second c x xs (by simp [h4, h5])
    | cons x s =>
      by_cases hx : (x == 'x' || x == 'X') = true
      · by_cases hc : c = '0'
        · subst hc
          exact absurd hdec (strtodDec_zero_x x s hx v)
        · exact strtodHex_none_of_head c _ hc
      · exact strtodHex_none_of_second c x _ (by simpa using hx)

/-- The subject sequence of a string that it fills is found again when a
remainder that does not continue it follows. -/
theorem strtodSubject_append (s tail : List Char) (v : Subject)
    (h : strtodSubject s = some (v, []))
    (ht : ∀ c ∈ tail.head?, continues_number c = false) :
    strtodSubject (s ++ tail) = some (v, tail) := by
  unfold strtodSubject at h ⊢
  cases hw : strtodWord s with
  | some r =>
    rw [hw] at h
    simp only [Option.some.injEq] at h
    rw [h] at hw
    rw [strtodWord_append s tail v hw (by
      intro c hc
      obtain ⟨_, _, _, _, _, _, _, h8, h9, h10⟩ := not_continues_spec c (ht c hc)
      exact ⟨h8, h9, h10⟩)]
  | none =>
    rw [hw] at h
    simp only at h
    cases hh : strtodHex s with
    | some r =>
      rw [hh] at h
      simp only [Option.some.injEq] at h
      rw [h] at hh
      obtain ⟨p, hp, _, t, hpt⟩ := strtodHex_split s [] v hh
      have hs : s = '0' :: t := by rw [hp, List.append_nil, hpt]
      have hwt : strtodWord (s ++ tail) = none := by
        rw [hs, List.cons_append]
        exact strtodWord_none_of_head _ _ ⟨by decide, by decide, by decide, by decide⟩
      rw [hwt, strtodHex_append s tail v hh ht]
    | none =>
      rw [hh] at h
      simp only at h
      obtain ⟨p, hp, _, c0, rest0, hp0, hc0⟩ := strtodDec_split s [] v h
      have hs : s = c0 :: rest0 := by rw [hp, List.append_nil, hp0]
      have hwt : strtodWord (s ++ tail) = none := by
        rw [hs, List.cons_append]
        apply strtodWord_none_of_head
        rcases hc0 with hc0 | hc0
        · refine ⟨?_, ?_, ?_, ?_⟩ <;> intro hc <;> rw [hc] at hc0 <;> exact absurd hc0 (by decide)
        · rw [hc0]
          exact ⟨by decide, by decide, by decide, by decide⟩
      rw [hwt, strtodHex_none_append s tail v h ht]
      exact strtodDec_append s tail v h ht

/-- The subject sequence is the start of the string, it is found again when it
stands alone, and it starts neither with white space nor with a sign. -/
theorem strtodSubject_split (s r : List Char) (v : Subject)
    (h : strtodSubject s = some (v, r)) :
    ∃ p, s = p ++ r ∧ strtodSubject p = some (v, []) ∧
      ∃ c0 rest0, p = c0 :: rest0 ∧ isspace c0 = false ∧ c0 ≠ '-' ∧ c0 ≠ '+' := by
  unfold strtodSubject at h
  cases hw : strtodWord s with
  | some q =>
    rw [hw] at h
    simp only [Option.some.injEq] at h
    rw [h] at hw
    obtain ⟨p, hp, hsp⟩ := strtodWord_split s r v hw
    obtain ⟨c, t, hpt, hc⟩ := strtodWord_head p _ hsp
    refine ⟨p, hp, by unfold strtodSubject; rw [hsp], c, t, hpt, ?_⟩
    rcases hc with hc | hc | hc | hc <;> rw [hc] <;> exact ⟨by decide, by decide, by decide⟩
  | none =>
    rw [hw] at h
    simp only at h
    cases hh : strtodHex s with
    | some q =>
      rw [hh] at h
      simp only [Option.some.injEq] at h
      rw [h] at hh
      obtain ⟨p, hp, hsp, t, hpt⟩ := strtodHex_split s r v hh
      refine ⟨p, hp, ?_, '0', t, hpt, by decide, by decide, by decide⟩
      unfold strtodSubject
      rw [hpt, strtodWord_none_of_head _ _ ⟨by decide, by decide, by decide, by decide⟩,
        ← hpt, hsp]
    | none =>
      rw [hh] at h
      simp only at h
      obtain ⟨p, hp, hsp, c0, rest0, hp0, hc0⟩ := strtodDec_split s r v h
      have hc0' : isspace c0 = false ∧ c0 ≠ '-' ∧ c0 ≠ '+' ∧
          c0 ≠ 'i' ∧ c0 ≠ 'I' ∧ c0 ≠ 'n' ∧ c0 ≠ 'N' := by
        rcases hc0 with hc0 | hc0
        · refine ⟨?_, ?_, ?_, ?_, ?_, ?_, ?_⟩
          · by_contra hsp'
            have hs' : isspace c0 = true := by simpa using hsp'
            simp only [isspace, Bool.or_eq_true, beq_iff_eq] at hs'
            rcases hs' with ((((h1 | h1) | h1) | h1) | h1) | h1 <;> rw [h1] at hc0 <;>
              exact absurd hc0 (by decide)
          all_goals (intro hc; rw [hc] at hc0; exact absurd hc0 (by decide))
        · rw [hc0]
          exact ⟨by decide, by decide, by decide, by decide, by decide, by decide, by decide⟩
      refine ⟨p, hp, ?_, c0, rest0, hp0, hc0'.1, hc0'.2.1, hc0'.2.2.1⟩
      unfold strtodSubject
      have hwp : strtodWord p = none := by
        rw [hp0]
        exact strtodWord_none_of_head _ _ hc0'.2.2.2
      have hhp : strtodHex p = none := by
        have := strtodHex_none_append p [] v hsp (by simp)
        rwa [List.append_nil] at this
      rw [hwp, hhp]
      exact hsp

theorem strtodSubject_nil : strtodSubject [] = none := rfl

/-- What `is_number` says in terms of the subject sequence. -/
theorem is_number_spec (num : List Char) (h : is_number num = true) :
    ∃ v, strtodSubject (strtodSign (num.dropWhile isspace)).2 = some (v, []) ∧
      num.dropWhile isspace ≠ [] := by
  simp only [is_number, Bool.and_eq_true, Bool.not_eq_true', List.isEmpty_eq_false,
    List.isEmpty_iff] at h
  obtain ⟨hne, hrest⟩ := h
  cases hs : strtodSubject (strtodSign (num.dropWhile isspace)).2 with
  | none =>
    exfalso
    simp only [strtod, hs] at hrest
    exact hne hrest
  | some r =>
    simp only [strtod, hs] at hrest
    refine ⟨r.1, by rw [← hrest], ?_⟩
    intro h0
    rw [h0] at hs
    cases hs

/-- A number followed by a remainder that does not continue it: `strtod` converts
the number and stops at the remainder. -/
theorem strtod_append (num tail : List Char) (hnum : is_number num = true)
    (htail : ∀ c ∈ tail.head?, continues_number c = false) :
    strtod (num ++ tail) = ((strtod num).1, tail) := by
  obtain ⟨v, hv, hne⟩ := is_number_spec num hnum
  have happ := strtodSubject_append _ tail v hv htail
  unfold strtod
  rw [dropWhile_append_of_ne_nil num tail hne, strtodSign_append _ tail hne]
  simp only [happ, hv]

/-- The string up to the end pointer of a conversion is a number with the same
value. -/
theorem strtod_prefix (s : List Char) (hconv : (strtod s).2.length ≠ s.length) :
    ∃ num, s = num ++ (strtod s).2 ∧ is_number num = true ∧ (strtod num).1 = (strtod s).1 := by
  cases hs : strtodSubject (strtodSign (s.dropWhile isspace)).2 with
  | none =>
    exfalso
    apply hconv
    simp only [strtod, hs]
  | some r =>
    have hr : r = (r.1, r.2) := rfl
    rw [hr] at hs
    obtain ⟨p, hp, hsp, c0, rest0, hp0, hsp0, hm0, hpl0⟩ := strtodSubject_split _ r.2 r.1 hs
    have hws : s.takeWhile isspace ++ s.dropWhile isspace = s :=
      List.takeWhile_append_dropWhile isspace s
    have hwall : ∀ x ∈ s.takeWhile isspace, isspace x = true :=
      fun x hx => List.mem_takeWhile_imp hx
    -- the sign characters
    have hsign : ∃ sc, s.dropWhile isspace = sc ++ (strtodSign (s.dropWhile isspace)).2 ∧
        strtodSign (sc ++ p) = ((strtodSign (s.dropWhile isspace)).1, p) ∧
        ∀ c ∈ (sc ++ p).head?, isspace c = false := by
      cases hs1 : s.dropWhile isspace with
      | nil =>
        refine ⟨[], rfl, ?_, ?_⟩
        · rw [List.nil_append, hp0, strtodSign_not_sign c0 rest0 hm0 hpl0]
          rfl
        · intro c hcm
          rw [List.nil_append, hp0] at hcm
          simp only [List.head?_cons, Option.mem_def, Option.some.injEq] at hcm
          rw [← hcm]
          exact hsp0
      | cons x v =>
        by_cases h1 : x = '-'
        · subst h1
          refine ⟨['-'], rfl, rfl, ?_⟩
          intro c hcm
          simp only [List.singleton_append, List.head?_cons, Option.mem_def,
            Option.some.injEq] at hcm
          rw [← hcm]
          decide
        · by_cases h2 : x = '+'
          · subst h2
            refine ⟨['+'], rfl, rfl, ?_⟩
            intro c hcm
            simp only [List.singleton_append, List.head?_cons, Option.mem_def,
              Option.some.injEq] at hcm
            rw [← hcm]
            decide
          · refine ⟨[], by rw [strtodSign_not_sign x v h1 h2]; rfl, ?_, ?_⟩
            · rw [List.nil_append, hp0, strtodSign_not_sign c0 rest0 hm0 hpl0,
                strtodSign_not_sign x v h1 h2]
            · intro c hcm
              rw [List.nil_append, hp0] at hcm
              simp only [List.head?_cons, Option.mem_def, Option.some.injEq] at hcm
              rw [← hcm]
              exact hsp0
    obtain ⟨sc, hsc, hscsign, hschead⟩ := hsign
    have hdw := takeWhile_append_all_stop isspace (s.takeWhile isspace) (sc ++ p) hwall hschead
    have hstrtod_s : strtod s = (r.1.toDouble (strtodSign (s.dropWhile isspace)).1, r.2) := by
      simp only [strtod, hs]
    have hstrtod_num : strtod (s.takeWhile isspace ++ (sc ++ p)) = ((strtod s).1, []) := by
      rw [hstrtod_s]
      simp only [strtod, hdw.2, hscsign, hsp]
    refine ⟨s.takeWhile isspace ++ (sc ++ p), ?_, ?_, ?_⟩
    · rw [hstrtod_s]
      simp only
      rw [List.append_assoc, List.append_assoc, ← hp, ← hsc, hws]
    · simp only [is_number, hstrtod_num, Bool.and_eq_true, Bool.not_eq_true',
        List.isEmpty_eq_false, List.isEmpty_nil, and_true]
      rw [hp0]
      simp
    · rw [hstrtod_num]

/-- Leading white space does not change what `strtod` converts: a number without
its leading white space is a number with the same value. -/
theorem is_number_dropWhile (num : List Char) (hnum : is_number num = true) :
    is_number (num.dropWhile isspace) = true ∧
      (strtod (num.dropWhile isspace)).1 = (strtod num).1 := by
  obtain ⟨v, hv, hne⟩ := is_number_spec num hnum
  have e : strtod (num.dropWhile isspace) = strtod num := by
    simp only [strtod, dropWhile_dropWhile_self, hv]
  refine ⟨?_, by rw [e]⟩
  have h2 : (strtod num).2 = [] := by simp only [strtod, hv]
  simp only [is_number, e, h2, Bool.and_eq_true, Bool.not_eq_true', List.isEmpty_eq_false,
    List.isEmpty_nil, and_true]
  cases h : num.dropWhile isspace with
  | nil => exact absurd h hne
  | cons a t => simp

theorem not_continues_of_isspace (c : Char) (h : isspace c = true) :
    continues_number c = false := by
  simp only [isspace, Bool.or_eq_true, beq_iff_eq] at h
  rcases h with ((((h1 | h1) | h1) | h1) | h1) | h1 <;> rw [h1] <;> decide

/-! ## read_datapoints -/


theorem line_text_cons_cons (f g : List Char) (fs : List (List Char)) :
    line_text (f :: g :: fs) = f ++ ',' :: line_text (g :: fs) := by
  simp [line_text, List.intercalate]

theorem line_text_append_last (fields : List (List Char)) (eol : List Char)
    (h : fields ≠ []) : line_text fields ++ eol = line_text (append_last fields eol) := by
  induction fields with
  | nil => exact absurd rfl h
  | cons f fs ih =>
    cases fs with
    | nil => simp [line_text, append_last, List.intercalate]
    | cons g gs =>
      have := ih (by simp)
      cases hg : append_last (g :: gs) eol with
      | nil => cases gs <;> simp [append_last] at hg
      | cons a as =>
        rw [append_last, hg, line_text_cons_cons, line_text_cons_cons, ← hg, ← this]
        simp

theorem strtok_all_line_text (toks : List (List Char)) (hne : toks ≠ [])
    (h : ∀ t ∈ toks, t ≠ [] ∧ ',' ∉ t) : strtok_all ',' (line_text toks) = toks := by
  unfold strtok_all line_text
  rw [List.splitOn_intercalate _ ',' (fun l hl => (h l hl).2) hne]
  rw [List.filter_eq_self]
  intro t ht
  simpa using (h t ht).1

theorem mem_append_last {fields : List (List Char)} {eol t : List Char}
    (ht : t ∈ append_last fields eol) : ∃ f ∈ fields, t = f ∨ t = f ++ eol := by
  induction fields with
  | nil => simp [append_last] at ht
  | cons f fs ih =>
    cases fs with
    | nil =>
      simp only [append_last, List.mem_singleton] at ht
      exact ⟨f, by simp, Or.inr ht⟩
    | cons g gs =>
      simp only [append_last, List.mem_cons] at ht
      rcases ht with ht | ht
      · exact ⟨f, by simp, Or.inl ht⟩
      · obtain ⟨f', hf', h'⟩ := ih (by simpa using ht)
        exact ⟨f', List.mem_cons_of_mem _ hf', h'⟩

theorem append_last_ne_nil {fields : List (List Char)} (eol : List Char) (h : fields ≠ []) :
    append_last fields eol ≠ [] := by
  cases fields with
  | nil => exact absurd rfl h
  | cons f fs => cases fs <;> simp [append_last]

/-- A line that fits the buffer is returned whole, with its line feed. -/
theorem fgets_line (l rest : List Char) (size : Nat) (hl : '\n' ∉ l) (hsize : l.length + 1 < size) :
    fgets size (l ++ '\n' :: rest) = (l ++ ['\n'], rest) := by
  induction l generalizing size with
  | nil =>
    obtain ⟨m, rfl⟩ : ∃ m, size = m + 2 := ⟨size - 2, by simp at hsize; omega⟩
    simp [fgets]
  | cons c cs ih =>
    obtain ⟨m, rfl⟩ : ∃ m, size = m + 2 := ⟨size - 2, by simp at hsize; omega⟩
    have hc : c ≠ '\n' := fun h => hl (by simp [h])
    have hcs : '\n' ∉ cs := fun h => hl (List.mem_cons_of_mem _ h)
    have := ih (m + 1) hcs (by simp at hsize; omega)
    simp [fgets, hc, this]

/-- A last line without line feed that fits the buffer is returned whole. -/
theorem fgets_last (l : List Char) (size : Nat) (hl : '\n' ∉ l) (hsize : l.length < size) :
    fgets size l = (l, []) := by
  induction l generalizing size with
  | nil => cases size <;> simp [fgets]
  | cons c cs ih =>
    obtain ⟨m, rfl⟩ : ∃ m, size = m + 2 := ⟨size - 2, by simp at hsize; omega⟩
    have hc : c ≠ '\n' := fun h => hl (by simp [h])
    have hcs : '\n' ∉ cs := fun h => hl (List.mem_cons_of_mem _ h)
    have := ih (m + 1) hcs (by simp at hsize; omega)
    simp [fgets, hc, this]

/-- The loop of `read_datapoints` runs its body over the lines that `fgets`
returns. -/
theorem read_loop_eq_read_lines (fuel : Nat) (stream : List Char) (st : ReadState) :
    read_loop fuel stream st = read_lines st (stdin_lines_aux fuel stream) := by
  induction fuel generalizing stream st with
  | zero => rfl
  | succ fuel ih =>
    unfold read_loop stdin_lines_aux
    by_cases h : stream.isEmpty = true
    · simp [h, read_lines]
    · simp only [h, if_false, read_lines]
      cases read_line st (fgets 4096 stream).1 with
      | error e => rfl
      | ok st1 => exact ih _ _

/-- The lines that `fgets` returns on a stream of lines that fit the buffer. -/
theorem stdin_lines_aux_lines (texts : List (List Char)) (last : List Char) (fuel : Nat)
    (htext : ∀ t ∈ texts, '\n' ∉ t ∧ t.length + 1 < 4096)
    (hlast : '\n' ∉ last ∧ last.length < 4096)
    (hfuel : texts.length + last.length ≤ fuel) :
    stdin_lines_aux fuel (texts.flatMap (fun t => t ++ ['\n']) ++ last) =
      texts.map (fun t => t ++ ['\n']) ++ (if last = [] then [] else [last]) := by
  induction texts generalizing fuel with
  | nil =>
    cases fuel with
    | zero =>
      have : last = [] := List.length_eq_zero.mp (by simpa using hfuel)
      simp [this, stdin_lines_aux]
    | succ fuel =>
      by_cases h : last = []
      · simp [h, stdin_lines_aux]
      · have hf := fgets_last last 4096 hlast.1 hlast.2
        have h' : last.isEmpty = false := by simpa using h
        simp only [List.flatMap_nil, List.nil_append, stdin_lines_aux, h', hf, List.map_nil, h,
          if_false]
        cases fuel <;> simp [stdin_lines_aux]
  | cons t ts ih =>
    cases fuel with
    | zero => simp at hfuel
    | succ fuel =>
      have ht := htext t (by simp)
      have hf := fgets_line t (ts.flatMap (fun t => t ++ ['\n']) ++ last) 4096 ht.1 ht.2
      have e : (t :: ts).flatMap (fun t => t ++ ['\n']) ++ last
          = t ++ '\n' :: (ts.flatMap (fun t => t ++ ['\n']) ++ last) := by simp
      have hne : (t ++ '\n' :: (ts.flatMap (fun t => t ++ ['\n']) ++ last)).isEmpty = false := by
        simp
      rw [e]
      simp only [stdin_lines_aux, hne, hf, List.map_cons, List.cons_append]
      rw [ih fuel (fun t' ht' => htext t' (List.mem_cons_of_mem _ ht'))
        (by simp at hfuel; omega)]
      simp
theorem length_append_last (fields : List (List Char)) (eol : List Char) :
    (append_last fields eol).length = fields.length := by
  induction fields with
  | nil => rfl
  | cons f fs ih =>
    cases fs with
    | nil => rfl
    | cons g gs => simpa [append_last] using ih

theorem mem_line_text {toks : List (List Char)} {c : Char} (hc : c ∈ line_text toks) :
    c = ',' ∨ ∃ t ∈ toks, c ∈ t := by
  induction toks with
  | nil => simp [line_text, List.intercalate] at hc
  | cons f fs ih =>
    cases fs with
    | nil =>
      have : c ∈ f := by simpa [line_text, List.intercalate] using hc
      exact Or.inr ⟨f, by simp, this⟩
    | cons g gs =>
      rw [line_text_cons_cons] at hc
      simp only [List.mem_append, List.mem_cons] at hc
      rcases hc with hc | hc | hc
      · exact Or.inr ⟨f, by simp, hc⟩
      · exact Or.inl hc
      · rcases ih hc with h | ⟨t, ht, hct⟩
        · exact Or.inl h
        · exact Or.inr ⟨t, List.mem_cons_of_mem _ ht, hct⟩

theorem is_number_field_spec {f : List Char} (h : is_number_field f = true) :
    is_number f = true ∧ f ≠ [] ∧
      ∀ c ∈ f, c ≠ ',' ∧ c ≠ '\n' ∧ c ≠ '\r' ∧ c ≠ Char.ofNat 0 := by
  simp only [is_number_field, Bool.and_eq_true, List.all_eq_true, bne_iff_ne, ne_eq] at h
  refine ⟨h.1, ?_, fun c hc => ?_⟩
  · have := h.1
    simp only [is_number, Bool.and_eq_true, Bool.not_eq_true', List.isEmpty_eq_false] at this
    exact this.1
  · have := h.2 c hc
    exact ⟨this.1.1.1, this.1.1.2, this.1.2, this.2⟩

theorem eol_not_continues {eol : List Char}
    (heol : eol = [] ∨ eol = ['\n'] ∨ eol = ['\r'] ∨ eol = ['\r', '\n']) :
    ∀ c ∈ eol.head?, continues_number c = false := by
  rcases heol with h | h | h | h <;> subst h
  · simp
  all_goals
    intro c hc
    simp only [List.head?_cons, Option.mem_def, Option.some.injEq] at hc
    subst hc
    decide

theorem endptr_bad_eol {eol : List Char}
    (heol : eol = [] ∨ eol = ['\n'] ∨ eol = ['\r'] ∨ eol = ['\r', '\n']) :
    endptr_bad eol = false := by
  rcases heol with h | h | h | h <;> subst h <;> rfl

theorem parse_tokens_append_last (fields : List (List Char)) (eol : List Char)
    (hnum : ∀ f ∈ fields, is_number_field f = true)
    (heol : eol = [] ∨ eol = ['\n'] ∨ eol = ['\r'] ∨ eol = ['\r', '\n']) :
    parse_tokens (append_last fields eol) = .ok (fields.map (fun f => (strtod f).1)) := by
  induction fields with
  | nil => rfl
  | cons f fs ih =>
    have hf := is_number_field_spec (hnum f (by simp))
    cases fs with
    | nil =>
      have e := strtod_append f eol hf.1 (eol_not_continues heol)
      have hb : endptr_bad eol = false := endptr_bad_eol heol
      simp [append_last, parse_tokens, e, hb]
    | cons g gs =>
      have hrest : (strtod f).2 = [] := by
        have := hf.1
        simp only [is_number, Bool.and_eq_true, List.isEmpty_iff] at this
        exact this.2
      have := ih (fun f' hf' => hnum f' (List.mem_cons_of_mem _ hf'))
      simp only [append_last, parse_tokens, hrest, endptr_bad, this, List.map_cons]
      simp

/-- The body of the loop on a line of number fields. -/
theorem read_line_record (st : ReadState) (fields : List (List Char)) (eol : List Char)
    (hne : fields ≠ []) (hnum : ∀ f ∈ fields, is_number_field f = true)
    (heol : eol = [] ∨ eol = ['\n'] ∨ eol = ['\r'] ∨ eol = ['\r', '\n'])
    (hd : st.first_line = true ∨ fields.length = st.current_d) :
    read_line st (line_text fields ++ eol) =
      .ok { datapoints := st.datapoints ++ [fields.map (fun f => (strtod f).1)]
            current_n := st.current_n + 1
            current_d := fields.length
            first_line := false } := by
  have htoks : ∀ t ∈ append_last fields eol, t ≠ [] ∧ ',' ∉ t ∧ Char.ofNat 0 ∉ t := by
    intro t ht
    obtain ⟨f, hf, h⟩ := mem_append_last ht
    have hs := is_number_field_spec (hnum f hf)
    have hfc : ',' ∉ f ∧ Char.ofNat 0 ∉ f :=
      ⟨fun hc => (hs.2.2 _ hc).1 rfl, fun hc => (hs.2.2 _ hc).2.2.2 rfl⟩
    rcases h with h | h
    · subst h
      exact ⟨hs.2.1, hfc⟩
    · subst h
      refine ⟨by simp [hs.2.1], ?_, ?_⟩
      · rcases heol with h | h | h | h <;> subst h <;> simp [hfc.1]
      · rcases heol with h | h | h | h <;> subst h <;> simp [hfc.2]
  have hhead : ∃ c rest, line_text fields ++ eol = c :: rest ∧ c ≠ '\n' ∧ c ≠ '\r' := by
    cases fields with
    | nil => exact absurd rfl hne
    | cons f fs =>
      have hs := is_number_field_spec (hnum f (by simp))
      cases f with
      | nil => exact absurd rfl hs.2.1
      | cons c cs =>
        have hc := hs.2.2 c (by simp)
        cases fs with
        | nil => exact ⟨c, cs ++ eol, by simp [line_text, List.intercalate], hc.2.1, hc.2.2.1⟩
        | cons g gs =>
          exact ⟨c, _, by rw [line_text_cons_cons]; rfl, hc.2.1, hc.2.2.1⟩
  obtain ⟨c, rest, hline, hc1, hc2⟩ := hhead
  have hskip : ¬ ((line_text fields ++ eol).head? = some '\n' ∨
      (line_text fields ++ eol).head? = some '\r') := by
    rw [hline]
    simp [hc1, hc2]
  have hcstr : cstr (line_text fields ++ eol) = line_text fields ++ eol := by
    rw [line_text_append_last fields eol hne]
    unfold cstr
    rw [List.takeWhile_eq_self_iff]
    intro x hx
    rcases mem_line_text hx with h | ⟨t, ht, hxt⟩
    · subst h
      decide
    · have : x ≠ Char.ofNat 0 := fun h => (htoks t ht).2.2 (h ▸ hxt)
      simpa using this
  have htok : strtok_all ',' (line_text fields ++ eol) = append_last fields eol := by
    rw [line_text_append_last fields eol hne]
    exact strtok_all_line_text _ (append_last_ne_nil eol hne)
      (fun t ht => ⟨(htoks t ht).1, (htoks t ht).2.1⟩)
  unfold read_line
  rw [if_neg hskip]
  simp only [hcstr, htok, length_append_last, parse_tokens_append_last fields eol hnum heol]
  rcases hd with hd | hd
  · simp [hd]
  · simp [hd]
theorem line_end_cases (cr : Bool) : line_end cr = [] ∨ line_end cr = ['\r'] := by
  cases cr
  · exact Or.inl rfl
  · exact Or.inr rfl

theorem line_end_eol (cr : Bool) :
    (line_end cr ++ ['\n'] = [] ∨ line_end cr ++ ['\n'] = ['\n'] ∨
      line_end cr ++ ['\n'] = ['\r'] ∨ line_end cr ++ ['\n'] = ['\r', '\n']) ∧
    (line_end cr = [] ∨ line_end cr = ['\n'] ∨ line_end cr = ['\r'] ∨
      line_end cr = ['\r', '\n']) := by
  cases cr
  · exact ⟨Or.inr (Or.inl rfl), Or.inl rfl⟩
  · exact ⟨Or.inr (Or.inr (Or.inr rfl)), Or.inr (Or.inr (Or.inl rfl))⟩

/-- The loop on lines of number fields that all have `d` fields, every line
ended by a line feed or by a carriage return and a line feed. -/
theorem read_lines_uniform (d : Nat) (ls : List (List (List Char) × Bool))
    (hlen : ∀ l ∈ ls, l.1 = [] ∨ l.1.length = d)
    (hfield : ∀ l ∈ ls, ∀ f ∈ l.1, is_number_field f = true)
    (st : ReadState) (hst : st.first_line = true ∨ st.current_d = d)
    (more : List (List Char)) :
    read_lines st (ls.map (fun l => line_text l.1 ++ (line_end l.2 ++ ['\n'])) ++ more) =
      read_lines (after_records st d ((ls.map Prod.fst).filter (fun l => !l.isEmpty))) more := by
  induction ls generalizing st with
  | nil => simp [after_records]
  | cons l ls ih =>
    have hlen' : ∀ l' ∈ ls, l'.1 = [] ∨ l'.1.length = d :=
      fun l' h => hlen l' (List.mem_cons_of_mem _ h)
    have hfield' : ∀ l' ∈ ls, ∀ f ∈ l'.1, is_number_field f = true :=
      fun l' h => hfield l' (List.mem_cons_of_mem _ h)
    by_cases hl : l.1 = []
    · have : read_line st (line_text l.1 ++ (line_end l.2 ++ ['\n'])) = .ok st := by
        rw [hl]
        cases l.2 <;> simp [read_line, line_text, List.intercalate, line_end]
      rw [List.map_cons, List.cons_append]
      simp only [read_lines, this]
      rw [ih hlen' hfield' st hst]
      simp [hl]
    · have hld : l.1.length = d := (hlen l (by simp)).resolve_left hl
      have hrec := read_line_record st l.1 (line_end l.2 ++ ['\n']) hl (hfield l (by simp))
        (line_end_eol l.2).1 (hst.imp id (fun h => by rw [h, hld]))
      rw [List.map_cons, List.cons_append]
      simp only [read_lines, hrec]
      rw [ih hlen' hfield' _ (Or.inr hld)]
      have hl' : l.1.isEmpty = false := by simpa using hl
      congr 1
      simp only [List.map_cons, List.filter_cons, hl', Bool.not_false, if_true]
      by_cases hr : (ls.map Prod.fst).filter (fun l => !l.isEmpty) = []
      · simp [after_records, hr, field_values, hld]
      · simp [after_records, hr, field_values, hld, Nat.add_assoc, Nat.add_comm 1]

theorem not_mem_line_text_newline (l : List (List Char))
    (h : ∀ f ∈ l, is_number_field f = true) : '\n' ∉ line_text l := by
  intro hc
  rcases mem_line_text hc with h1 | ⟨t, ht, hct⟩
  · exact absurd h1 (by decide)
  · exact ((is_number_field_spec (h t ht)).2.2 _ hct).2.1 rfl

theorem not_mem_line_newline (l : List (List Char)) (cr : Bool)
    (h : ∀ f ∈ l, is_number_field f = true) : '\n' ∉ line_text l ++ line_end cr := by
  intro hc
  rcases List.mem_append.mp hc with h1 | h1
  · exact not_mem_line_text_newline l h h1
  · cases cr
    · simp [line_end] at h1
    · simp [line_end] at h1

theorem length_le_length_flatMap_newline (texts : List (List Char)) :
    texts.length ≤ (texts.flatMap (fun t => t ++ ['\n'])).length := by
  induction texts with
  | nil => simp
  | cons t ts ih =>
    simp only [List.length_cons, List.flatMap_cons, List.length_append, List.length_nil]
    omega

theorem line_text_ne_nil (l : List (List Char)) (hl : l ≠ [])
    (h : ∀ f ∈ l, is_number_field f = true) : line_text l ≠ [] := by
  cases l with
  | nil => exact absurd rfl hl
  | cons f fs =>
    have hf := (is_number_field_spec (h f (by simp))).2.1
    cases fs with
    | nil => simpa [line_text, List.intercalate] using hf
    | cons g gs =>
      rw [line_text_cons_cons]
      simp

theorem flatMap_line_text (ls : List (List (List Char) × Bool)) :
    ls.flatMap (fun l => line_text l.1 ++ (line_end l.2 ++ ['\n']))
      = (ls.map (fun l => line_text l.1 ++ line_end l.2)).flatMap (fun t => t ++ ['\n']) := by
  induction ls with
  | nil => rfl
  | cons l ls ih => simp only [List.flatMap_cons, List.map_cons, ih, List.append_assoc]

/-- C3 (as amended): an input made of lines of number fields separated by
commas, every line ended by a line feed or by a carriage return and a line
feed, except possibly the last one, which may end with nothing or with a
carriage return, and every line at most 4095 characters long with its ending,
in which all lines that are not empty have `d` fields, is read successfully;
the dimension is `d`, a vector is produced for every line that is not empty, in
input order, and its components are the values that `strtod` gives to the
fields of the line, that is the numbers written, rounded to `double`. -/
theorem read_datapoints_uniform (ls : List (List (List Char) × Bool))
    (last : List (List Char) × Bool) (d : Nat)
    (hlen : ∀ l ∈ last :: ls, l.1 = [] ∨ l.1.length = d)
    (hfield : ∀ l ∈ last :: ls, ∀ f ∈ l.1, is_number_field f = true)
    (hshort : ∀ l ∈ ls, (line_text l.1 ++ line_end l.2).length + 1 < 4096)
    (hshort_last : (line_text last.1 ++ line_end last.2).length < 4096)
    (hsome : ∃ l ∈ last :: ls, l.1 ≠ []) :
    1 ≤ d ∧
    read_datapoints (ls.flatMap (fun l => line_text l.1 ++ (line_end l.2 ++ ['\n']))
        ++ (line_text last.1 ++ line_end last.2)) =
      .ok { datapoints :=
              (((ls ++ [last]).map Prod.fst).filter (fun l => !l.isEmpty)).map field_values
            n := (((ls ++ [last]).map Prod.fst).filter (fun l => !l.isEmpty)).length
            d := d } := by
  have hd : 1 ≤ d := by
    obtain ⟨l, hl, hne⟩ := hsome
    have h1 := (hlen l hl).resolve_left hne
    have h2 : l.1.length ≠ 0 := fun h => hne (List.length_eq_zero.mp h)
    omega
  refine ⟨hd, ?_⟩
  have hlen' : ∀ l ∈ ls, l.1 = [] ∨ l.1.length = d :=
    fun l h => hlen l (List.mem_cons_of_mem _ h)
  have hfield' : ∀ l ∈ ls, ∀ f ∈ l.1, is_number_field f = true :=
    fun l h => hfield l (List.mem_cons_of_mem _ h)
  have hfl := hfield last (List.mem_cons_self _ _)
  have htexts : ∀ t ∈ ls.map (fun l => line_text l.1 ++ line_end l.2),
      '\n' ∉ t ∧ t.length + 1 < 4096 := by
    intro t ht
    obtain ⟨l, hl, rfl⟩ := List.mem_map.mp ht
    exact ⟨not_mem_line_newline l.1 l.2 (hfield' l hl), hshort l hl⟩
  have hlines := stdin_lines_aux_lines (ls.map (fun l => line_text l.1 ++ line_end l.2))
    (line_text last.1 ++ line_end last.2)
    (ls.flatMap (fun l => line_text l.1 ++ (line_end l.2 ++ ['\n']))
      ++ (line_text last.1 ++ line_end last.2)).length htexts
    ⟨not_mem_line_newline last.1 last.2 hfl, hshort_last⟩
    (by
      rw [flatMap_line_text]
      have := length_le_length_flatMap_newline (ls.map (fun l => line_text l.1 ++ line_end l.2))
      rw [List.length_map] at this
      simp only [List.length_map, List.length_append]
      omega)
  rw [← flatMap_line_text] at hlines
  unfold read_datapoints
  rw [read_loop_eq_read_lines, hlines, List.map_map]
  have hmap : (fun t => t ++ ['\n']) ∘ (fun l : List (List Char) × Bool =>
      line_text l.1 ++ line_end l.2) = fun l => line_text l.1 ++ (line_end l.2 ++ ['\n']) := by
    funext l
    simp
  rw [hmap, read_lines_uniform d ls hlen' hfield' _ (Or.inl rfl)]
  have hfilter : ((ls ++ [last]).map Prod.fst).filter (fun l => !l.isEmpty)
      = (ls.map Prod.fst).filter (fun l => !l.isEmpty)
        ++ (if last.1 = [] then [] else [last.1]) := by
    rw [List.map_append, List.filter_append]
    by_cases hl : last.1 = []
    · simp [hl]
    · have hl' : last.1.isEmpty = false := by simpa using hl
      simp [hl, hl']
  rw [hfilter]
  by_cases hlast : last.1 = []
  · have hrecs : (ls.map Prod.fst).filter (fun l => !l.isEmpty) ≠ [] := by
      obtain ⟨l, hl, hne⟩ := hsome
      have hl' : l ∈ ls := by
        rcases List.mem_cons.mp hl with h | h
        · rw [h] at hne; exact absurd hlast hne
        · exact h
      intro h
      have : l.1 ∈ (ls.map Prod.fst).filter (fun l => !l.isEmpty) :=
        List.mem_filter.mpr ⟨List.mem_map_of_mem _ hl', by simpa using hne⟩
      rw [h] at this
      exact absurd this (List.not_mem_nil _)
    have hpos : ((ls.map Prod.fst).filter (fun l => !l.isEmpty)).length ≠ 0 :=
      fun h => hrecs (List.length_eq_zero.mp h)
    rw [hlast, if_pos rfl, List.append_nil]
    rcases line_end_cases last.2 with he | he
    · simp [line_text, List.intercalate, he, read_lines, after_records, hrecs, hpos]
    · simp [line_text, List.intercalate, he, read_lines, read_line, after_records, hrecs, hpos]
  · have hne : line_text last.1 ++ line_end last.2 ≠ [] := by
      intro h
      exact line_text_ne_nil last.1 hlast hfl (List.append_eq_nil.mp h).1
    have hld : last.1.length = d := (hlen last (List.mem_cons_self _ _)).resolve_left hlast
    rw [if_neg hne, if_neg hlast]
    by_cases hrecs : (ls.map Prod.fst).filter (fun l => !l.isEmpty) = []
    · have hrec := read_line_record
        { datapoints := [], current_n := 0, current_d := 0, first_line := true } last.1
        (line_end last.2) hlast hfl (line_end_eol last.2).2 (Or.inl rfl)
      simp [read_lines, after_records, hrecs, hrec, field_values, hld]
    · have hrec := read_line_record
        (after_records { datapoints := [], current_n := 0, current_d := 0, first_line := true }
          d ((ls.map Prod.fst).filter (fun l => !l.isEmpty))) last.1 (line_end last.2)
        hlast hfl (line_end_eol last.2).2 (Or.inr (by simp [after_records, hrecs, hld]))
      simp only [after_records, hrecs, if_false, List.nil_append, Nat.zero_add] at hrec
      simp [read_lines, hrec, after_records, hrecs, field_values, hld]

/-- An instance: three records with both kinds of line ending, an empty line,
a hexadecimal field, and no line feed at the end. -/
theorem read_datapoints_uniform_witness :
    read_datapoints "1,2\r\n\n0x3,4\n5,6".toList
      = .ok { datapoints := [[1, 2], [3, 4], [5, 6]], n := 3, d := 2 } :=
  (read_datapoints_uniform
    [(["1".toList, "2".toList], true), ([], false), (["0x3".toList, "4".toList], false)]
    (["5".toList, "6".toList], false) 2 (by decide) (by decide!) (by decide!) (by decide!)
    ⟨(["5".toList, "6".toList], false), by simp, by simp⟩).2.trans (by decide!)

set_option maxRecDepth 100000 in
/-- C3 (as stated) fails on a line of 4096 characters: the line has one field,
the number 1 written with 4095 leading zeros, and it is read as the two vectors
(0) and (1), the second call of `fgets` returning the last digit as a line of
its own. -/
theorem read_datapoints_long_line :
    is_number_field (List.replicate 4095 '0' ++ ['1']) = true ∧
    field_values [List.replicate 4095 '0' ++ ['1']] = [1] ∧
    read_datapoints (line_text [List.replicate 4095 '0' ++ ['1']] ++ ['\n'])
      = .ok { datapoints := [[0], [1]], n := 2, d := 1 } := by
  decide!

theorem parse_tokens_error {toks : List (List Char)} {e : String}
    (h : parse_tokens toks = .error e) : e = generalError := by
  induction toks generalizing e with
  | nil => simp [parse_tokens] at h
  | cons t ts ih =>
    unfold parse_tokens at h
    split at h
    · exact (Except.error.inj h).symm
    · cases hp : parse_tokens ts with
      | error e' =>
        rw [hp] at h
        rw [← Except.error.inj h]
        exact ih hp
      | ok v => rw [hp] at h; cases h

theorem read_line_skipped (st : ReadState) (line : List Char) (h : is_skipped line = true) :
    read_line st line = .ok st := by
  unfold read_line
  rw [if_pos (by simpa [is_skipped] using h)]

/-- The body of the loop on a line that is not skipped: a failure, or one more
vector. -/
theorem read_line_cases (st : ReadState) (line : List Char) (h : is_skipped line = false) :
    read_line st line = .error generalError ∨
    ((st.first_line = true ∨ token_count line = st.current_d) ∧
      ∃ vector, parse_tokens (strtok_all ',' (cstr line)) = .ok vector ∧
        read_line st line = .ok
          { datapoints := st.datapoints ++ [vector]
            current_n := st.current_n + 1
            current_d := token_count line
            first_line := false }) := by
  have hs : ¬ (line.head? = some '\n' ∨ line.head? = some '\r') := by
    simpa [is_skipped] using h
  unfold read_line
  rw [if_neg hs]
  by_cases hc : (!st.first_line && decide ((strtok_all ',' (cstr line)).length ≠ st.current_d))
      = true
  · left
    simp only [hc, if_true]
  · simp only [hc]
    cases hp : parse_tokens (strtok_all ',' (cstr line)) with
    | error e =>
      left
      rw [parse_tokens_error hp]
      rfl
    | ok vector =>
      right
      simp only [Bool.and_eq_true, Bool.not_eq_true', decide_eq_true_eq, not_and,
        Decidable.not_not] at hc
      have hd : st.first_line = true ∨ token_count line = st.current_d := by
        cases hf : st.first_line with
        | true => exact Or.inl rfl
        | false => exact Or.inr (hc hf)
      refine ⟨hd, vector, rfl, ?_⟩
      rcases hd with hd | hd
      · simp [hd, token_count]
      · cases hf : st.first_line
        · simp [token_count]
          exact (hc hf).symm
        · simp [token_count]

theorem read_lines_mismatch (ls : List (List Char)) (st : ReadState) (later : List Char)
    (hst : st.first_line = false) (hmem : later ∈ ls) (hskip : is_skipped later = false)
    (hcount : token_count later ≠ st.current_d) :
    read_lines st ls = .error generalError := by
  induction ls generalizing st with
  | nil => exact absurd hmem (List.not_mem_nil _)
  | cons l ls ih =>
    unfold read_lines
    by_cases hl : is_skipped l = true
    · rw [read_line_skipped st l hl]
      have : later ∈ ls := by
        rcases List.mem_cons.mp hmem with h | h
        · rw [h] at hskip; rw [hskip] at hl; cases hl
        · exact h
      exact ih st hst this hcount
    · have hl' : is_skipped l = false := by simpa using hl
      rcases read_line_cases st l hl' with h | ⟨hd, vector, _, h⟩
      · rw [h]
      · rw [h]
        have hld : token_count l = st.current_d := by
          rcases hd with hd | hd
          · rw [hst] at hd; cases hd
          · exact hd
        rcases List.mem_cons.mp hmem with hm | hm
        · rw [hm] at hcount; exact absurd hld hcount
        · exact ih _ rfl hm (by simpa [hld] using hcount)

theorem read_lines_first_mismatch (ls : List (List Char)) (st : ReadState)
    (first later : List Char) (rest : List (List Char))
    (hst : st.first_line = true)
    (hfilter : ls.filter (fun l => !is_skipped l) = first :: rest)
    (hmem : later ∈ rest) (hcount : token_count later ≠ token_count first) :
    read_lines st ls = .error generalError := by
  induction ls generalizing st with
  | nil => simp at hfilter
  | cons l ls ih =>
    unfold read_lines
    by_cases hl : is_skipped l = true
    · rw [read_line_skipped st l hl]
      simp only [List.filter_cons, hl, Bool.not_true] at hfilter
      exact ih st hst (by simpa using hfilter)
    · have hl' : is_skipped l = false := by simpa using hl
      simp only [List.filter_cons, hl', Bool.not_false, if_true, List.cons.injEq] at hfilter
      obtain ⟨rfl, hrest⟩ := hfilter
      rcases read_line_cases st l hl' with h | ⟨_, vector, _, h⟩
      · rw [h]
      · rw [h]
        have hm : later ∈ ls.filter (fun l => !is_skipped l) := hrest ▸ hmem
        have hm' := List.mem_filter.mp hm
        exact read_lines_mismatch ls _ later rfl hm'.1 (by simpa using hm'.2) hcount

/-- C4 (as amended): when a line that `read_datapoints` does not skip holds a
number of `strtok` tokens (maximal runs of characters other than the comma)
that differs from that of the first line that is not skipped,
`read_datapoints` fails with "An Error Has Occurred" and returns no dataset. -/
theorem read_datapoints_token_count_mismatch (stdin first later : List Char)
    (rest : List (List Char))
    (hlines : (stdin_lines stdin).filter (fun l => !is_skipped l) = first :: rest)
    (hmem : later ∈ rest) (hcount : token_count later ≠ token_count first) :
    read_datapoints stdin = .error generalError := by
  unfold read_datapoints
  rw [read_loop_eq_read_lines]
  have := read_lines_first_mismatch (stdin_lines_aux stdin.length stdin)
    { datapoints := [], current_n := 0, current_d := 0, first_line := true } first later rest
    rfl hlines hmem hcount
  rw [this]

/-- An instance: three tokens after a
first line of two. -/
theorem read_datapoints_token_count_mismatch_witness :
    read_datapoints "1,2\n\n1,2,3\n".toList = .error generalError :=
  read_datapoints_token_count_mismatch "1,2\n\n1,2,3\n".toList "1,2\n".toList "1,2,3\n".toList
    ["1,2,3\n".toList] (by decide) (by decide) (by decide)

/-- C4 (as stated) fails on a line with an empty field or a leading comma: split
on the comma such a line has three fields where the first line has two, and
the input is read successfully. -/
theorem read_datapoints_empty_field :
    ("1,2\n".toList.splitOn ',').length = 2 ∧
    ("1,,2\n".toList.splitOn ',').length = 3 ∧
    (",1,2\n".toList.splitOn ',').length = 3 ∧
    read_datapoints "1,2\n1,,2\n".toList
      = .ok { datapoints := [[1, 2], [1, 2]], n := 2, d := 2 } ∧
    read_datapoints "1,2\n,1,2\n".toList
      = .ok { datapoints := [[1, 2], [1, 2]], n := 2, d := 2 } := by
  decide!

/-- A token that holds no number and starts with a line feed is accepted as
the value zero: the test of line 160 does not look whether `strtod` converted
anything, which `validate_integer_input` does (line 33). -/
theorem read_datapoints_empty_last_token :
    strtok_all ',' (cstr "1,2,\n".toList) = ["1".toList, "2".toList, "\n".toList] ∧
    read_datapoints "1,2,\n".toList = .ok { datapoints := [[1, 2, 0]], n := 1, d := 3 } := by
  decide!

/-- The line `1,2,abc` of the specification is rejected. -/
theorem read_datapoints_abc :
    read_datapoints "1,2,abc\n".toList = .error generalError := by
  decide!
/-! ## The clustering -/

theorem getD_set_eq {α : Type} (l : List α) (i : Nat) (x dflt : α) (hi : i < l.length) :
    (l.set i x).getD i dflt = x := by
  simp [List.getD_eq_getElem?_getD, List.getElem?_set, hi]

theorem getD_set_ne {α : Type} (l : List α) (i j : Nat) (x dflt : α) (hij : i ≠ j) :
    (l.set i x).getD j dflt = l.getD j dflt := by
  simp [List.getD_eq_getElem?_getD, List.getElem?_set, hij]

theorem getD_map_range {α : Type} (f : Nat → α) (dflt : α) (d c : Nat) (hc : c < d) :
    ((List.range d).map f).getD c dflt = f c := by
  simp [List.getD_eq_getElem?_getD, hc]

theorem cluster_members_succ (a : List Int) (n j : Nat) :
    cluster_members a (n + 1) j =
      if a.getD n 0 = (j : Int) then cluster_members a n j ++ [n] else cluster_members a n j := by
  unfold cluster_members
  rw [List.range_succ, List.filter_append]
  by_cases h : a.getD n 0 = (j : Int)
  · rw [if_pos h]
    simp [-List.getD_eq_getElem?_getD, List.filter, h]
  · rw [if_neg h]
    have hb : (a.getD n 0 == (j : Int)) = false := beq_eq_false_iff_ne.mpr h
    simp [-List.getD_eq_getElem?_getD, List.filter, hb]

theorem cluster_sum_succ (data : List (List Double)) (a : List Int) (n j c : Nat) :
    cluster_sum data a (n + 1) j c =
      if a.getD n 0 = (j : Int) then cluster_sum data a n j c + (data.getD n []).getD c 0
      else cluster_sum data a n j c := by
  unfold cluster_sum
  rw [cluster_members_succ]
  by_cases h : a.getD n 0 = (j : Int)
  · rw [if_pos h, if_pos h, List.foldl_append]
    rfl
  · rw [if_neg h, if_neg h]

theorem accumulate_succ (data : List (List Double)) (n k d : Nat) (a : List Int) :
    accumulate data (n + 1) k d a =
      match accumulate data n k d a with
      | none => none
      | some s =>
        if a.getD n 0 < 0 ∨ (k : Int) ≤ a.getD n 0 then none
        else
          some (s.1.set (a.getD n 0).toNat (s.1.getD (a.getD n 0).toNat 0 + 1),
                s.2.set (a.getD n 0).toNat
                  ((List.range d).map (fun j =>
                    (s.2.getD (a.getD n 0).toNat []).getD j 0 + (data.getD n []).getD j 0))) := by
  unfold accumulate
  rw [List.range_succ, List.foldl_append]
  rfl

/-- The accumulation loop: when it stays inside its arrays every assignment is the
index of a cluster, and for every cluster it has counted its data points and
summed them component by component, in the order of the data points. -/
theorem accumulate_spec (data : List (List Double)) (k d : Nat) (a : List Int) (n : Nat)
    (acc : List Int × List (List Double)) (h : accumulate data n k d a = some acc) :
    acc.1.length = k ∧ acc.2.length = k ∧
    (∀ i < n, 0 ≤ a.getD i 0 ∧ a.getD i 0 < (k : Int)) ∧
    ∀ j < k, acc.1.getD j 0 = ((cluster_members a n j).length : Int) ∧
      acc.2.getD j [] = (List.range d).map (fun c => cluster_sum data a n j c) := by
  induction n generalizing acc with
  | zero =>
    have hacc : acc = (List.replicate k 0, List.replicate k (List.replicate d 0)) := by
      simpa [accumulate] using h.symm
    subst hacc
    refine ⟨by simp, by simp, fun i hi => absurd hi (Nat.not_lt_zero _), fun j hj => ?_⟩
    constructor
    · simp [cluster_members, List.getD_eq_getElem?_getD, hj]
    · simp only [List.getD_eq_getElem?_getD, List.getElem?_replicate, hj, if_true,
        Option.getD_some]
      apply List.ext_getElem
      · simp
      · intro c h1 h2
        simp [cluster_sum, cluster_members]
  | succ n ih =>
    rw [accumulate_succ] at h
    cases hs : accumulate data n k d a with
    | none => rw [hs] at h; cases h
    | some s =>
      rw [hs] at h
      obtain ⟨hl1, hl2, hrange, hval⟩ := ih s hs
      by_cases hbad : a.getD n 0 < 0 ∨ (k : Int) ≤ a.getD n 0
      · simp only [hbad, if_true] at h
        cases h
      · simp only [hbad, if_false, Option.some.injEq] at h
        have hlo : 0 ≤ a.getD n 0 := by omega
        have hhi : a.getD n 0 < (k : Int) := by omega
        have hidx : (a.getD n 0).toNat < k := by omega
        have hcast : ((a.getD n 0).toNat : Int) = a.getD n 0 := Int.toNat_of_nonneg hlo
        subst h
        refine ⟨by simpa using hl1, by simpa using hl2, ?_, fun j hj => ?_⟩
        · intro i hi
          rcases Nat.lt_succ_iff_lt_or_eq.mp hi with h' | h'
          · exact hrange i h'
          · subst h'
            exact ⟨hlo, hhi⟩
        · by_cases hj' : (a.getD n 0).toNat = j
          · have haj : a.getD n 0 = (j : Int) := by rw [← hcast, hj']
            subst hj'
            constructor
            · rw [getD_set_eq _ _ _ _ (by rw [hl1]; exact hidx), (hval _ hidx).1,
                cluster_members_succ, if_pos haj]
              simp
            · rw [getD_set_eq _ _ _ _ (by rw [hl2]; exact hidx), (hval _ hidx).2]
              apply List.map_congr_left
              intro c hc
              rw [getD_map_range _ _ _ _ (List.mem_range.mp hc), cluster_sum_succ, if_pos haj]
          · have haj : a.getD n 0 ≠ (j : Int) := by
              intro h'
              apply hj'
              rw [h']
              simp
            constructor
            · rw [getD_set_ne _ _ _ _ _ hj', (hval j hj).1, cluster_members_succ, if_neg haj]
            · rw [getD_set_ne _ _ _ _ _ hj', (hval j hj).2]
              apply List.map_congr_left
              intro c _
              rw [cluster_sum_succ, if_neg haj]

theorem recompute_succ (cents : List (List Double)) (k d : Nat) (sizes : List Int)
    (sums : List (List Double)) :
    recompute cents (k + 1) d sizes sums =
      if sizes.getD k 0 > 0 then
        ((recompute cents k d sizes sums).1.set k (new_centroid_val d sizes sums k),
         if EPSILON ≤ calculate_distance ((recompute cents k d sizes sums).1.getD k [])
              (new_centroid_val d sizes sums k) d
         then false else (recompute cents k d sizes sums).2)
      else ((recompute cents k d sizes sums).1, false) := by
  unfold recompute
  rw [List.range_succ, List.foldl_append]
  rfl

/-- The loop over the clusters: the centroid of a cluster with points is replaced
by `new_centroid_val`, the others are kept, and `converged` says that every
cluster has points and that the test `>= EPSILON` of line 443 failed for it. -/
theorem recompute_spec (cents : List (List Double)) (d : Nat) (sizes : List Int)
    (sums : List (List Double)) (k : Nat) (hk : k ≤ cents.length) :
    (recompute cents k d sizes sums).1.length = cents.length ∧
    (∀ j < k, (recompute cents k d sizes sums).1.getD j [] =
      if sizes.getD j 0 > 0 then new_centroid_val d sizes sums j else cents.getD j []) ∧
    (∀ j, k ≤ j → (recompute cents k d sizes sums).1.getD j [] = cents.getD j []) ∧
    ((recompute cents k d sizes sums).2 = true ↔
      ∀ j < k, sizes.getD j 0 > 0 ∧
        ¬ (EPSILON ≤
            calculate_distance (cents.getD j []) (new_centroid_val d sizes sums j) d)) := by
  induction k with
  | zero =>
    refine ⟨rfl, fun j hj => absurd hj (Nat.not_lt_zero _), fun j _ => rfl, ?_⟩
    simp [recompute]
  | succ k ih =>
    obtain ⟨hlen, hlow, hhigh, hflag⟩ := ih (Nat.le_of_succ_le hk)
    rw [recompute_succ]
    by_cases hs : sizes.getD k 0 > 0
    · simp only [hs, if_true]
      refine ⟨by simpa using hlen, ?_, ?_, ?_⟩
      · intro j hj
        rcases Nat.lt_succ_iff_lt_or_eq.mp hj with h | h
        · rw [getD_set_ne _ _ _ _ _ (Nat.ne_of_gt h)]
          exact hlow j h
        · subst h
          rw [getD_set_eq _ _ _ _ (by rw [hlen]; exact hk), if_pos hs]
      · intro j hj
        rw [getD_set_ne _ _ _ _ _ (by omega)]
        exact hhigh j (by omega)
      · rw [hhigh k (Nat.le_refl _)]
        by_cases hmove : EPSILON ≤
            calculate_distance (cents.getD k []) (new_centroid_val d sizes sums k) d
        · simp only [hmove, if_true]
          constructor
          · intro h; cases h
          · intro h
            exact absurd hmove (h k (Nat.lt_succ_self _)).2
        · simp only [hmove, if_false]
          rw [hflag]
          constructor
          · intro h j hj
            rcases Nat.lt_succ_iff_lt_or_eq.mp hj with h' | h'
            · exact h j h'
            · subst h'
              exact ⟨hs, hmove⟩
          · intro h j hj
            exact h j (Nat.lt_succ_of_lt hj)
    · simp only [hs, if_false]
      refine ⟨hlen, ?_, ?_, ?_⟩
      · intro j hj
        rcases Nat.lt_succ_iff_lt_or_eq.mp hj with h | h
        · exact hlow j h
        · subst h
          rw [if_neg hs]
          exact hhigh j (Nat.le_refl _)
      · intro j hj
        exact hhigh j (by omega)
      · constructor
        · intro h; cases h
        · intro h
          exact absurd (h k (Nat.lt_succ_self _)).1 hs

/-- The update step in terms of the members of the clusters. -/
theorem update_step_spec (data cents : List (List Double)) (n k d : Nat) (a : List Int)
    (newc : List (List Double)) (conv : Bool) (hk : cents.length = k)
    (h : update_step data cents n k d a = some (newc, conv)) :
    (∀ i < n, 0 ≤ a.getD i 0 ∧ a.getD i 0 < (k : Int)) ∧
    newc.length = k ∧
    (∀ j < k, newc.getD j [] =
      if cluster_members a n j ≠ [] then cluster_mean data a n d j else cents.getD j []) ∧
    (conv = true ↔ ∀ j < k, cluster_members a n j ≠ [] ∧
      ¬ (EPSILON ≤ calculate_distance (cents.getD j []) (cluster_mean data a n d j) d)) := by
  unfold update_step at h
  cases hacc : accumulate data n k d a with
  | none => rw [hacc] at h; cases h
  | some acc =>
    rw [hacc] at h
    simp only [Option.some.injEq] at h
    obtain ⟨_, _, hrange, hval⟩ := accumulate_spec data k d a n acc hacc
    obtain ⟨hlen, hlow, _, hflag⟩ := recompute_spec cents d acc.1 acc.2 k (by omega)
    have hsize : ∀ j < k, (acc.1.getD j 0 > 0 ↔ cluster_members a n j ≠ []) := by
      intro j hj
      rw [(hval j hj).1]
      constructor
      · intro hpos hnil
        rw [hnil] at hpos
        simp at hpos
      · intro hne
        have : (cluster_members a n j).length ≠ 0 := fun h0 => hne (List.length_eq_zero.mp h0)
        omega
    have hnew : ∀ j < k, new_centroid_val d acc.1 acc.2 j = cluster_mean data a n d j := by
      intro j hj
      unfold new_centroid_val cluster_mean
      apply List.map_congr_left
      intro c hc
      rw [(hval j hj).2, getD_map_range _ _ _ _ (List.mem_range.mp hc), (hval j hj).1]
    have h1 : newc = (recompute cents k d acc.1 acc.2).1 := by rw [h]
    have h2 : conv = (recompute cents k d acc.1 acc.2).2 := by rw [h]
    subst h1 h2
    refine ⟨hrange, by rw [hlen, hk], ?_, ?_⟩
    · intro j hj
      rw [hlow j hj, hnew j hj]
      by_cases hs : acc.1.getD j 0 > 0
      · rw [if_pos hs, if_pos ((hsize j hj).mp hs)]
      · rw [if_neg hs, if_neg (fun hne => hs ((hsize j hj).mpr hne))]
    · rw [hflag]
      constructor
      · intro hall j hj
        exact ⟨(hsize j hj).mp (hall j hj).1, by rw [← hnew j hj]; exact (hall j hj).2⟩
      · intro hall j hj
        exact ⟨(hsize j hj).mpr (hall j hj).1, by rw [hnew j hj]; exact (hall j hj).2⟩

/-! ## The order of `double` -/

theorem double_lt_iff (a b : Double) : a < b ↔ Double.lt a b = true := Iff.rfl

theorem double_le_iff (a b : Double) : a ≤ b ↔ Double.le a b = true := Iff.rfl

theorem double_lt_trans {a b c : Double} (h1 : a < b) (h2 : b < c) : a < c := by
  rw [double_lt_iff] at *
  cases a <;> cases b <;> cases c <;> simp_all [Double.lt]
  exact lt_trans h1 h2

theorem double_lt_of_le_of_lt {a b c : Double} (h1 : a ≤ b) (h2 : b < c) : a < c := by
  rw [double_lt_iff] at *
  rw [double_le_iff] at h1
  cases a <;> cases b <;> cases c <;> simp_all [Double.lt, Double.le]
  · exact lt_of_le_of_lt h1 h2

theorem double_not_le_of_lt {a b : Double} (h : a < b) : ¬ b ≤ a := by
  rw [double_lt_iff] at h
  rw [double_le_iff]
  cases a <;> cases b <;> simp_all [Double.lt, Double.le]

theorem double_lt_irrefl (a : Double) : ¬ a < a := by
  rw [double_lt_iff]
  cases a <;> simp [Double.lt]

/-- The test `a >= b` fails exactly when `a < b` or one of the two is a NaN. -/
theorem double_not_le_iff (a b : Double) :
    ¬ b ≤ a ↔ a < b ∨ a = Double.nan ∨ b = Double.nan := by
  rw [double_lt_iff, double_le_iff]
  cases a <;> cases b <;> simp [Double.lt, Double.le]
  exact ⟨fun h => ⟨h.2, h.1⟩, fun h => ⟨h.2, h.1⟩⟩

/-- C8 (as amended): in an update step, the new centroid of a cluster that has
at least one data point is, component by component, the quotient that `double`
arithmetic gives for the sum of that component over the points assigned to the
cluster, the points being added to `+0` in the order of the input and every sum
being rounded, by the number of these points.  The old centroid does not
enter. -/
theorem update_step_mean (data cents : List (List Double)) (n k d : Nat) (a : List Int)
    (newc : List (List Double)) (conv : Bool) (hk : cents.length = k)
    (h : update_step data cents n k d a = some (newc, conv))
    (j : Nat) (hj : j < k) (hmem : cluster_members a n j ≠ []) :
    (newc.getD j []).length = d ∧
    ∀ c < d, (newc.getD j []).getD c 0 =
      Double.div
        ((cluster_members a n j).foldl
          (fun acc i => Double.add acc ((data.getD i []).getD c 0)) (Double.finite false 0))
        (Double.ofInt ((cluster_members a n j).length : Int)) := by
  obtain ⟨_, _, hnew, _⟩ := update_step_spec data cents n k d a newc conv hk h
  rw [hnew j hj, if_pos hmem]
  refine ⟨by simp [cluster_mean], fun c hc => ?_⟩
  unfold cluster_mean
  rw [getD_map_range _ _ _ _ hc]
  rfl

/-- C9: in an update step, the centroid of a cluster that has no data point is
left as it was, and the flag `converged` of the step is false. -/
theorem update_step_empty_cluster (data cents : List (List Double)) (n k d : Nat)
    (a : List Int) (newc : List (List Double)) (conv : Bool) (hk : cents.length = k)
    (h : update_step data cents n k d a = some (newc, conv))
    (j : Nat) (hj : j < k) (hempty : cluster_members a n j = []) :
    newc.getD j [] = cents.getD j [] ∧ conv = false := by
  obtain ⟨_, _, hnew, hflag⟩ := update_step_spec data cents n k d a newc conv hk h
  refine ⟨by rw [hnew j hj, if_neg (fun hne => hne hempty)], ?_⟩
  cases hc : conv with
  | false => rfl
  | true => exact absurd hempty ((hflag.mp hc) j hj).1

/-- The counter `iter_count` never decreases. -/
theorem kmeans_loop_iter_count_le (data : List (List Double)) (n k d : Nat) (remaining : Nat)
    (iter_count : Nat) (cents : List (List Double)) (a : List Int) (f : Final)
    (h : kmeans_loop data n k d remaining iter_count cents a = some f) :
    iter_count ≤ f.iter_count := by
  induction remaining generalizing iter_count cents a with
  | zero =>
    simp only [kmeans_loop, Option.some.injEq] at h
    rw [← h]
  | succ r ih =>
    simp only [kmeans_loop] at h
    split at h
    · simp only [Option.some.injEq] at h
      rw [← h]
    · split at h
      · cases h
      · split at h
        · simp only [Option.some.injEq] at h
          rw [← h]
        · exact Nat.le_of_succ_le (ih _ _ _ h)

/-- C10 (as amended): after an update step the main loop stops at once as
converged by movement exactly when the flag `converged` of the step is true,
and the flag is true exactly when every one of the `k` clusters has a data
point and the distance that `calculate_distance` computes in `double`
arithmetic between its old and its new centroid is below the `double` nearest
to 0.001 or is a NaN (the test `>= EPSILON` of line 443 fails); otherwise the
loop goes on to its next round. -/
theorem converged_by_movement_iff (data cents : List (List Double)) (n k d : Nat)
    (a : List Int) (newc : List (List Double)) (conv : Bool) (hk : cents.length = k)
    (h : update_step data cents n k d a = some (newc, conv)) :
    (conv = true ↔ ∀ j < k, cluster_members a n j ≠ [] ∧
      (calculate_distance (cents.getD j []) (newc.getD j []) d < Double.ofRat (1 / 1000) ∨
        calculate_distance (cents.getD j []) (newc.getD j []) d = Double.nan)) ∧
    ∀ (remaining iter_count : Nat) (a0 : List Int),
      (assign_step data cents n k d iter_count a0).1 = a →
      ((assign_step data cents n k d iter_count a0).2 = true ∨ iter_count = 0) →
      ((∃ f, kmeans_loop data n k d (remaining + 1) iter_count cents a0 = some f ∧
          f.stop = Stop.moved ∧ f.iter_count = iter_count) ↔ conv = true) ∧
      (conv = true →
        kmeans_loop data n k d (remaining + 1) iter_count cents a0 =
          some { centroids := newc, assignments := a, iter_count := iter_count,
                 stop := Stop.moved }) ∧
      (conv = false →
        kmeans_loop data n k d (remaining + 1) iter_count cents a0 =
          kmeans_loop data n k d remaining (iter_count + 1) newc a) := by
  obtain ⟨_, _, hnew, hflag⟩ := update_step_spec data cents n k d a newc conv hk h
  have hE : ∀ x : Double, ¬ (EPSILON ≤ x) ↔ (x < Double.ofRat (1 / 1000) ∨ x = Double.nan) := by
    intro x
    rw [double_not_le_iff]
    have : EPSILON ≠ Double.nan := by decide!
    constructor
    · rintro (h1 | h1 | h1)
      · exact Or.inl h1
      · exact Or.inr h1
      · exact absurd h1 this
    · rintro (h1 | h1)
      · exact Or.inl h1
      · exact Or.inr (Or.inl h1)
  constructor
  · rw [hflag]
    constructor
    · intro hall j hj
      refine ⟨(hall j hj).1, ?_⟩
      rw [hnew j hj, if_pos (hall j hj).1]
      exact (hE _).mp (hall j hj).2
    · intro hall j hj
      refine ⟨(hall j hj).1, ?_⟩
      have := (hall j hj).2
      rw [hnew j hj, if_pos (hall j hj).1] at this
      exact (hE _).mpr this
  · intro remaining iter_count a0 ha hrun
    have hcond : (!(assign_step data cents n k d iter_count a0).2 && decide (iter_count > 0))
        = false := by
      rcases hrun with hr | hr
      · simp [hr]
      · simp [hr]
    have hloop : kmeans_loop data n k d (remaining + 1) iter_count cents a0 =
        if conv then
          some { centroids := newc, assignments := a, iter_count := iter_count,
                 stop := Stop.moved }
        else kmeans_loop data n k d remaining (iter_count + 1) newc a := by
      simp only [kmeans_loop, hcond, ha, h]
      rfl
    have htrue : conv = true →
        kmeans_loop data n k d (remaining + 1) iter_count cents a0 =
          some { centroids := newc, assignments := a, iter_count := iter_count,
                 stop := Stop.moved } := by
      intro hc
      rw [hloop, hc]
      rfl
    have hfalse : conv = false →
        kmeans_loop data n k d (remaining + 1) iter_count cents a0 =
          kmeans_loop data n k d remaining (iter_count + 1) newc a := by
      intro hc
      rw [hloop, hc]
      rfl
    refine ⟨⟨?_, fun hc => ⟨_, htrue hc, rfl, rfl⟩⟩, htrue, hfalse⟩
    rintro ⟨f, hf, _, hic⟩
    cases hc : conv with
    | true => rfl
    | false =>
      rw [hfalse hc] at hf
      have := kmeans_loop_iter_count_le _ _ _ _ _ _ _ _ _ hf
      omega

/-- An instance: the second cluster of four points in the plane. -/
theorem update_step_mean_witness :
    ([[1, 1], [Double.ofRat (19 / 3), Double.ofRat (23 / 3)]].getD 1 []).getD 1 0
      = Double.ofRat (23 / 3) :=
  ((update_step_mean [[1, 1], [1, 3], [9, 9], [9, 11]] [[1, 1], [1, 3]]
    4 2 2 [0, 1, 1, 1] [[1, 1], [Double.ofRat (19 / 3), Double.ofRat (23 / 3)]] false rfl
    (by decide!) 1 (by decide) (by decide)).2 1 (by decide)).trans (by decide!)

/-- C8 (as stated) fails on the cluster of the three points 9007199254741028,
9007199254740998 and 9007199254741058: their arithmetic mean is the first of
them, which is a `double`, and the update step computes 9007199254741026,
because the two sums round. -/
theorem update_step_mean_rounds :
    [(9007199254741028 : Double), 0, 9007199254740998, 9007199254741058].map Double.toRat
      = [some 9007199254741028, some 0, some 9007199254740998, some 9007199254741058] ∧
    cluster_members [0, 1, 0, 0] 4 0 = [0, 2, 3] ∧
    mean_exact [[9007199254741028], [0], [9007199254740998], [9007199254741058]]
      [0, 1, 0, 0] 4 0 0 = some 9007199254741028 ∧
    update_step [[9007199254741028], [0], [9007199254740998], [9007199254741058]]
      [[9007199254741028], [0]] 4 2 1 [0, 1, 0, 0]
      = some ([[Double.finite false 9007199254741026], [Double.finite false 0]], false) := by
  decide!

/-- An instance: two equal initial centroids. -/
theorem update_step_empty_cluster_witness :
    ([[Double.ofRat (7 / 3)], [1]].getD 1 []) = [[(1 : Double)], [1]].getD 1 [] ∧ false = false :=
  update_step_empty_cluster [[1], [1], [5]] [[1], [1]] 3 2 1 [0, 0, 0]
    [[Double.ofRat (7 / 3)], [1]] false rfl (by decide!) 1 (by decide) (by decide)

/-- An instance: with an empty cluster the loop
goes on to its second round. -/
theorem converged_by_movement_iff_witness :
    kmeans_loop [[1], [1], [5]] 3 2 1 400 0 [[1], [1]] [0, 0, 0] =
      kmeans_loop [[1], [1], [5]] 3 2 1 399 1 [[Double.ofRat (7 / 3)], [1]] [0, 0, 0] :=
  ((converged_by_movement_iff [[1], [1], [5]] [[1], [1]] 3 2 1 [0, 0, 0]
    [[Double.ofRat (7 / 3)], [1]] false rfl (by decide!)).2 399 0 [0, 0, 0] (by decide!)
    (Or.inr rfl)).2.2 rfl

/-- C10 (as stated) fails on the points 5e-20, 100 and 0.002 with `K = 2`: in
the first update step both clusters have points, the first centroid moves from
5e-20 to the `double` 0.001 and the second does not move, so both move by less
than 0.001 (and by less than the `double` nearest to 0.001), but the
difference of the two values rounds to the `double` 0.001, the test
`>= EPSILON` holds and the flag `converged` is false. -/
theorem converged_by_movement_rounds :
    read_datapoints "5e-20\n100\n0.002\n".toList =
      .ok { datapoints := [[Double.ofRat (5 / 10 ^ 20)], [100], [Double.ofRat (2 / 1000)]],
            n := 3, d := 1 } ∧
    assign_step [[Double.ofRat (5 / 10 ^ 20)], [100], [Double.ofRat (2 / 1000)]]
      [[Double.ofRat (5 / 10 ^ 20)], [100]] 3 2 1 0 [0, 0, 0] = ([0, 1, 0], true) ∧
    update_step [[Double.ofRat (5 / 10 ^ 20)], [100], [Double.ofRat (2 / 1000)]]
      [[Double.ofRat (5 / 10 ^ 20)], [100]] 3 2 1 [0, 1, 0]
      = some ([[Double.ofRat (1 / 1000)], [100]], false) ∧
    cluster_members [0, 1, 0] 3 0 ≠ [] ∧ cluster_members [0, 1, 0] 3 1 ≠ [] ∧
    (∃ v, sq_dist_exact [Double.ofRat (5 / 10 ^ 20)] [Double.ofRat (1 / 1000)] 1 = some v ∧
      v < (1 / 1000) ^ 2 ∧ ∃ e, EPSILON.toRat = some e ∧ v < e ^ 2) ∧
    sq_dist_exact [100] [100] 1 = some 0 ∧
    calculate_distance [Double.ofRat (5 / 10 ^ 20)] [Double.ofRat (1 / 1000)] 1 = EPSILON := by
  refine ⟨by decide!, by decide!, by decide!, by decide!, by decide!, ?_, by decide!, by decide!⟩
  exact ⟨((Double.ofRat (1 / 1000)).toRat.getD 0 - (Double.ofRat (5 / 10 ^ 20)).toRat.getD 0) ^ 2,
    by decide!, by decide!, EPSILON.toRat.getD 0, by decide!, by decide!⟩

/-- C6 on the input `-1e308`, `-1e308`, `1e308` with `K = 2`: the third point is
at a distance that overflows to infinity, which is not below `DBL_MAX`, from
both centroids, so the assignment pass leaves it the value -1 of
`closest_cluster_idx` instead of the index 0 of the first nearest centroid. -/
theorem assign_step_writes_sentinel :
    read_datapoints "-1e308\n-1e308\n1e308\n".toList =
      .ok { datapoints := [[Double.ofRat (-10 ^ 308)], [Double.ofRat (-10 ^ 308)],
                           [Double.ofRat (10 ^ 308)]], n := 3, d := 1 } ∧
    init_centroids [[Double.ofRat (-10 ^ 308)], [Double.ofRat (-10 ^ 308)],
        [Double.ofRat (10 ^ 308)]] 2 1
      = [[Double.ofRat (-10 ^ 308)], [Double.ofRat (-10 ^ 308)]] ∧
    calculate_distance [Double.ofRat (10 ^ 308)] [Double.ofRat (-10 ^ 308)] 1
      = Double.inf false ∧
    ¬ (calculate_distance [Double.ofRat (10 ^ 308)] [Double.ofRat (-10 ^ 308)] 1 < DBL_MAX) ∧
    assign_step [[Double.ofRat (-10 ^ 308)], [Double.ofRat (-10 ^ 308)],
        [Double.ofRat (10 ^ 308)]]
      [[Double.ofRat (-10 ^ 308)], [Double.ofRat (-10 ^ 308)]] 3 2 1 0
      [0, 0, 0] = ([0, 0, -1], true) := by
  decide!

/-- C7 on the input `-1e308`, `-1e308`, `1e308` with `K = 2`, a valid run with
`n = 3`: the first assignment pass stores -1 for the third point, and the
accumulation that follows leaves the arrays `cluster_sizes` and
`new_centroids_sum` at the index -1. -/
theorem main_leaves_cluster_arrays :
    (assign_step [[Double.ofRat (-10 ^ 308)], [Double.ofRat (-10 ^ 308)],
        [Double.ofRat (10 ^ 308)]]
      [[Double.ofRat (-10 ^ 308)], [Double.ofRat (-10 ^ 308)]] 3 2 1 0
      [0, 0, 0]).1.getD 2 0 = -1 ∧
    accumulate [[Double.ofRat (-10 ^ 308)], [Double.ofRat (-10 ^ 308)],
        [Double.ofRat (10 ^ 308)]] 3 2 1 [0, 0, -1] = none ∧
    main ["kmeans".toList, "2".toList] "-1e308\n-1e308\n1e308\n".toList = Outcome.undefined := by
  decide!

/-! ## The assignment pass -/

theorem closest_cluster_eq_scan (point : List Double) (cents : List (List Double)) (k d : Nat) :
    closest_cluster point cents k d = (closest_scan point cents k d).2 := rfl

theorem closest_scan_succ (point : List Double) (cents : List (List Double)) (k d : Nat) :
    closest_scan point cents (k + 1) d =
      if calculate_distance point (cents.getD k []) d < (closest_scan point cents k d).1 then
        (calculate_distance point (cents.getD k []) d, (k : Int))
      else closest_scan point cents k d := by
  unfold closest_scan
  rw [List.range_succ, List.foldl_append]
  rfl

/-- The loop over the centroids: either no centroid so far is at a computed
distance below `DBL_MAX` and the index is still -1, or the index is that of the
first centroid than which no centroid is computed nearer. -/
theorem closest_scan_spec (point : List Double) (cents : List (List Double)) (d k : Nat) :
    ((closest_scan point cents k d).2 = -1 ∧
      (closest_scan point cents k d).1 = DBL_MAX ∧
      ∀ j < k, ¬ (calculate_distance point (cents.getD j []) d < DBL_MAX)) ∨
    (∃ m < k, (closest_scan point cents k d).2 = (m : Int) ∧
      (closest_scan point cents k d).1 = calculate_distance point (cents.getD m []) d ∧
      calculate_distance point (cents.getD m []) d < DBL_MAX ∧
      (∀ j < k, ¬ (calculate_distance point (cents.getD j []) d
          < calculate_distance point (cents.getD m []) d)) ∧
      (∀ j < m, ¬ (calculate_distance point (cents.getD j []) d
          ≤ calculate_distance point (cents.getD m []) d))) := by
  induction k with
  | zero =>
    left
    exact ⟨rfl, rfl, fun j hj => absurd hj (Nat.not_lt_zero _)⟩
  | succ k ih =>
    rw [closest_scan_succ]
    rcases ih with ⟨h2, h1, hall⟩ | ⟨m, hm, h2, h1, hlt, hmin, hfirst⟩
    · by_cases hk : calculate_distance point (cents.getD k []) d
          < (closest_scan point cents k d).1
      · right
        rw [if_pos hk]
        rw [h1] at hk
        refine ⟨k, Nat.lt_succ_self _, rfl, rfl, hk, ?_, ?_⟩
        · intro j hj hlt
          rcases Nat.lt_succ_iff_lt_or_eq.mp hj with h | h
          · exact hall j h (double_lt_trans hlt hk)
          · subst h
            exact double_lt_irrefl _ hlt
        · intro j hj hle
          exact hall j hj (double_lt_of_le_of_lt hle hk)
      · left
        rw [if_neg hk]
        rw [h1] at hk
        refine ⟨h2, h1, ?_⟩
        intro j hj
        rcases Nat.lt_succ_iff_lt_or_eq.mp hj with h | h
        · exact hall j h
        · subst h
          exact hk
    · right
      by_cases hk : calculate_distance point (cents.getD k []) d
          < (closest_scan point cents k d).1
      · rw [if_pos hk]
        rw [h1] at hk
        refine ⟨k, Nat.lt_succ_self _, rfl, rfl, double_lt_trans hk hlt, ?_, ?_⟩
        · intro j hj hlt'
          rcases Nat.lt_succ_iff_lt_or_eq.mp hj with h | h
          · exact hmin j h (double_lt_trans hlt' hk)
          · subst h
            exact double_lt_irrefl _ hlt'
        · intro j hj hle
          exact hmin j hj (double_lt_of_le_of_lt hle hk)
      · rw [if_neg hk]
        rw [h1] at hk
        refine ⟨m, Nat.lt_succ_of_lt hm, h2, h1, hlt, ?_, hfirst⟩
        intro j hj
        rcases Nat.lt_succ_iff_lt_or_eq.mp hj with h | h
        · exact hmin j h
        · subst h
          exact hk

/-- The assignment when some centroid is at a computed distance below
`DBL_MAX`: the index written is that of a centroid than which no centroid is
computed nearer, and the lowest such index. -/
theorem closest_cluster_nearest (point : List Double) (cents : List (List Double)) (k d : Nat)
    (hnear : ∃ j < k, calculate_distance point (cents.getD j []) d < DBL_MAX) :
    ∃ m < k, closest_cluster point cents k d = (m : Int) ∧
      (∀ j < k, ¬ (calculate_distance point (cents.getD j []) d
          < calculate_distance point (cents.getD m []) d)) ∧
      (∀ j < m, ¬ (calculate_distance point (cents.getD j []) d
          ≤ calculate_distance point (cents.getD m []) d)) := by
  rcases closest_scan_spec point cents d k with ⟨_, _, hall⟩ | ⟨m, hm, h2, _, _, hmin, hfirst⟩
  · obtain ⟨j, hj, hlt⟩ := hnear
    exact absurd hlt (hall j hj)
  · exact ⟨m, hm, h2, hmin, hfirst⟩

/-- The index -1 is left exactly when no centroid is at a computed distance
below `DBL_MAX`. -/
theorem closest_cluster_sentinel_iff (point : List Double) (cents : List (List Double))
    (k d : Nat) :
    closest_cluster point cents k d = -1 ↔
      ∀ j < k, ¬ (calculate_distance point (cents.getD j []) d < DBL_MAX) := by
  rcases closest_scan_spec point cents d k with ⟨h2, _, hall⟩ | ⟨m, hm, h2, _, hlt, _, _⟩
  · rw [closest_cluster_eq_scan, h2]
    exact ⟨fun _ => hall, fun _ => rfl⟩
  · rw [closest_cluster_eq_scan, h2]
    constructor
    · intro h
      omega
    · intro h
      exact absurd hlt (h m hm)

theorem assign_step_succ (data cents : List (List Double)) (n k d iter_count : Nat) (a0 : List Int) :
    assign_step data cents (n + 1) k d iter_count a0 =
      if iter_count = 0 ∨ (assign_step data cents n k d iter_count a0).1.getD n 0
          ≠ closest_cluster (data.getD n []) cents k d then
        ((assign_step data cents n k d iter_count a0).1.set n
          (closest_cluster (data.getD n []) cents k d), true)
      else assign_step data cents n k d iter_count a0 := by
  unfold assign_step
  rw [List.range_succ, List.foldl_append]
  rfl

/-- The table that the assignment pass leaves: it has the length of the old
table, entry `i < n` is the index found for data point `i`, and the flag
`changed_assignments` is set exactly when this is the first round or some entry
differs from the old one. -/
theorem assign_step_spec (data cents : List (List Double)) (k d iter_count : Nat) (a0 : List Int)
    (n : Nat) (hn : n ≤ a0.length) :
    (assign_step data cents n k d iter_count a0).1.length = a0.length ∧
    (∀ i < n, (assign_step data cents n k d iter_count a0).1.getD i 0
      = closest_cluster (data.getD i []) cents k d) ∧
    (∀ i, n ≤ i → (assign_step data cents n k d iter_count a0).1.getD i 0 = a0.getD i 0) ∧
    ((assign_step data cents n k d iter_count a0).2 = true ↔
      ∃ i < n, iter_count = 0 ∨ a0.getD i 0 ≠ closest_cluster (data.getD i []) cents k d) := by
  induction n with
  | zero =>
    refine ⟨rfl, fun i hi => absurd hi (Nat.not_lt_zero _), fun i _ => rfl, ?_⟩
    simp [assign_step]
  | succ n ih =>
    obtain ⟨hlen, hlow, hhigh, hflag⟩ := ih (Nat.le_of_succ_le hn)
    rw [assign_step_succ, hhigh n (Nat.le_refl _)]
    by_cases hc : iter_count = 0 ∨ a0.getD n 0 ≠ closest_cluster (data.getD n []) cents k d
    · rw [if_pos hc]
      refine ⟨by simpa using hlen, ?_, ?_, ?_⟩
      · intro i hi
        rcases Nat.lt_succ_iff_lt_or_eq.mp hi with h | h
        · rw [getD_set_ne _ _ _ _ _ (Nat.ne_of_gt h)]
          exact hlow i h
        · subst h
          exact getD_set_eq _ _ _ _ (by rw [hlen]; exact hn)
      · intro i hi
        rw [getD_set_ne _ _ _ _ _ (by omega)]
        exact hhigh i (by omega)
      · exact ⟨fun _ => ⟨n, Nat.lt_succ_self _, hc⟩, fun _ => rfl⟩
    · rw [if_neg hc]
      have heq : a0.getD n 0 = closest_cluster (data.getD n []) cents k d := by
        by_contra h
        exact hc (Or.inr h)
      refine ⟨hlen, ?_, ?_, ?_⟩
      · intro i hi
        rcases Nat.lt_succ_iff_lt_or_eq.mp hi with h | h
        · exact hlow i h
        · subst h
          rw [hhigh i (Nat.le_refl _), heq]
      · intro i hi
        exact hhigh i (by omega)
      · rw [hflag]
        constructor
        · rintro ⟨i, hi, h⟩
          exact ⟨i, Nat.lt_succ_of_lt hi, h⟩
        · rintro ⟨i, hi, h⟩
          rcases Nat.lt_succ_iff_lt_or_eq.mp hi with h' | h'
          · exact ⟨i, h', h⟩
          · subst h'
            exact absurd h hc

/-- The table when every data point has a centroid at a distance below
`DBL_MAX`: after the assignment pass the table has `n` entries and every
one of them is an index of a cluster. -/
theorem assign_step_in_range (data cents : List (List Double)) (n k d iter_count : Nat)
    (a0 : List Int) (hlen : a0.length = n)
    (hnear : ∀ i < n, ∃ j < k,
      calculate_distance (data.getD i []) (cents.getD j []) d < DBL_MAX) :
    (assign_step data cents n k d iter_count a0).1.length = n ∧
    ∀ i < n, 0 ≤ (assign_step data cents n k d iter_count a0).1.getD i 0 ∧
      (assign_step data cents n k d iter_count a0).1.getD i 0 < (k : Int) := by
  obtain ⟨h1, h2, _, _⟩ := assign_step_spec data cents k d iter_count a0 n (by omega)
  refine ⟨by rw [h1, hlen], fun i hi => ?_⟩
  obtain ⟨m, hm, hcc, _, _⟩ := closest_cluster_nearest (data.getD i []) cents k d (hnear i hi)
  rw [h2 i hi, hcc]
  omega

/-! ## Totality: the input is read to its end, the update step is defined -/

theorem fgets_append (size : Nat) (s : List Char) :
    (fgets size s).1 ++ (fgets size s).2 = s := by
  induction s generalizing size with
  | nil => simp [fgets]
  | cons c cs ih =>
    match size with
    | 0 => rfl
    | 1 => rfl
    | m + 2 =>
      by_cases hc : c = '\n'
      · simp [fgets, hc]
      · simp [fgets, hc, ih (m + 1)]

theorem fgets_ne_nil (size : Nat) (s : List Char) (hs : s ≠ []) (hsize : 2 ≤ size) :
    (fgets size s).1 ≠ [] := by
  cases s with
  | nil => exact absurd rfl hs
  | cons c cs =>
    obtain ⟨m, rfl⟩ : ∃ m, size = m + 2 := ⟨size - 2, by omega⟩
    by_cases hc : c = '\n'
    · simp [fgets, hc]
    · simp [fgets, hc]

/-- The lines that the calls of `fgets` return make up the whole input: the
number of rounds of `read_loop` is enough to reach the end of the stream. -/
theorem stdin_lines_flatten (stdin : List Char) : (stdin_lines stdin).flatten = stdin := by
  have key : ∀ (fuel : Nat) (s : List Char), s.length ≤ fuel →
      (stdin_lines_aux fuel s).flatten = s := by
    intro fuel
    induction fuel with
    | zero =>
      intro s hs
      have : s = [] := List.length_eq_zero.mp (by omega)
      subst this
      rfl
    | succ fuel ih =>
      intro s hs
      unfold stdin_lines_aux
      by_cases h : s.isEmpty = true
      · rw [if_pos h]
        simpa using h.symm
      · rw [if_neg h]
        have hne : s ≠ [] := by simpa using h
        have h1 := fgets_append 4096 s
        have h2 := fgets_ne_nil 4096 s hne (by decide)
        have h3 : (fgets 4096 s).2.length ≤ fuel := by
          have hl : ((fgets 4096 s).1 ++ (fgets 4096 s).2).length = s.length := by rw [h1]
          have hpos : 0 < (fgets 4096 s).1.length := List.length_pos.mpr h2
          rw [List.length_append] at hl
          omega
        rw [List.flatten_cons, ih _ h3, h1]
  exact key stdin.length stdin (Nat.le_refl _)

theorem accumulate_isSome (data : List (List Double)) (k d : Nat) (a : List Int) (n : Nat)
    (hrange : ∀ i < n, 0 ≤ a.getD i 0 ∧ a.getD i 0 < (k : Int)) :
    (accumulate data n k d a).isSome = true := by
  induction n with
  | zero => rfl
  | succ n ih =>
    rw [accumulate_succ]
    have hn := ih (fun i hi => hrange i (Nat.lt_succ_of_lt hi))
    cases hs : accumulate data n k d a with
    | none => rw [hs] at hn; cases hn
    | some s =>
      have := hrange n (Nat.lt_succ_self _)
      have hbad : ¬ (a.getD n 0 < 0 ∨ (k : Int) ≤ a.getD n 0) := by omega
      simp only [hbad, if_false, Option.isSome_some]

/-- The update step is defined exactly when every assignment it reads is the
index of a cluster. -/
theorem update_step_isSome_iff (data cents : List (List Double)) (n k d : Nat) (a : List Int) :
    (update_step data cents n k d a).isSome = true ↔
      ∀ i < n, 0 ≤ a.getD i 0 ∧ a.getD i 0 < (k : Int) := by
  constructor
  · intro h
    unfold update_step at h
    cases hacc : accumulate data n k d a with
    | none => rw [hacc] at h; cases h
    | some acc => exact (accumulate_spec data k d a n acc hacc).2.2.1
  · intro h
    have := accumulate_isSome data k d a n h
    unfold update_step
    cases hacc : accumulate data n k d a with
    | none => rw [hacc] at this; cases this
    | some acc => rfl

/-! ## The rounds of the main loop -/

/-- One round of the main loop, spelled out. -/
theorem kmeans_loop_succ (data : List (List Double)) (n k d remaining iter_count : Nat)
    (cents : List (List Double)) (a0 : List Int) :
    kmeans_loop data n k d (remaining + 1) iter_count cents a0 =
      if !(assign_step data cents n k d iter_count a0).2 && decide (iter_count > 0) then
        some { centroids := cents, assignments := (assign_step data cents n k d iter_count a0).1,
               iter_count := iter_count, stop := Stop.stable }
      else
        match update_step data cents n k d (assign_step data cents n k d iter_count a0).1 with
        | none => none
        | some u =>
          if u.2 then
            some { centroids := u.1, assignments := (assign_step data cents n k d iter_count a0).1,
                   iter_count := iter_count, stop := Stop.moved }
          else kmeans_loop data n k d remaining (iter_count + 1) u.1
                (assign_step data cents n k d iter_count a0).1 := rfl

/-- A pass that does not set the flag `changed_assignments` leaves the table
as it was. -/
theorem assign_step_unchanged (data cents : List (List Double)) (n k d iter_count : Nat)
    (a0 : List Int) (h : (assign_step data cents n k d iter_count a0).2 = false) :
    (assign_step data cents n k d iter_count a0).1 = a0 := by
  induction n with
  | zero => rfl
  | succ n ih =>
    rw [assign_step_succ] at h ⊢
    split at h
    · cases h
    · rename_i hc
      rw [if_neg hc]
      exact ih h

/-- C11: in the round with `iter_count = 0` the assignment pass sets the flag
`changed_assignments` (there is a data point) and the loop goes on to the
update step whatever the table held, so the loop starts at least one update
step; in a round with `iter_count > 0` the loop stops before the update step,
with the centroids it entered the round with, exactly when the pass leaves
every entry of the table as it was. -/
theorem stability_stop_iff (data cents : List (List Double)) (n k d remaining iter_count : Nat)
    (a0 : List Int) (hn : 0 < n) (hlen : a0.length = n) :
    (iter_count = 0 →
      (assign_step data cents n k d iter_count a0).2 = true ∧
      kmeans_loop data n k d (remaining + 1) iter_count cents a0 =
        (match update_step data cents n k d (assign_step data cents n k d iter_count a0).1 with
        | none => none
        | some u =>
          if u.2 then
            some { centroids := u.1, assignments := (assign_step data cents n k d iter_count a0).1,
                   iter_count := iter_count, stop := Stop.moved }
          else kmeans_loop data n k d remaining (iter_count + 1) u.1
                (assign_step data cents n k d iter_count a0).1) ∧
      1 ≤ (kmeans_loop_count data n k d (remaining + 1) iter_count cents a0).2.2) ∧
    (0 < iter_count →
      ((∃ f, kmeans_loop data n k d (remaining + 1) iter_count cents a0 = some f ∧
          f.stop = Stop.stable ∧ f.iter_count = iter_count) ↔
        ∀ i < n, (assign_step data cents n k d iter_count a0).1.getD i 0 = a0.getD i 0) ∧
      ((∀ i < n, (assign_step data cents n k d iter_count a0).1.getD i 0 = a0.getD i 0) →
        kmeans_loop data n k d (remaining + 1) iter_count cents a0 =
          some { centroids := cents, assignments := a0, iter_count := iter_count,
                 stop := Stop.stable })) := by
  obtain ⟨_, hlow, _, hflag⟩ := assign_step_spec data cents k d iter_count a0 n (by omega)
  constructor
  · intro h0
    have hch : (assign_step data cents n k d iter_count a0).2 = true :=
      hflag.mpr ⟨0, hn, Or.inl h0⟩
    refine ⟨hch, ?_, ?_⟩
    · rw [kmeans_loop_succ, hch]
      rfl
    · simp only [kmeans_loop_count, hch, Bool.not_true, Bool.false_and, Bool.false_eq_true,
        if_false]
      cases update_step data cents n k d (assign_step data cents n k d iter_count a0).1 with
      | none => exact le_refl 1
      | some u =>
        by_cases hu : u.2 = true
        · simp only [hu, if_true]
          exact le_refl 1
        · simp only [hu, if_false]
          exact Nat.le_add_left 1 _
  · intro hpos
    have hsame : (∀ i < n, (assign_step data cents n k d iter_count a0).1.getD i 0 = a0.getD i 0)
        ↔ (assign_step data cents n k d iter_count a0).2 = false := by
      constructor
      · intro hall
        cases hf : (assign_step data cents n k d iter_count a0).2 with
        | false => rfl
        | true =>
          obtain ⟨i, hi, h⟩ := hflag.mp hf
          rcases h with h | h
          · omega
          · exact absurd ((hlow i hi).symm.trans (hall i hi)).symm h
      · intro hf i _
        rw [assign_step_unchanged data cents n k d iter_count a0 hf]
    have hstop : (assign_step data cents n k d iter_count a0).2 = false →
        kmeans_loop data n k d (remaining + 1) iter_count cents a0 =
          some { centroids := cents, assignments := a0, iter_count := iter_count,
                 stop := Stop.stable } := by
      intro hf
      rw [kmeans_loop_succ, hf, assign_step_unchanged data cents n k d iter_count a0 hf]
      simp [hpos]
    refine ⟨⟨?_, fun hall => ⟨_, hstop (hsame.mp hall), rfl, rfl⟩⟩,
      fun hall => hstop (hsame.mp hall)⟩
    rintro ⟨f, hf, hst, hic⟩
    rw [hsame]
    cases hch : (assign_step data cents n k d iter_count a0).2 with
    | false => rfl
    | true =>
      exfalso
      rw [kmeans_loop_succ, hch] at hf
      simp only [Bool.not_true, Bool.false_and, Bool.false_eq_true, if_false] at hf
      cases hu : update_step data cents n k d (assign_step data cents n k d iter_count a0).1 with
      | none => rw [hu] at hf; cases hf
      | some u =>
        rw [hu] at hf
        by_cases hc : u.2 = true
        · simp only [hc, if_true, Option.some.injEq] at hf
          rw [← hf] at hst
          cases hst
        · simp only [hc] at hf
          have := kmeans_loop_iter_count_le _ _ _ _ _ _ _ _ _ hf
          omega

/-- The counters do not change what the main loop computes, and neither
counter exceeds the number of rounds that the loop may still make. -/
theorem kmeans_loop_count_spec (data : List (List Double)) (n k d remaining iter_count : Nat)
    (cents : List (List Double)) (a0 : List Int) :
    (kmeans_loop_count data n k d remaining iter_count cents a0).1
      = kmeans_loop data n k d remaining iter_count cents a0 ∧
    (kmeans_loop_count data n k d remaining iter_count cents a0).2.1 ≤ remaining ∧
    (kmeans_loop_count data n k d remaining iter_count cents a0).2.2 ≤ remaining := by
  induction remaining generalizing iter_count cents a0 with
  | zero => exact ⟨rfl, Nat.le_refl _, Nat.le_refl _⟩
  | succ r ih =>
    rw [kmeans_loop_succ]
    unfold kmeans_loop_count
    simp only []
    by_cases hc : (!(assign_step data cents n k d iter_count a0).2 && decide (iter_count > 0))
        = true
    · rw [if_pos hc, if_pos hc]
      exact ⟨rfl, by simp, by simp⟩
    · rw [if_neg hc, if_neg hc]
      cases hu : update_step data cents n k d (assign_step data cents n k d iter_count a0).1 with
      | none => exact ⟨rfl, by simp, by simp⟩
      | some u =>
        simp only []
        by_cases hm : u.2 = true
        · rw [if_pos hm, if_pos hm]
          exact ⟨rfl, by simp, by simp⟩
        · rw [if_neg hm, if_neg hm]
          obtain ⟨h1, h2, h3⟩ := ih (iter_count + 1) u.1
            (assign_step data cents n k d iter_count a0).1
          exact ⟨h1, Nat.succ_le_succ h2, Nat.succ_le_succ h3⟩

/-- The counter `iter_count` when the loop ends is at most the cap, and it is
the cap when the loop ends because its budget is spent. -/
theorem kmeans_loop_iter_count_bound (data : List (List Double)) (n k d remaining iter_count : Nat)
    (cents : List (List Double)) (a0 : List Int) (f : Final)
    (h : kmeans_loop data n k d remaining iter_count cents a0 = some f) :
    f.iter_count ≤ iter_count + remaining ∧
    (f.stop = Stop.budget → f.iter_count = iter_count + remaining) := by
  induction remaining generalizing iter_count cents a0 with
  | zero =>
    simp only [kmeans_loop, Option.some.injEq] at h
    rw [← h]
    exact ⟨Nat.le_refl _, fun _ => rfl⟩
  | succ r ih =>
    rw [kmeans_loop_succ] at h
    split at h
    · simp only [Option.some.injEq] at h
      rw [← h]
      exact ⟨by simp, fun hs => by cases hs⟩
    · split at h
      · cases h
      · split at h
        · simp only [Option.some.injEq] at h
          rw [← h]
          exact ⟨by simp, fun hs => by cases hs⟩
        · obtain ⟨h1, h2⟩ := ih _ _ _ h
          exact ⟨by omega, fun hs => by rw [h2 hs]; omega⟩

/-- C12: the main loop started with the cap `iter` makes at most `iter`
assignment passes and starts at most `iter` update steps, whichever way it ends;
and a run whose loop ends, be it by stability, by movement or because the
budget is spent, prints the centroids of the loop and reports no failure. -/
theorem loop_budget (stdin : List Char) (data : Dataset) (k iter : Int)
    (hdata : read_datapoints stdin = .ok data) (hk : k < (data.n : Int)) :
    (kmeans_loop_count data.datapoints data.n k.toNat data.d iter.toNat 0
        (init_centroids data.datapoints k.toNat data.d) (List.replicate data.n 0)).1
      = kmeans data k.toNat iter.toNat ∧
    (kmeans_loop_count data.datapoints data.n k.toNat data.d iter.toNat 0
        (init_centroids data.datapoints k.toNat data.d) (List.replicate data.n 0)).2.1
      ≤ iter.toNat ∧
    (kmeans_loop_count data.datapoints data.n k.toNat data.d iter.toNat 0
        (init_centroids data.datapoints k.toNat data.d) (List.replicate data.n 0)).2.2
      ≤ iter.toNat ∧
    ∀ f, kmeans data k.toNat iter.toNat = some f →
      f.iter_count ≤ iter.toNat ∧
      (f.stop = Stop.budget → f.iter_count = iter.toNat) ∧
      run k iter stdin = Outcome.printed f.centroids := by
  obtain ⟨h1, h2, h3⟩ := kmeans_loop_count_spec data.datapoints data.n k.toNat data.d
    iter.toNat 0 (init_centroids data.datapoints k.toNat data.d) (List.replicate data.n 0)
  refine ⟨h1, h2, h3, fun f hf => ?_⟩
  obtain ⟨h4, h5⟩ := kmeans_loop_iter_count_bound _ _ _ _ _ _ _ _ f hf
  refine ⟨by simpa using h4, fun hs => by simpa using h5 hs, ?_⟩
  rw [run_of_read_ok k iter hdata, if_neg (not_le.mpr hk), hf]

/-- An instance: with the cap 2 the loop on the points 1, 1, 5 spends its
budget, and the run prints the centroids. -/
theorem loop_budget_witness :
    (kmeans ⟨[[1], [1], [5]], 3, 1⟩ 2 2).map Final.stop = some Stop.budget ∧
    run 2 2 "1\n1\n5\n".toList = Outcome.printed [[5], [1]] :=
  ⟨by decide!,
   ((loop_budget "1\n1\n5\n".toList ⟨[[1], [1], [5]], 3, 1⟩ 2 2 (by decide!) (by decide)).2.2.2
      ⟨[[5], [1]], [1, 1, 0], 2, Stop.budget⟩ (by decide!)).2.2⟩

/-- An instance: the last round of the run on four points in the plane. -/
theorem stability_stop_iff_witness :
    kmeans_loop [[1, 1], [1, Double.ofRat (11 / 10)], [9, 9], [9, Double.ofRat (91 / 10)]] 4 2 2 398 2
        [[1, Double.ofRat (21 / 20)], [9, Double.ofRat (181 / 20)]] [0, 0, 1, 1] =
      some { centroids := [[1, Double.ofRat (21 / 20)], [9, Double.ofRat (181 / 20)]], assignments := [0, 0, 1, 1],
             iter_count := 2, stop := Stop.stable } :=
  ((stability_stop_iff [[1, 1], [1, Double.ofRat (11 / 10)], [9, 9], [9, Double.ofRat (91 / 10)]]
    [[1, Double.ofRat (21 / 20)], [9, Double.ofRat (181 / 20)]] 4 2 2 397 2 [0, 0, 1, 1] (by decide) rfl).2 (by decide)).2
    (by decide!)

/-! ## Determinism, the scenario of the specification, the order of the failures -/

/-- In its first round the assignment pass does not depend on what the table
held. -/
theorem assign_step_first_round (data cents : List (List Double)) (n k d : Nat) (a0 a1 : List Int)
    (h0 : a0.length = n) (h1 : a1.length = n) :
    assign_step data cents n k d 0 a0 = assign_step data cents n k d 0 a1 := by
  obtain ⟨l0, v0, _, f0⟩ := assign_step_spec data cents k d 0 a0 n (by omega)
  obtain ⟨l1, v1, _, f1⟩ := assign_step_spec data cents k d 0 a1 n (by omega)
  apply Prod.ext
  · apply List.ext_getElem (by rw [l0, l1, h0, h1])
    intro i hi0 hi1
    have hi : i < n := by rw [l0, h0] at hi0; exact hi0
    have e0 := v0 i hi
    have e1 := v1 i hi
    rw [List.getD_eq_getElem _ _ hi0] at e0
    rw [List.getD_eq_getElem _ _ hi1] at e1
    rw [e0, e1]
  · have hiff : (assign_step data cents n k d 0 a0).2 = true ↔
        (assign_step data cents n k d 0 a1).2 = true := by
      rw [f0, f1]
      constructor
      · rintro ⟨i, hi, _⟩
        exact ⟨i, hi, Or.inl rfl⟩
      · rintro ⟨i, hi, _⟩
        exact ⟨i, hi, Or.inl rfl⟩
    cases h : (assign_step data cents n k d 0 a0).2 <;>
      cases h' : (assign_step data cents n k d 0 a1).2 <;> simp_all

/-- C14: the initial centroids are the first `k` data points, component by
component; the result of the main loop does not depend on the contents of the
table of assignments, which `main` allocates without initialising it, so it is
determined by the dataset, `k` and `iter`; and `main` does not look at the name
of the program. -/
theorem determinism (data : Dataset) (k iter : Nat) (a0 : List Int)
    (ha0 : a0.length = data.n) (hiter : 0 < iter) :
    (init_centroids data.datapoints k data.d).length = k ∧
    (∀ j < k, ((init_centroids data.datapoints k data.d).getD j []).length = data.d ∧
      ∀ c < data.d, ((init_centroids data.datapoints k data.d).getD j []).getD c 0
        = (data.datapoints.getD j []).getD c 0) ∧
    kmeans_loop data.datapoints data.n k data.d iter 0
        (init_centroids data.datapoints k data.d) a0 = kmeans data k iter ∧
    ∀ (prog prog' : List Char) (args : List (List Char)) (stdin : List Char),
      main (prog :: args) stdin = main (prog' :: args) stdin := by
  refine ⟨by simp [init_centroids], ?_, ?_, fun prog prog' args stdin => rfl⟩
  · intro j hj
    have hrow : (init_centroids data.datapoints k data.d).getD j []
        = (List.range data.d).map (fun c => (data.datapoints.getD j []).getD c 0) := by
      simp [init_centroids, List.getD_eq_getElem?_getD, hj]
    rw [hrow]
    exact ⟨by simp, fun c hc => getD_map_range _ _ _ _ hc⟩
  · obtain ⟨r, rfl⟩ : ∃ r, iter = r + 1 := ⟨iter - 1, by omega⟩
    unfold kmeans
    rw [kmeans_loop_succ, kmeans_loop_succ,
      assign_step_first_round data.datapoints _ data.n k data.d a0
        (List.replicate data.n 0) ha0 (by simp)]

/-- An instance: a table full of the value 7 on three points. -/
theorem determinism_witness :
    kmeans_loop [[1], [2], [6]] 3 2 1 400 0 (init_centroids [[1], [2], [6]] 2 1) [7, 7, 7]
      = kmeans ⟨[[1], [2], [6]], 3, 1⟩ 2 400 :=
  (determinism ⟨[[1], [2], [6]], 3, 1⟩ 2 400 [7, 7, 7] rfl (by decide)).2.2.1

/-- C15: on the four points of the scenario with `K = 2` and no iteration
argument the input is read as written, the loop stops by stability in its third
round, and the run prints the two centroids (1, 1.05) and (9, 9.05), in this
order, as the text `1.0000,1.0500` and `9.0000,9.0500`; the values 1.05 and
9.05 are the `double` values nearest to them, which `double` arithmetic gives
for the means, 1 and 9 are exact. -/
theorem scenario_four_points :
    read_datapoints "1.0,1.0\n1.0,1.1\n9.0,9.0\n9.0,9.1\n".toList =
      .ok { datapoints := [[1, 1], [1, Double.ofRat (11 / 10)], [9, 9], [9, Double.ofRat (91 / 10)]], n := 4, d := 2 } ∧
    kmeans { datapoints := [[1, 1], [1, Double.ofRat (11 / 10)], [9, 9], [9, Double.ofRat (91 / 10)]], n := 4, d := 2 } 2 400 =
      some { centroids := [[1, Double.ofRat (21 / 20)], [9, Double.ofRat (181 / 20)]], assignments := [0, 0, 1, 1],
             iter_count := 2, stop := Stop.stable } ∧
    main ["kmeans".toList, "2".toList] "1.0,1.0\n1.0,1.1\n9.0,9.0\n9.0,9.1\n".toList =
      Outcome.printed [[1, Double.ofRat (21 / 20)], [9, Double.ofRat (181 / 20)]] ∧
    main_streams ["kmeans".toList, "2".toList] "1.0,1.0\n1.0,1.1\n9.0,9.0\n9.0,9.1\n".toList =
      some { stdout := "1.0000,1.0500\n9.0000,9.0500\n".toList, stderr := [], exit_code := 0 } ∧
    (Double.ofRat (21 / 20)).toRat = some (4728779608739021 / 2 ^ 52) ∧
    (Double.ofRat (181 / 20)).toRat = some (2547348539231437 / 2 ^ 48) ∧
    |(4728779608739021 / 2 ^ 52 : ℚ) - 21 / 20| ≤ 1 / 2 ^ 53 ∧
    |(2547348539231437 / 2 ^ 48 : ℚ) - 181 / 20| ≤ 1 / 2 ^ 50 := by
  refine ⟨by decide!, by decide!, by decide!, by decide!, by decide!, by decide!, ?_, ?_⟩
  · rw [abs_le]
    constructor <;> norm_num
  · rw [abs_le]
    constructor <;> norm_num

/-- The loop of `read_datapoints` fails with one message only. -/
theorem read_lines_error (ls : List (List Char)) (st : ReadState) (e : String)
    (h : read_lines st ls = .error e) : e = generalError := by
  induction ls generalizing st with
  | nil => cases h
  | cons l ls ih =>
    unfold read_lines at h
    by_cases hs : is_skipped l = true
    · rw [read_line_skipped st l hs] at h
      exact ih st h
    · rcases read_line_cases st l (by simpa using hs) with hl | ⟨_, _, _, hl⟩
      · rw [hl] at h
        exact (Except.error.inj h).symm
      · rw [hl] at h
        exact ih _ h

/-- The function `read_datapoints` fails with one message only. -/
theorem read_datapoints_error (stdin : List Char) (e : String)
    (h : read_datapoints stdin = .error e) : e = generalError := by
  unfold read_datapoints at h
  rw [read_loop_eq_read_lines] at h
  cases hr : read_lines { datapoints := [], current_n := 0, current_d := 0, first_line := true }
      (stdin_lines_aux stdin.length stdin) with
  | error e' =>
    rw [hr] at h
    rw [← Except.error.inj h]
    exact read_lines_error _ _ _ hr
  | ok st =>
    rw [hr] at h
    simp only at h
    split at h
    · exact (Except.error.inj h).symm
    · cases h

/-- C20: the failures are tested in a fixed order and the first one found is
the one reported, as one line on standard error: a wrong number of arguments
("An Error Has Occurred") whatever the arguments and the input are; then a `K`
that is not an integer or is `<= 1` ("Incorrect number of clusters!") whatever
`iter` and the input are; then a bad `iter` ("Incorrect maximum iteration!")
whatever the input is; then an input that cannot be read ("An Error Has
Occurred"); and last `K >= n` ("Incorrect number of clusters!"). -/
theorem failure_order (argv : List (List Char)) (stdin : List Char) :
    (∀ message, main argv stdin = Outcome.failure message →
      main_streams argv stdin =
        some { stdout := [], stderr := message.toList ++ ['\n'], exit_code := 1 }) ∧
    ((argv.length < 2 ∨ argv.length > 3) → main argv stdin = Outcome.failure generalError) ∧
    (2 ≤ argv.length → argv.length ≤ 3 →
      (validate_integer_input (argv.getD 1 []) = none ∨
        ∃ k, validate_integer_input (argv.getD 1 []) = some k ∧ k ≤ 1) →
      main argv stdin = Outcome.failure clustersError) ∧
    (∀ k, argv.length = 3 → validate_integer_input (argv.getD 1 []) = some k → 1 < k →
      (validate_integer_input (argv.getD 2 []) = none ∨
        ∃ iter, validate_integer_input (argv.getD 2 []) = some iter ∧
          (iter ≤ 1 ∨ 1000 ≤ iter)) →
      main argv stdin = Outcome.failure iterationError) ∧
    (∀ k iter, validate_integer_input (argv.getD 1 []) = some k → 1 < k →
      ((argv.length = 2 ∧ iter = 400) ∨
        (argv.length = 3 ∧ validate_integer_input (argv.getD 2 []) = some iter ∧
          1 < iter ∧ iter < 1000)) →
      ((∃ e, read_datapoints stdin = .error e) →
        main argv stdin = Outcome.failure generalError) ∧
      (∀ data, read_datapoints stdin = .ok data → (data.n : Int) ≤ k →
        main argv stdin = Outcome.failure clustersError)) := by
  refine ⟨?_, ?_, ?_, ?_, ?_⟩
  · intro message h
    unfold main_streams
    rw [h]
    rfl
  · intro h
    unfold main
    rw [if_pos h]
  · intro h2 h3 hk
    unfold main
    rw [if_neg (by omega)]
    rcases hk with hk | ⟨k, hk, hk1⟩
    · rw [hk]
    · rw [hk]
      simp only [if_pos hk1]
  · intro k hl hk hk1 hi
    unfold main
    rw [if_neg (by omega), hk]
    simp only [if_neg (not_le.mpr hk1), hl, if_true]
    rcases hi with hi | ⟨iter, hi, hr⟩
    · rw [hi]
    · rw [hi]
      simp only [ge_iff_le, if_pos hr]
  · intro k iter hk hk1 hiter
    rw [main_of_args_ok argv k iter stdin hk hk1 hiter]
    constructor
    · rintro ⟨e, he⟩
      unfold run
      rw [he, read_datapoints_error stdin e he]
    · intro data hdata hn
      rw [run_of_read_ok k iter hdata, if_pos hn]

/-- An instance: with `K = 5` on two records, a bad `iter` is reported as such,
and so is an input that cannot be read. -/
theorem failure_order_witness :
    main ["kmeans".toList, "5".toList, "1000".toList] "1\n2\n".toList
      = Outcome.failure iterationError ∧
    main ["kmeans".toList, "5".toList] "1\nabc\n".toList = Outcome.failure generalError ∧
    main ["kmeans".toList, "5".toList] "1\n2\n".toList = Outcome.failure clustersError :=
  ⟨(failure_order ["kmeans".toList, "5".toList, "1000".toList] "1\n2\n".toList).2.2.2.1 5 rfl
      (by decide!) (by decide) (Or.inr ⟨1000, by decide!, Or.inr (by decide)⟩),
   ((failure_order ["kmeans".toList, "5".toList] "1\nabc\n".toList).2.2.2.2 5 400
      (by decide!) (by decide) (Or.inl ⟨rfl, rfl⟩)).1 ⟨generalError, by decide!⟩,
   ((failure_order ["kmeans".toList, "5".toList] "1\n2\n".toList).2.2.2.2 5 400
      (by decide!) (by decide) (Or.inl ⟨rfl, rfl⟩)).2 ⟨[[1], [2]], 2, 1⟩ (by decide!)
      (by decide)⟩
/-! ## The state of the loop when it stops by stability -/

/-- What holds of the centroids and the table at the start of every round but
the first, and when the loop stops by stability: the table holds indices of
clusters, and the centroid of every cluster that has points is the mean that
the update step computes for them. -/
theorem kmeans_loop_stable_means (data : List (List Double)) (n k d remaining iter_count : Nat)
    (cents : List (List Double)) (a0 : List Int) (f : Final)
    (hk : cents.length = k)
    (hinv : iter_count = 0 ∨
      ((∀ i < n, 0 ≤ a0.getD i 0 ∧ a0.getD i 0 < (k : Int)) ∧
        ∀ j < k, cluster_members a0 n j ≠ [] → cents.getD j [] = cluster_mean data a0 n d j))
    (h : kmeans_loop data n k d remaining iter_count cents a0 = some f)
    (hstop : f.stop = Stop.stable) :
    f.centroids.length = k ∧
    (∀ i < n, 0 ≤ f.assignments.getD i 0 ∧ f.assignments.getD i 0 < (k : Int)) ∧
    (∀ j < k, cluster_members f.assignments n j ≠ [] →
      f.centroids.getD j [] = cluster_mean data f.assignments n d j) ∧
    assign_step data f.centroids n k d f.iter_count f.assignments = (f.assignments, false) := by
  induction remaining generalizing iter_count cents a0 with
  | zero =>
    simp only [kmeans_loop, Option.some.injEq] at h
    rw [← h] at hstop
    cases hstop
  | succ r ih =>
    rw [kmeans_loop_succ] at h
    by_cases hc : (!(assign_step data cents n k d iter_count a0).2 && decide (iter_count > 0))
        = true
    · rw [if_pos hc] at h
      simp only [Bool.and_eq_true, Bool.not_eq_true', decide_eq_true_eq] at hc
      have hsame := assign_step_unchanged data cents n k d iter_count a0 hc.1
      rcases hinv with h0 | ⟨hr, hm⟩
      · omega
      · simp only [Option.some.injEq] at h
        rw [← h]
        simp only [hsame]
        refine ⟨hk, hr, hm, ?_⟩
        exact Prod.ext hsame hc.1
    · rw [if_neg hc] at h
      cases hu : update_step data cents n k d (assign_step data cents n k d iter_count a0).1 with
      | none => rw [hu] at h; cases h
      | some u =>
        rw [hu] at h
        simp only [] at h
        by_cases hm : u.2 = true
        · rw [if_pos hm] at h
          simp only [Option.some.injEq] at h
          rw [← h] at hstop
          cases hstop
        · rw [if_neg hm] at h
          obtain ⟨hr, hl, hnew, _⟩ := update_step_spec data cents n k d _ u.1 u.2 hk hu
          refine ih (iter_count + 1) u.1 _ hl (Or.inr ⟨hr, ?_⟩) h
          intro j hj hne
          rw [hnew j hj, if_pos hne]

/-- C18 (as amended): when the run stops by stability, every returned centroid
whose cluster has points in the final table is, component by component, the
quotient that `double` arithmetic gives for the sum of that component over
these points, the points being added to `+0` in the order of the input and
every sum being rounded, by the number of the points; the assignment pass
leaves the final table as it is and the update step leaves the returned
centroids as they are. -/
theorem stable_fixed_point (data : Dataset) (k iter : Nat) (f : Final)
    (h : kmeans data k iter = some f) (hstop : f.stop = Stop.stable) :
    (∀ j < k, cluster_members f.assignments data.n j ≠ [] →
      (f.centroids.getD j []).length = data.d ∧
      ∀ c < data.d, (f.centroids.getD j []).getD c 0 =
        Double.div
          ((cluster_members f.assignments data.n j).foldl
            (fun acc i => Double.add acc ((data.datapoints.getD i []).getD c 0))
            (Double.finite false 0))
          (Double.ofInt ((cluster_members f.assignments data.n j).length : Int))) ∧
    assign_step data.datapoints f.centroids data.n k data.d f.iter_count f.assignments
      = (f.assignments, false) ∧
    ∃ conv, update_step data.datapoints f.centroids data.n k data.d f.assignments
      = some (f.centroids, conv) := by
  obtain ⟨hl, hr, hm, hfix⟩ := kmeans_loop_stable_means data.datapoints data.n k data.d iter 0
    (init_centroids data.datapoints k data.d) (List.replicate data.n 0) f
    (by simp [init_centroids]) (Or.inl rfl) h hstop
  refine ⟨?_, hfix, ?_⟩
  · intro j hj hne
    rw [hm j hj hne]
    refine ⟨by simp [cluster_mean], fun c hc => ?_⟩
    unfold cluster_mean
    rw [getD_map_range _ _ _ _ hc]
    rfl
  · have hsome := (update_step_isSome_iff data.datapoints f.centroids data.n k data.d
      f.assignments).mpr hr
    cases hu : update_step data.datapoints f.centroids data.n k data.d f.assignments with
    | none => rw [hu] at hsome; cases hsome
    | some u =>
      obtain ⟨_, hul, hnew, _⟩ := update_step_spec data.datapoints f.centroids data.n k data.d
        f.assignments u.1 u.2 hl hu
      refine ⟨u.2, ?_⟩
      have : u.1 = f.centroids := by
        apply List.ext_getElem (by rw [hul, hl])
        intro j hj1 hj2
        have hj : j < k := by rw [hul] at hj1; exact hj1
        have e := hnew j hj
        rw [List.getD_eq_getElem _ _ hj1] at e
        rw [e]
        by_cases hne : cluster_members f.assignments data.n j ≠ []
        · rw [if_pos hne, ← hm j hj hne, List.getD_eq_getElem _ _ hj2]
        · rw [if_neg hne, List.getD_eq_getElem _ _ hj2]
      rw [← this]

/-- An instance: the run on four points in the plane. -/
theorem stable_fixed_point_witness :
    ([[(1 : Double), Double.ofRat (21 / 20)], [9, Double.ofRat (181 / 20)]].getD 1 []).getD 1 0
      = Double.div (Double.add (Double.add (Double.finite false 0) 9) (Double.ofRat (91 / 10)))
          (Double.ofInt 2) :=
  ((stable_fixed_point
    ⟨[[1, 1], [1, Double.ofRat (11 / 10)], [9, 9], [9, Double.ofRat (91 / 10)]], 4, 2⟩ 2 400
    ⟨[[1, Double.ofRat (21 / 20)], [9, Double.ofRat (181 / 20)]], [0, 0, 1, 1], 2, Stop.stable⟩
    (by decide!) rfl).1 1 (by decide) (by decide)).2 1 (by decide)

/-- C18 (as stated) fails on the points 9007199254741028, 0, 9007199254740998
and 9007199254741058 with `K = 2`: the run stops by stability in its second
round, the first cluster holds the first, third and fourth point, whose
arithmetic mean is 9007199254741028, and the returned centroid is
9007199254741026, the value that the two rounded sums and the division
give. -/
theorem stable_fixed_point_rounds :
    read_datapoints "9007199254741028\n0\n9007199254740998\n9007199254741058\n".toList =
      .ok { datapoints := [[9007199254741028], [0], [9007199254740998], [9007199254741058]],
            n := 4, d := 1 } ∧
    [(9007199254741028 : Double), 0, 9007199254740998, 9007199254741058].map Double.toRat
      = [some 9007199254741028, some 0, some 9007199254740998, some 9007199254741058] ∧
    kmeans ⟨[[9007199254741028], [0], [9007199254740998], [9007199254741058]], 4, 1⟩ 2 400 =
      some { centroids := [[Double.finite false 9007199254741026], [Double.finite false 0]],
             assignments := [0, 1, 0, 0], iter_count := 1, stop := Stop.stable } ∧
    cluster_members [0, 1, 0, 0] 4 0 = [0, 2, 3] ∧
    mean_exact [[9007199254741028], [0], [9007199254740998], [9007199254741058]]
      [0, 1, 0, 0] 4 0 0 = some 9007199254741028 := by
  decide!

/-! ## The first assignment pass -/

/-- The number zero of `double` is the positive zero. -/
theorem double_zero_eq : (0 : Double) = Double.finite false 0 := rfl

/-- A finite `double` minus itself is the positive zero. -/
theorem double_sub_self (x : Double) (h : x.isFinite = true) : x - x = 0 := by
  cases x with
  | finite s a =>
    show Double.add (Double.finite s a) (Double.neg (Double.finite s a)) = 0
    cases s <;> simp [Double.add, Double.neg, double_zero_eq]
  | inf s => cases h
  | nan => cases h

/-- The square of the positive zero, and a sum of two positive zeros, are the
positive zero; so is its square root. -/
theorem double_zero_ops :
    Double.pow2 0 = 0 ∧ (0 : Double) + 0 = 0 ∧ Double.sqrt 0 = 0 := by
  refine ⟨?_, ?_, ?_⟩
  · simp [double_zero_eq, Double.pow2, Double.round]
  · show Double.add 0 0 = 0
    simp [double_zero_eq, Double.add]
  · simp [double_zero_eq, Double.sqrt]

/-- The computed distance of a vector with finite components from itself is
the positive zero. -/
theorem calculate_distance_self (p : List Double) (d : Nat)
    (h : ∀ c < d, (p.getD c 0).isFinite = true) : calculate_distance p p d = 0 := by
  unfold calculate_distance
  have hsum : (List.range d).foldl
      (fun dist i => dist + Double.pow2 (p.getD i 0 - p.getD i 0)) (0 : Double) = 0 := by
    induction d with
    | zero => rfl
    | succ d ih =>
      rw [List.range_succ, List.foldl_append, ih (fun c hc => h c (Nat.lt_succ_of_lt hc))]
      simp only [List.foldl_cons, List.foldl_nil]
      rw [double_sub_self _ (h d (Nat.lt_succ_self d)), double_zero_ops.1, double_zero_ops.2.1]
  rw [hsum, double_zero_ops.2.2]

/-- The computed distance only looks at the first `d` components. -/
theorem calculate_distance_congr (p q q' : List Double) (d : Nat)
    (h : ∀ c < d, q.getD c 0 = q'.getD c 0) :
    calculate_distance p q d = calculate_distance p q' d := by
  unfold calculate_distance
  congr 1
  have : ∀ (l : List Nat) (s : Double), (∀ c ∈ l, c < d) →
      l.foldl (fun dist i => dist + Double.pow2 (p.getD i 0 - q.getD i 0)) s
        = l.foldl (fun dist i => dist + Double.pow2 (p.getD i 0 - q'.getD i 0)) s := by
    intro l
    induction l with
    | nil => intro s _; rfl
    | cons x l ih =>
      intro s hl
      simp only [List.foldl_cons]
      rw [h x (hl x (List.mem_cons_self _ _))]
      exact ih _ (fun c hc => hl c (List.mem_cons_of_mem _ hc))
  exact this _ _ (fun c hc => List.mem_range.mp hc)

/-- Row `j` of the initial centroids. -/
theorem init_centroids_getD (data : List (List Double)) (k d j : Nat) (hj : j < k) :
    (init_centroids data k d).getD j []
      = (List.range d).map (fun c => (data.getD j []).getD c 0) := by
  simp [init_centroids, List.getD_eq_getElem?_getD, hj]

/-- The distance of a point to an initial centroid is its distance to the data
point that the centroid copies. -/
theorem calculate_distance_init_centroids (p : List Double) (data : List (List Double))
    (k d j : Nat) (hj : j < k) :
    calculate_distance p ((init_centroids data k d).getD j []) d
      = calculate_distance p (data.getD j []) d := by
  apply calculate_distance_congr
  intro c hc
  rw [init_centroids_getD data k d j hj, getD_map_range _ _ _ _ hc]

/-- A `double` that is below another one is not a NaN, so it is at most
itself. -/
theorem double_le_self_of_lt {a b : Double} (h : a < b) : a ≤ a := by
  rw [double_lt_iff] at h
  rw [double_le_iff]
  cases a with
  | finite s x => simp [Double.le]
  | inf s => cases s <;> simp [Double.le]
  | nan => simp [Double.lt] at h

/-- The first assignment pass: a data point among the first `k`, with finite
components and at a positive computed distance from the others of the first
`k`, is assigned to its own cluster, and the second of two equal vectors
leaves its cluster without points. -/
theorem assign_first_pass (data : List (List Double)) (n k d : Nat) (a0 : List Int)
    (hkn : k ≤ n) (hlen : a0.length = n) :
    (∀ i < k, (∀ c < d, ((data.getD i []).getD c 0).isFinite = true) →
      (∀ j < k, j ≠ i → 0 < calculate_distance (data.getD i []) (data.getD j []) d) →
        (assign_step data (init_centroids data k d) n k d 0 a0).1.getD i 0 = (i : Int) ∧
        cluster_members (assign_step data (init_centroids data k d) n k d 0 a0).1 n i ≠ []) ∧
    (∀ a b, a < b → b < k → data.getD a [] = data.getD b [] →
      cluster_members (assign_step data (init_centroids data k d) n k d 0 a0).1 n b = []) := by
  obtain ⟨_, hval, _, _⟩ := assign_step_spec data (init_centroids data k d) k d 0 a0 n
    (by omega)
  constructor
  · intro i hi hfin hpos
    have hself : calculate_distance (data.getD i []) ((init_centroids data k d).getD i []) d
        = 0 := by
      rw [calculate_distance_init_centroids _ _ _ _ _ hi, calculate_distance_self _ _ hfin]
    have hcc : closest_cluster (data.getD i []) (init_centroids data k d) k d = (i : Int) := by
      rcases closest_scan_spec (data.getD i []) (init_centroids data k d) d k with
        ⟨_, _, hall⟩ | ⟨m, hm, h2, _, _, hmin, _⟩
      · exfalso
        apply hall i hi
        rw [hself]
        decide!
      · rw [closest_cluster_eq_scan, h2]
        have hle := hmin i hi
        rw [hself, calculate_distance_init_centroids _ _ _ _ _ hm] at hle
        by_cases him : m = i
        · rw [him]
        · exact absurd (hpos m hm him) hle
    have hai := hval i (by omega)
    rw [hcc] at hai
    refine ⟨hai, ?_⟩
    intro hnil
    have hmem : i ∈ cluster_members (assign_step data (init_centroids data k d) n k d 0 a0).1
        n i := by
      unfold cluster_members
      rw [List.mem_filter]
      exact ⟨List.mem_range.mpr (by omega), by rw [hai]; simp⟩
    rw [hnil] at hmem
    exact absurd hmem (List.not_mem_nil _)
  · intro a b hab hb heq
    unfold cluster_members
    rw [List.filter_eq_nil_iff]
    intro i hi
    have hin := List.mem_range.mp hi
    rw [hval i hin]
    intro hcontra
    have hcb : closest_cluster (data.getD i []) (init_centroids data k d) k d = (b : Int) := by
      simpa using hcontra
    rcases closest_scan_spec (data.getD i []) (init_centroids data k d) d k with
      ⟨h2, _, _⟩ | ⟨m, hm, h2, _, hlt, _, hfirst⟩
    · rw [closest_cluster_eq_scan, h2] at hcb
      omega
    · rw [closest_cluster_eq_scan, h2] at hcb
      have hmb : m = b := by exact_mod_cast hcb
      subst hmb
      have hnle := hfirst a hab
      rw [calculate_distance_init_centroids _ _ _ _ _ hm,
        calculate_distance_init_centroids _ _ _ _ _ (Nat.lt_trans hab hm), heq] at hnle
      rw [calculate_distance_init_centroids _ _ _ _ _ hm] at hlt
      exact hnle (double_le_self_of_lt hlt)

/-- C19 (as amended): in the first assignment pass of a run with `k < n`,
whatever the table held before: a data point `i < k` whose components are
finite and whose computed distance from every other of the first `k` data
points is positive is assigned to cluster `i`, so that cluster has a point in
the first update step; and when two of the first `k` points, `a < b`, are
equal, no data point is assigned to cluster `b`. -/
theorem first_pass_seeds (data : Dataset) (k : Nat) (a0 : List Int)
    (hk : k < data.n) (hlen : a0.length = data.n) :
    (∀ i < k, (∀ c < data.d, ((data.datapoints.getD i []).getD c 0).isFinite = true) →
      (∀ j < k, j ≠ i →
        0 < calculate_distance (data.datapoints.getD i []) (data.datapoints.getD j []) data.d) →
        (assign_step data.datapoints (init_centroids data.datapoints k data.d) data.n k data.d 0
          a0).1.getD i 0 = (i : Int) ∧
        cluster_members (assign_step data.datapoints (init_centroids data.datapoints k data.d)
          data.n k data.d 0 a0).1 data.n i ≠ []) ∧
    (∀ a b, a < b → b < k → data.datapoints.getD a [] = data.datapoints.getD b [] →
      cluster_members (assign_step data.datapoints (init_centroids data.datapoints k data.d)
        data.n k data.d 0 a0).1 data.n b = []) :=
  assign_first_pass data.datapoints data.n k data.d a0 (le_of_lt hk) hlen

/-- An instance: the second of three distinct points on the line, and three
points of which the first two are equal. -/
theorem first_pass_seeds_witness :
    (assign_step [[1], [2], [6]] (init_centroids [[1], [2], [6]] 2 1) 3 2 1 0
      [7, 7, 7]).1.getD 1 0 = 1 ∧
    cluster_members (assign_step [[1], [1], [5]] (init_centroids [[1], [1], [5]] 2 1) 3 2 1 0
      [0, 0, 0]).1 3 1 = [] :=
  ⟨((first_pass_seeds ⟨[[1], [2], [6]], 3, 1⟩ 2 [7, 7, 7] (by decide) rfl).1 1 (by decide)
      (by decide!) (by decide!)).1,
   (first_pass_seeds ⟨[[1], [1], [5]], 3, 1⟩ 2 [0, 0, 0] (by decide) rfl).2 0 1 (by decide)
      (by decide) rfl⟩

/-- C19 (as stated) fails on the points 0, 1e-200 and 1 with `K = 2`: the
first two data points are distinct, but the square of their difference
underflows to zero, the computed distance of the second point from the first
centroid is zero, and the first assignment pass gives all three points to
cluster 0 and none to cluster 1. -/
theorem first_pass_seeds_underflow :
    read_datapoints "0\n1e-200\n1\n".toList =
      .ok { datapoints := [[0], [Double.ofRat (1 / 10 ^ 200)], [1]], n := 3, d := 1 } ∧
    (Double.ofRat (1 / 10 ^ 200)).toRat ≠ (0 : Double).toRat ∧
    Double.ne (Double.ofRat (1 / 10 ^ 200)) 0 = true ∧
    ([[0], [Double.ofRat (1 / 10 ^ 200)], [1]] : List (List Double)).getD 0 []
      ≠ ([[0], [Double.ofRat (1 / 10 ^ 200)], [1]] : List (List Double)).getD 1 [] ∧
    calculate_distance [Double.ofRat (1 / 10 ^ 200)] [0] 1 = 0 ∧
    assign_step [[0], [Double.ofRat (1 / 10 ^ 200)], [1]]
      (init_centroids [[0], [Double.ofRat (1 / 10 ^ 200)], [1]] 2 1) 3 2 1 0 [0, 0, 0]
      = ([0, 0, 0], true) ∧
    cluster_members [0, 0, 0] 3 1 = [] := by
  decide!
/-! ## The distances from one assignment pass to the next -/

theorem isdigit_digit_char (n : Nat) : isdigit (digit_char n) = true := by
  unfold digit_char
  have h : n % 10 < 10 := Nat.mod_lt _ (by decide)
  generalize n % 10 = m at h
  interval_cases m <;> decide

theorem digit_char_val (n : Nat) : (digit_char n).toNat - 48 = n % 10 := by
  unfold digit_char
  have h : n % 10 < 10 := Nat.mod_lt _ (by decide)
  generalize n % 10 = m at h
  interval_cases m <;> decide

theorem digit_char_ne_zero (n : Nat) (h : n % 10 ≠ 0) : digit_char n ≠ '0' := by
  intro hc
  have := digit_char_val n
  rw [hc] at this
  exact h this.symm

theorem digitsVal_concat (l : List Char) (c : Char) :
    digitsVal (l ++ [c]) = 10 * digitsVal l + (c.toNat - 48) := by
  simp [digitsVal, List.foldl_append]

/-- The digits of a natural number: at least one, all decimal, writing the
number, and without a leading zero unless the number is zero. -/
theorem nat_digits_fuel_spec (fuel n : Nat) (hn : n ≤ fuel) :
    nat_digits_fuel fuel n ≠ [] ∧ (∀ ch ∈ nat_digits_fuel fuel n, isdigit ch = true) ∧
    digitsVal (nat_digits_fuel fuel n) = n ∧
    (nat_digits_fuel fuel n = ['0'] ∨ (nat_digits_fuel fuel n).head? ≠ some '0') := by
  induction fuel generalizing n with
  | zero =>
    have h0 : n = 0 := by omega
    subst h0
    exact ⟨by simp [nat_digits_fuel], by decide, by decide, Or.inl (by decide)⟩
  | succ fuel ih =>
    unfold nat_digits_fuel
    by_cases h10 : n < 10
    · rw [if_pos h10]
      refine ⟨by simp, fun ch hch => ?_, ?_, ?_⟩
      · simp only [List.mem_singleton] at hch
        rw [hch]
        exact isdigit_digit_char n
      · have := digitsVal_concat [] (digit_char n)
        simp only [List.nil_append] at this
        rw [this, digit_char_val]
        simp only [digitsVal, List.foldl_nil]
        omega
      · by_cases hz : n = 0
        · left
          subst hz
          decide
        · right
          simp only [List.head?_cons]
          intro hc
          have hc' : digit_char n = '0' := by simpa using hc
          exact digit_char_ne_zero n (by omega) hc'
    · rw [if_neg h10]
      obtain ⟨h1, h2, h3, h4⟩ := ih (n / 10) (by omega)
      refine ⟨by simp, fun ch hch => ?_, ?_, ?_⟩
      · rcases List.mem_append.mp hch with h | h
        · exact h2 ch h
        · simp only [List.mem_singleton] at h
          rw [h]
          exact isdigit_digit_char n
      · rw [digitsVal_concat, h3, digit_char_val]
        omega
      · right
        rcases h4 with h4 | h4
        · exfalso
          rw [h4] at h3
          have : digitsVal ['0'] = 0 := by decide
          omega
        · cases hl : nat_digits_fuel fuel (n / 10) with
          | nil => exact absurd hl h1
          | cons a l =>
            rw [hl] at h4
            simpa using h4

/-- Rounding to the nearest natural number, ties to even: the result is within
one half of a number that is not negative, and even when it is at one half. -/
theorem round_half_even_spec (x : ℚ) (hx : 0 ≤ x) :
    |(round_half_even x : ℚ) - x| ≤ 1 / 2 ∧
    (|(round_half_even x : ℚ) - x| = 1 / 2 → round_half_even x % 2 = 0) := by
  have hf0 : 0 ≤ ⌊x⌋ := Int.floor_nonneg.mpr hx
  have hcast : ((⌊x⌋.toNat : Nat) : ℚ) = (⌊x⌋ : ℚ) := by
    have : ((⌊x⌋.toNat : Nat) : Int) = ⌊x⌋ := Int.toNat_of_nonneg hf0
    exact_mod_cast congrArg (fun z : Int => (z : ℚ)) this
  have hlo : (⌊x⌋ : ℚ) ≤ x := Int.floor_le x
  have hhi : x < (⌊x⌋ : ℚ) + 1 := Int.lt_floor_add_one x
  unfold round_half_even
  by_cases h1 : x - (⌊x⌋ : ℚ) < 1 / 2
  · rw [if_pos h1, hcast]
    have habs : |(⌊x⌋ : ℚ) - x| = x - (⌊x⌋ : ℚ) := by
      rw [abs_sub_comm, abs_of_nonneg (by linarith)]
    rw [habs]
    exact ⟨by linarith, fun h => by linarith⟩
  · rw [if_neg h1]
    by_cases h2 : 1 / 2 < x - (⌊x⌋ : ℚ)
    · rw [if_pos h2]
      push_cast
      rw [hcast]
      have habs : |(⌊x⌋ : ℚ) + 1 - x| = (⌊x⌋ : ℚ) + 1 - x := abs_of_nonneg (by linarith)
      rw [habs]
      exact ⟨by linarith, fun h => by linarith⟩
    · rw [if_neg h2]
      have heq : x - (⌊x⌋ : ℚ) = 1 / 2 := le_antisymm (not_lt.mp h2) (not_lt.mp h1)
      by_cases h3 : ⌊x⌋.toNat % 2 = 0
      · rw [if_pos h3, hcast]
        have habs : |(⌊x⌋ : ℚ) - x| = x - (⌊x⌋ : ℚ) := by
          rw [abs_sub_comm, abs_of_nonneg (by linarith)]
        rw [habs]
        exact ⟨by linarith, fun _ => h3⟩
      · rw [if_neg h3]
        push_cast
        rw [hcast]
        have habs : |(⌊x⌋ : ℚ) + 1 - x| = (⌊x⌋ : ℚ) + 1 - x := abs_of_nonneg (by linarith)
        rw [habs]
        exact ⟨by linarith, fun _ => by omega⟩

/-- The digits that `%.4f` writes for a number of ten-thousandths write that
number. -/
theorem digitsVal_printf (m : Nat) :
    digitsVal (nat_digits (m / 10000)
      ++ [digit_char (m / 1000), digit_char (m / 100), digit_char (m / 10), digit_char m])
      = m := by
  have e : nat_digits (m / 10000)
      ++ [digit_char (m / 1000), digit_char (m / 100), digit_char (m / 10), digit_char m]
      = (((nat_digits (m / 10000) ++ [digit_char (m / 1000)]) ++ [digit_char (m / 100)])
          ++ [digit_char (m / 10)]) ++ [digit_char m] := by simp
  rw [e, digitsVal_concat, digitsVal_concat, digitsVal_concat, digitsVal_concat,
    digit_char_val, digit_char_val, digit_char_val, digit_char_val]
  have := (nat_digits_fuel_spec (m / 10000) (m / 10000) (Nat.le_refl _)).2.2.1
  unfold nat_digits
  rw [this]
  omega

/-- The text of `%.4f` for a finite value of sign `neg` and magnitude `a`: a
minus sign when the sign is negative, the integral digits without leading
zeros, a point and four digits; the number written is `a` rounded to the
nearest multiple of 0.0001, ties to even. -/
theorem printf_4f_finite (neg : Bool) (a : ℚ) (ha : 0 ≤ a) :
    ∃ int frac, printf_4f (Double.finite neg a)
        = some ((if neg then ['-'] else []) ++ int ++ '.' :: frac) ∧
      int ≠ [] ∧ (∀ ch ∈ int, isdigit ch = true) ∧
      (int = ['0'] ∨ int.head? ≠ some '0') ∧
      frac.length = 4 ∧ (∀ ch ∈ frac, isdigit ch = true) ∧
      |(digitsVal (int ++ frac) : ℚ) / 10000 - a| ≤ 1 / 20000 ∧
      (|(digitsVal (int ++ frac) : ℚ) / 10000 - a| = 1 / 20000 →
        digitsVal (int ++ frac) % 2 = 0) := by
  obtain ⟨h1, h2, _, h4⟩ := nat_digits_fuel_spec (round_half_even (a * 10000) / 10000)
    (round_half_even (a * 10000) / 10000) (Nat.le_refl _)
  obtain ⟨r1, r2⟩ := round_half_even_spec (a * 10000) (by positivity)
  have habs : |(round_half_even (a * 10000) : ℚ) / 10000 - a|
      = |(round_half_even (a * 10000) : ℚ) - a * 10000| / 10000 := by
    rw [show (round_half_even (a * 10000) : ℚ) / 10000 - a
        = ((round_half_even (a * 10000) : ℚ) - a * 10000) / 10000 by ring,
      abs_div, abs_of_pos (by norm_num : (0 : ℚ) < 10000)]
  refine ⟨nat_digits (round_half_even (a * 10000) / 10000),
    [digit_char (round_half_even (a * 10000) / 1000),
     digit_char (round_half_even (a * 10000) / 100),
     digit_char (round_half_even (a * 10000) / 10),
     digit_char (round_half_even (a * 10000))], ?_, h1, h2, h4, rfl, ?_, ?_, ?_⟩
  · simp [printf_4f]
  · intro ch hch
    simp only [List.mem_cons, List.mem_singleton, List.not_mem_nil, or_false] at hch
    rcases hch with h | h | h | h <;> rw [h] <;> exact isdigit_digit_char _
  · rw [digitsVal_printf, habs]
    linarith
  · rw [digitsVal_printf, habs]
    intro h
    apply r2
    linarith

/-- The text of `%.4f` holds no comma and no line feed. -/
theorem printf_4f_chars (x : Double) (text : List Char) (h : printf_4f x = some text) :
    ',' ∉ text ∧ '\n' ∉ text := by
  have key : ∀ ch : Char, isdigit ch = false → ch ≠ '-' → ch ≠ '.' → ch ≠ 'i' → ch ≠ 'n' →
      ch ≠ 'f' → ch ∉ text := by
    intro ch hd h1 h2 h3 h4 h5 hmem
    cases x with
    | nan => cases h
    | inf neg =>
      simp only [printf_4f, Option.some.injEq] at h
      rw [← h] at hmem
      cases neg <;> simp at hmem <;> tauto
    | finite neg a =>
      simp only [printf_4f, Option.some.injEq] at h
      rw [← h] at hmem
      have hdig : ∀ m, ch ≠ digit_char m := by
        intro m hc
        rw [hc, isdigit_digit_char] at hd
        cases hd
      have hnd : ch ∉ nat_digits (round_half_even (a * 10000) / 10000) := by
        intro hm
        have := (nat_digits_fuel_spec _ _ (Nat.le_refl _)).2.1 ch hm
        rw [this] at hd
        cases hd
      simp only [List.mem_append, List.mem_cons, List.mem_singleton, List.not_mem_nil,
        or_false] at hmem
      rcases hmem with (hm | hm) | hm | hm | hm | hm | hm
      · cases neg
        · simp at hm
        · simp at hm
          exact h1 hm
      · exact hnd hm
      · exact h2 hm
      · exact hdig _ hm
      · exact hdig _ hm
      · exact hdig _ hm
      · exact hdig _ hm
  exact ⟨key ',' (by decide) (by decide) (by decide) (by decide) (by decide) (by decide),
    key '\n' (by decide) (by decide) (by decide) (by decide) (by decide) (by decide)⟩

/-- The function `printf_4f` gives a text for every value that is not a NaN. -/
theorem printf_4f_some (x : Double) (h : x ≠ Double.nan) :
    printf_4f x = some ((printf_4f x).getD []) := by
  cases x with
  | nan => exact absurd rfl h
  | inf neg => rfl
  | finite neg a => rfl

theorem intercalate_concat (l : List (List Char)) (x : List Char) :
    line_text (l ++ [x]) = if l = [] then x else line_text l ++ ',' :: x := by
  induction l with
  | nil => simp [line_text, List.intercalate]
  | cons a l ih =>
    cases l with
    | nil => simp [line_text, List.intercalate]
    | cons b l =>
      have h1 : (a :: b :: l) ++ [x] = a :: b :: (l ++ [x]) := rfl
      have h2 : (b :: l) ++ [x] = b :: (l ++ [x]) := rfl
      rw [h1, line_text_cons_cons, ← h2, ih]
      simp [line_text_cons_cons]

/-- The inner loop of step 4 writes the values of one centroid, separated by
commas. -/
theorem print_row_fold (row : List Double) (d m : Nat) (out : List Char) (hm : m ≤ d)
    (hrow : ∀ j < m, row.getD j 0 ≠ Double.nan) :
    (List.range m).foldl
        (fun out j =>
          match out, printf_4f (row.getD j 0) with
          | some text, some value => some (text ++ value ++ (if j + 1 < d then [','] else []))
          | _, _ => none) (some out)
      = some (out ++ (if m = 0 then []
          else line_text ((List.range m).map (fun j => (printf_4f (row.getD j 0)).getD []))
            ++ (if m < d then [','] else []))) := by
  induction m with
  | zero => simp
  | succ m ih =>
    rw [List.range_succ, List.foldl_append, ih (by omega) (fun j hj => hrow j (by omega))]
    simp only [List.foldl_cons, List.foldl_nil, List.map_append, List.map_cons, List.map_nil,
      Nat.succ_ne_zero, if_false]
    rw [printf_4f_some _ (hrow m (Nat.lt_succ_self m))]
    simp only [Option.getD_some]
    rw [intercalate_concat]
    by_cases h0 : m = 0
    · subst h0
      simp
    · have hmd : m < d := by omega
      simp [h0, hmd]

/-- Step 4 writes one line for every centroid. -/
theorem print_centroids_eq (c : List (List Double)) (k d : Nat)
    (hc : ∀ i < k, ∀ j < d, (c.getD i []).getD j 0 ≠ Double.nan) :
    print_centroids c k d
      = some ((List.range k).flatMap (fun i =>
          line_text ((List.range d).map (fun j => (printf_4f ((c.getD i []).getD j 0)).getD []))
            ++ ['\n'])) := by
  unfold print_centroids
  induction k with
  | zero => rfl
  | succ k ih =>
    rw [List.range_succ, List.foldl_append, ih (fun i hi => hc i (Nat.lt_succ_of_lt hi)),
      List.flatMap_append]
    simp only [List.foldl_cons, List.foldl_nil, List.flatMap_cons, List.flatMap_nil,
      List.append_nil]
    refine (congrArg (Option.map (fun text => text ++ ['\n']))
      (print_row_fold (c.getD k []) d d _ (Nat.le_refl _) (hc k (Nat.lt_succ_self k)))).trans ?_
    by_cases hd : d = 0
    · subst hd
      simp [line_text, List.intercalate]
    · simp [hd]

theorem count_line_text (toks : List (List Char)) (ch : Char) (hch : ch ≠ ',')
    (h : ∀ t ∈ toks, ch ∉ t) : ch ∉ line_text toks := by
  intro hmem
  rcases mem_line_text hmem with h1 | ⟨t, ht, hct⟩
  · exact hch h1
  · exact h t ht hct

theorem count_comma_line_text (toks : List (List Char)) (h : ∀ t ∈ toks, ',' ∉ t) :
    (line_text toks).count ',' = toks.length - 1 := by
  induction toks with
  | nil => simp [line_text, List.intercalate]
  | cons a l ih =>
    cases l with
    | nil =>
      have : ',' ∉ a := h a (by simp)
      simpa [line_text, List.intercalate] using List.count_eq_zero.mpr this
    | cons b l =>
      rw [line_text_cons_cons, List.count_append, List.count_cons,
        ih (fun t ht => h t (List.mem_cons_of_mem _ ht)),
        List.count_eq_zero.mpr (h a (by simp))]
      simp

/-- A line of the output holds `d - 1` commas and no line feed. -/
theorem centroid_line_spec (row : List Double) (d : Nat)
    (hrow : ∀ j < d, row.getD j 0 ≠ Double.nan) :
    (line_text ((List.range d).map (fun j => (printf_4f (row.getD j 0)).getD []))).count ','
      = d - 1 ∧
    '\n' ∉ line_text ((List.range d).map (fun j => (printf_4f (row.getD j 0)).getD [])) := by
  have hmem : ∀ t ∈ (List.range d).map (fun j => (printf_4f (row.getD j 0)).getD []),
      ',' ∉ t ∧ '\n' ∉ t := by
    intro t ht
    obtain ⟨j, hj, rfl⟩ := List.mem_map.mp ht
    exact printf_4f_chars _ _ (printf_4f_some _ (hrow j (List.mem_range.mp hj)))
  constructor
  · have := count_comma_line_text _ (fun t ht => (hmem t ht).1)
    simpa using this
  · exact count_line_text _ '\n' (by decide) (fun t ht => (hmem t ht).2)

/-- The output holds as many line feeds as there are centroids. -/
theorem count_newline_lines (c : List (List Double)) (k d : Nat)
    (hc : ∀ i < k, ∀ j < d, (c.getD i []).getD j 0 ≠ Double.nan) :
    ((List.range k).flatMap (fun i =>
        line_text ((List.range d).map (fun j => (printf_4f ((c.getD i []).getD j 0)).getD []))
          ++ ['\n'])).count '\n' = k := by
  induction k with
  | zero => rfl
  | succ k ih =>
    rw [List.range_succ, List.flatMap_append, List.count_append,
      ih (fun i hi => hc i (Nat.lt_succ_of_lt hi))]
    simp only [List.flatMap_cons, List.flatMap_nil, List.append_nil, List.count_append]
    rw [List.count_eq_zero.mpr (centroid_line_spec _ d (hc k (Nat.lt_succ_self k))).2]
    simp

/-! ## The magnitudes of the values of a run -/

theorem double_round_valid (neg : Bool) (q : ℚ) : (Double.round neg q).isValid = true := by
  unfold Double.round
  split_ifs
  · simp only [Double.isValid, decide_eq_true_eq]
    exact le_refl _
  · simp only [Double.isValid, decide_eq_true_eq]
    exact mul_nonneg (Nat.cast_nonneg _) (zpow_nonneg (by norm_num) _)
  · rfl

theorem double_div_valid (a b : Double) : (a / b).isValid = true := by
  show (Double.div a b).isValid = true
  cases a with
  | nan => cases b <;> rfl
  | inf s => cases b <;> rfl
  | finite s x =>
    cases b with
    | nan => rfl
    | inf t => simp [Double.div, Double.isValid]
    | finite t y =>
      simp only [Double.div]
      split_ifs
      · rfl
      · rfl
      · exact double_round_valid _ _

theorem strtod_valid (s : List Char) : (strtod s).1.isValid = true := by
  unfold strtod
  cases h : strtodSubject (strtodSign (s.dropWhile isspace)).2 with
  | none => rfl
  | some r =>
    simp only []
    cases r.1 with
    | number v => exact double_round_valid _ _
    | inf => rfl
    | nan => rfl

theorem parse_tokens_valid (tokens : List (List Char)) (vector : List Double)
    (h : parse_tokens tokens = .ok vector) : ∀ x ∈ vector, x.isValid = true := by
  induction tokens generalizing vector with
  | nil =>
    simp only [parse_tokens, Except.ok.injEq] at h
    rw [← h]
    intro x hx
    cases hx
  | cons t ts ih =>
    simp only [parse_tokens] at h
    split_ifs at h
    cases hp : parse_tokens ts with
    | error e => rw [hp] at h; cases h
    | ok v =>
      rw [hp] at h
      simp only [Except.ok.injEq] at h
      rw [← h]
      intro x hx
      rcases List.mem_cons.mp hx with hx | hx
      · rw [hx]
        exact strtod_valid t
      · exact ih v hp x hx

theorem read_line_valid (st st1 : ReadState) (line : List Char)
    (h : read_line st line = .ok st1)
    (hinv : ∀ row ∈ st.datapoints, ∀ x ∈ row, Double.isValid x = true) :
    ∀ row ∈ st1.datapoints, ∀ x ∈ row, Double.isValid x = true := by
  unfold read_line at h
  by_cases h1 : line.head? = some '\n' ∨ line.head? = some '\r'
  · rw [if_pos h1] at h
    simp only [Except.ok.injEq] at h
    rw [← h]
    exact hinv
  · rw [if_neg h1] at h
    by_cases h2 : (!st.first_line && decide ((strtok_all ',' (cstr line)).length ≠ st.current_d))
        = true
    · simp only [h2, if_true] at h
      cases h
    · simp only [h2] at h
      cases hp : parse_tokens (strtok_all ',' (cstr line)) with
      | error e => simp only [hp] at h; cases h
      | ok vector =>
        simp only [hp, Bool.false_eq_true, if_false, Except.ok.injEq] at h
        rw [← h]
        intro row hrow
        simp only [List.mem_append, List.mem_singleton] at hrow
        rcases hrow with hrow | hrow
        · exact hinv row hrow
        · rw [hrow]
          exact parse_tokens_valid _ _ hp

theorem read_loop_valid (fuel : Nat) (stream : List Char) (st st1 : ReadState)
    (h : read_loop fuel stream st = .ok st1)
    (hinv : ∀ row ∈ st.datapoints, ∀ x ∈ row, Double.isValid x = true) :
    ∀ row ∈ st1.datapoints, ∀ x ∈ row, Double.isValid x = true := by
  induction fuel generalizing stream st with
  | zero =>
    simp only [read_loop, Except.ok.injEq] at h
    rw [← h]
    exact hinv
  | succ fuel ih =>
    simp only [read_loop] at h
    split_ifs at h with h1
    · simp only [Except.ok.injEq] at h
      rw [← h]
      exact hinv
    · cases hl : read_line st (fgets 4096 stream).1 with
      | error e => simp only [hl] at h; cases h
      | ok st2 =>
        simp only [hl] at h
        exact ih _ st2 h (read_line_valid st st2 _ hl hinv)

/-- Every value of a dataset that `read_datapoints` returns is an infinity, a
NaN or a finite value with a magnitude that is not negative. -/
theorem read_datapoints_valid (stdin : List Char) (data : Dataset)
    (h : read_datapoints stdin = .ok data) (i j : Nat) :
    ((data.datapoints.getD i []).getD j 0).isValid = true := by
  have hrows : ∀ row ∈ data.datapoints, ∀ x ∈ row, Double.isValid x = true := by
    unfold read_datapoints at h
    cases hl : read_loop stdin.length stdin
        { datapoints := [], current_n := 0, current_d := 0, first_line := true } with
    | error e => simp only [hl] at h; cases h
    | ok st =>
      simp only [hl] at h
      split_ifs at h
      simp only [Except.ok.injEq] at h
      have := read_loop_valid _ _ _ st hl (fun row hrow => by cases hrow)
      rw [← h]
      exact this
  by_cases hi : i < data.datapoints.length
  · rw [List.getD_eq_getElem _ _ hi]
    by_cases hj : j < (data.datapoints[i]).length
    · rw [List.getD_eq_getElem _ _ hj]
      exact hrows _ (List.getElem_mem _) _ (List.getElem_mem _)
    · rw [List.getD_eq_default _ _ (not_lt.mp hj)]
      rfl
  · rw [List.getD_eq_default _ _ (not_lt.mp hi)]
    rfl

/-- The main loop keeps the magnitudes of the centroids from being negative. -/
theorem kmeans_loop_valid (data : List (List Double)) (n k d remaining iter_count : Nat)
    (cents : List (List Double)) (a0 : List Int) (f : Final)
    (hk : cents.length = k)
    (hv : ∀ i j, ((cents.getD i []).getD j 0).isValid = true)
    (h : kmeans_loop data n k d remaining iter_count cents a0 = some f) :
    ∀ i j, ((f.centroids.getD i []).getD j 0).isValid = true := by
  induction remaining generalizing iter_count cents a0 with
  | zero =>
    simp only [kmeans_loop, Option.some.injEq] at h
    rw [← h]
    exact hv
  | succ r ih =>
    rw [kmeans_loop_succ] at h
    by_cases hc : (!(assign_step data cents n k d iter_count a0).2 && decide (iter_count > 0))
        = true
    · rw [if_pos hc] at h
      simp only [Option.some.injEq] at h
      rw [← h]
      exact hv
    · rw [if_neg hc] at h
      cases hu : update_step data cents n k d (assign_step data cents n k d iter_count a0).1 with
      | none => rw [hu] at h; cases h
      | some u =>
        rw [hu] at h
        simp only [] at h
        obtain ⟨_, hl, hnew, _⟩ := update_step_spec data cents n k d _ u.1 u.2 hk hu
        have hv' : ∀ i j, ((u.1.getD i []).getD j 0).isValid = true := by
          intro i j
          by_cases hi : i < k
          · rw [hnew i hi]
            split_ifs
            · unfold cluster_mean
              by_cases hj : j < d
              · rw [getD_map_range _ _ _ _ hj]
                exact double_div_valid _ _
              · have hlen : ((List.range d).map (fun c =>
                    cluster_sum data (assign_step data cents n k d iter_count a0).1 n i c
                      / Double.ofInt ((cluster_members
                          (assign_step data cents n k d iter_count a0).1 n i).length : Int))).length
                    ≤ j := by simpa using not_lt.mp hj
                rw [List.getD_eq_default _ _ hlen]
                rfl
            · exact hv i j
          · have hlen : u.1.length ≤ i := by omega
            rw [List.getD_eq_default _ _ hlen]
            rfl
        by_cases hm : u.2 = true
        · rw [if_pos hm] at h
          simp only [Option.some.injEq] at h
          rw [← h]
          exact hv'
        · rw [if_neg hm] at h
          exact ih _ _ _ hl hv' h

/-- The main loop keeps `k` centroids of dimension `d`. -/
theorem kmeans_loop_shape (data : List (List Double)) (n k d remaining iter_count : Nat)
    (cents : List (List Double)) (a0 : List Int) (f : Final)
    (hk : cents.length = k) (hd : ∀ j < k, (cents.getD j []).length = d)
    (h : kmeans_loop data n k d remaining iter_count cents a0 = some f) :
    f.centroids.length = k ∧ ∀ j < k, (f.centroids.getD j []).length = d := by
  induction remaining generalizing iter_count cents a0 with
  | zero =>
    simp only [kmeans_loop, Option.some.injEq] at h
    rw [← h]
    exact ⟨hk, hd⟩
  | succ r ih =>
    rw [kmeans_loop_succ] at h
    by_cases hc : (!(assign_step data cents n k d iter_count a0).2 && decide (iter_count > 0))
        = true
    · rw [if_pos hc] at h
      simp only [Option.some.injEq] at h
      rw [← h]
      exact ⟨hk, hd⟩
    · rw [if_neg hc] at h
      cases hu : update_step data cents n k d (assign_step data cents n k d iter_count a0).1 with
      | none => rw [hu] at h; cases h
      | some u =>
        rw [hu] at h
        simp only [] at h
        obtain ⟨_, hl, hnew, _⟩ := update_step_spec data cents n k d _ u.1 u.2 hk hu
        have hd' : ∀ j < k, (u.1.getD j []).length = d := by
          intro j hj
          rw [hnew j hj]
          split_ifs
          · simp [cluster_mean]
          · exact hd j hj
        by_cases hm : u.2 = true
        · rw [if_pos hm] at h
          simp only [Option.some.injEq] at h
          rw [← h]
          exact ⟨hl, hd'⟩
        · rw [if_neg hm] at h
          exact ih _ _ _ hl hd' h

/-- A run that prints centroids has accepted its arguments, has read a dataset
with more than `K` records, and prints the centroids that the main loop
leaves. -/
theorem main_printed (argv : List (List Char)) (stdin : List Char) (c : List (List Double))
    (h : main argv stdin = Outcome.printed c) :
    ∃ (k iter : Int) (data : Dataset) (f : Final),
      validate_integer_input (argv.getD 1 []) = some k ∧ 1 < k ∧
      read_datapoints stdin = .ok data ∧ k < (data.n : Int) ∧
      kmeans data k.toNat iter.toNat = some f ∧ c = f.centroids := by
  have hrun : ∀ k iter : Int, run k iter stdin = Outcome.printed c →
      ∃ (data : Dataset) (f : Final), read_datapoints stdin = .ok data ∧ k < (data.n : Int) ∧
        kmeans data k.toNat iter.toNat = some f ∧ c = f.centroids := by
    intro k iter hr
    unfold run at hr
    cases hd : read_datapoints stdin with
    | error e => rw [hd] at hr; cases hr
    | ok data =>
      rw [hd] at hr
      simp only at hr
      split at hr
      · cases hr
      · rename_i hkn
        cases hf : kmeans data k.toNat iter.toNat with
        | none => rw [hf] at hr; cases hr
        | some f =>
          rw [hf] at hr
          simp only [Outcome.printed.injEq] at hr
          exact ⟨data, f, rfl, not_le.mp hkn, hf, hr.symm⟩
  unfold main at h
  split at h
  · cases h
  · cases hk : validate_integer_input (argv.getD 1 []) with
    | none => rw [hk] at h; cases h
    | some k =>
      rw [hk] at h
      simp only at h
      split at h
      · cases h
      · rename_i hk1
        split at h
        · cases hi : validate_integer_input (argv.getD 2 []) with
          | none => rw [hi] at h; cases h
          | some iter =>
            rw [hi] at h
            simp only at h
            split at h
            · cases h
            · obtain ⟨data, f, h1, h2, h3, h4⟩ := hrun k iter h
              exact ⟨k, iter, data, f, rfl, not_le.mp hk1, h1, h2, h3, h4⟩
        · obtain ⟨data, f, h1, h2, h3, h4⟩ := hrun k 400 h
          exact ⟨k, 400, data, f, rfl, not_le.mp hk1, h1, h2, h3, h4⟩

/-- C16 (as amended): a run that succeeds with `K` centroids of dimension `d`,
none of whose values is a NaN, writes on standard output `K` lines, line `i`
being the `d` values of centroid `i` separated by `d - 1` commas and ended by a
line feed right after the last value; it writes nothing on standard error and
returns 0.  A finite value, whose magnitude is never negative in a run, is
written with a minus sign when its sign is negative (negative zero included),
its integral digits without leading zeros, a point and four decimals, and the
number so written is the magnitude rounded to the nearest multiple of 0.0001,
ties to even.  An infinite value is written as `inf` or `-inf`, without point
or decimals.  A run that fails writes nothing on standard output. -/
theorem output_format (argv : List (List Char)) (stdin : List Char) :
    (∀ (c : List (List Double)) (k : Int) (data : Dataset),
      main argv stdin = Outcome.printed c →
      validate_integer_input (argv.getD 1 []) = some k → read_datapoints stdin = .ok data →
      c.length = k.toNat ∧ (∀ i < k.toNat, (c.getD i []).length = data.d) ∧
      (∀ (i j : Nat) (neg : Bool) (a : ℚ),
        (c.getD i []).getD j 0 = Double.finite neg a → 0 ≤ a) ∧
      ((∀ i < k.toNat, ∀ j < data.d, (c.getD i []).getD j 0 ≠ Double.nan) →
        main_streams argv stdin =
          some { stdout := (List.range k.toNat).flatMap
                   (fun i => [','].intercalate
                     ((List.range data.d).map
                       (fun j => (printf_4f ((c.getD i []).getD j 0)).getD []))
                     ++ ['\n'])
                 stderr := [], exit_code := 0 } ∧
        ((List.range k.toNat).flatMap
          (fun i => [','].intercalate
            ((List.range data.d).map (fun j => (printf_4f ((c.getD i []).getD j 0)).getD []))
            ++ ['\n'])).count '\n' = k.toNat ∧
        ∀ i < k.toNat,
          ([','].intercalate
            ((List.range data.d).map
              (fun j => (printf_4f ((c.getD i []).getD j 0)).getD []))).count ','
            = data.d - 1 ∧
          '\n' ∉ [','].intercalate
            ((List.range data.d).map
              (fun j => (printf_4f ((c.getD i []).getD j 0)).getD [])))) ∧
    (∀ (neg : Bool) (a : ℚ), 0 ≤ a →
      ∃ int frac, printf_4f (Double.finite neg a)
          = some ((if neg then ['-'] else []) ++ int ++ '.' :: frac) ∧
        int ≠ [] ∧ (∀ ch ∈ int, isdigit ch = true) ∧
        (int = ['0'] ∨ int.head? ≠ some '0') ∧
        frac.length = 4 ∧ (∀ ch ∈ frac, isdigit ch = true) ∧
        |(digitsVal (int ++ frac) : ℚ) / 10000 - a| ≤ 1 / 20000 ∧
        (|(digitsVal (int ++ frac) : ℚ) / 10000 - a| = 1 / 20000 →
          digitsVal (int ++ frac) % 2 = 0)) ∧
    (∀ neg : Bool, printf_4f (Double.inf neg)
      = some ((if neg then ['-'] else []) ++ ['i', 'n', 'f'])) ∧
    (∀ message, main argv stdin = Outcome.failure message →
      (main_streams argv stdin).map Streams.stdout = some []) := by
  refine ⟨?_, printf_4f_finite, fun _ => rfl, ?_⟩
  · intro c k data hmain hk hdata
    obtain ⟨k', iter, data', f, hk', _, hdata', _, hf, hc⟩ := main_printed argv stdin c hmain
    rw [hk] at hk'
    rw [hdata] at hdata'
    cases hk'
    cases hdata'
    obtain ⟨hlen, hrows⟩ := kmeans_loop_shape data.datapoints data.n k.toNat data.d iter.toNat 0
      (init_centroids data.datapoints k.toNat data.d) (List.replicate data.n 0) f
      (by simp [init_centroids])
      (fun j hj => by rw [init_centroids_getD _ _ _ _ hj]; simp) hf
    have hinit : ∀ i j,
        (((init_centroids data.datapoints k.toNat data.d).getD i []).getD j 0).isValid
          = true := by
      intro i j
      by_cases hi : i < k.toNat
      · rw [init_centroids_getD _ _ _ _ hi]
        by_cases hj : j < data.d
        · rw [getD_map_range _ _ _ _ hj]
          exact read_datapoints_valid stdin data hdata i j
        · have hl : ((List.range data.d).map
              (fun c => (data.datapoints.getD i []).getD c 0)).length ≤ j := by
            simpa using not_lt.mp hj
          rw [List.getD_eq_default _ _ hl]
          rfl
      · have hl : (init_centroids data.datapoints k.toNat data.d).length ≤ i := by
          simpa [init_centroids] using not_lt.mp hi
        rw [List.getD_eq_default _ _ hl]
        rfl
    have hvalid := kmeans_loop_valid data.datapoints data.n k.toNat data.d iter.toNat 0
      (init_centroids data.datapoints k.toNat data.d) (List.replicate data.n 0) f
      (by simp [init_centroids]) hinit hf
    rw [← hc] at hlen hrows hvalid
    refine ⟨hlen, hrows, ?_, fun hnan => ⟨?_, count_newline_lines c k.toNat data.d hnan,
      fun i hi => centroid_line_spec (c.getD i []) data.d (hnan i hi)⟩⟩
    · intro i j neg a hija
      have := hvalid i j
      rw [hija] at this
      simpa [Double.isValid] using this
    unfold main_streams
    rw [hmain, hk, hdata]
    simp only [print_centroids_eq c k.toNat data.d hnan]
    rfl
  · intro message hmain
    unfold main_streams
    rw [hmain]
    rfl

/-- An instance: the output of the scenario of the specification, and a run
with `K = 4` on four points, which writes nothing on standard output. -/
theorem output_format_witness :
    main_streams ["kmeans".toList, "2".toList] "1.0,1.0\n1.0,1.1\n9.0,9.0\n9.0,9.1\n".toList
      = some { stdout := "1.0000,1.0500\n9.0000,9.0500\n".toList, stderr := [],
               exit_code := 0 } ∧
    (main_streams ["kmeans".toList, "4".toList]
      "1.0,1.0\n1.0,1.1\n9.0,9.0\n9.0,9.1\n".toList).map Streams.stdout = some [] :=
  ⟨(((output_format ["kmeans".toList, "2".toList]
      "1.0,1.0\n1.0,1.1\n9.0,9.0\n9.0,9.1\n".toList).1
      [[1, Double.ofRat (21 / 20)], [9, Double.ofRat (181 / 20)]] 2
      ⟨[[1, 1], [1, Double.ofRat (11 / 10)], [9, 9], [9, Double.ofRat (91 / 10)]], 4, 2⟩
      (by decide!) (by decide!) (by decide!)).2.2.2 (by decide!)).1.trans (by decide!),
   (output_format ["kmeans".toList, "4".toList]
      "1.0,1.0\n1.0,1.1\n9.0,9.0\n9.0,9.1\n".toList).2.2.2 clustersError (by decide!)⟩

/-- C16 (as stated) fails on the input of three lines `1e308` with `K = 2` and
the cap 2: the run succeeds, the sums of the two update steps overflow, both
centroids are infinite and the two lines of the output are `inf`, a value
without a point and without decimals. -/
theorem output_infinite :
    read_datapoints "1e308\n1e308\n1e308\n".toList =
      .ok { datapoints := [[Double.ofRat (10 ^ 308)], [Double.ofRat (10 ^ 308)],
                           [Double.ofRat (10 ^ 308)]], n := 3, d := 1 } ∧
    main ["kmeans".toList, "2".toList, "2".toList] "1e308\n1e308\n1e308\n".toList
      = Outcome.printed [[Double.inf false], [Double.inf false]] ∧
    main_streams ["kmeans".toList, "2".toList, "2".toList] "1e308\n1e308\n1e308\n".toList
      = some { stdout := "inf\ninf\n".toList, stderr := [], exit_code := 0 } ∧
    '.' ∉ "inf\ninf\n".toList := by
  decide!
/-! ## validate_integer_input -/

/-- The two bounds of `int` as `double` values. -/
theorem double_int_bounds :
    Double.ofInt (-2147483648) = Double.finite true 2147483648 ∧
    Double.ofInt 2147483647 = Double.finite false 2147483647 := by
  constructor <;> decide!

/-- The tests of lines 41 to 60 on a `double` whose value is the integer `v`:
the fractional part is zero, the integral part is compared as `v` is, and the
conversion to `int` gives `v`. -/
theorem double_int_check (x : Double) (v : Int) (h : x.toRat = some (v : ℚ)) :
    Double.ne (modf x).1 0 = false ∧
    ((modf x).2 < Double.ofInt (-2147483648) ↔ v < -2147483648) ∧
    ((modf x).2 > Double.ofInt 2147483647 ↔ v > 2147483647) ∧
    toInt (modf x).2 = v := by
  cases x with
  | nan => cases h
  | inf s => cases h
  | finite s a =>
    simp only [Double.toRat, Option.some.injEq] at h
    have ha : a = ((if s then -v else v : Int) : ℚ) := by
      cases s
      · simpa using h
      · simp only [if_true] at h ⊢
        push_cast
        linarith
    have hfl : (⌊a⌋ : ℚ) = a := by
      rw [ha, Int.floor_intCast]
    have hfl2 : ⌊a⌋ = (if s then -v else v : Int) := by
      rw [ha, Int.floor_intCast]
    have hval : (if s = true then -(⌊a⌋ : ℚ) else (⌊a⌋ : ℚ)) = (v : ℚ) := by
      rw [hfl]
      exact h
    refine ⟨?_, ?_, ?_, ?_⟩
    · simp [modf, Double.ne, double_zero_eq, hfl]
    · rw [double_int_bounds.1, double_lt_iff]
      simp only [modf, Double.lt, decide_eq_true_eq, hval, if_true]
      constructor
      · intro hh
        have : (v : ℚ) < ((-2147483648 : Int) : ℚ) := by push_cast; linarith
        exact_mod_cast this
      · intro hh
        have : (v : ℚ) < ((-2147483648 : Int) : ℚ) := by exact_mod_cast hh
        push_cast at this
        linarith
    · rw [double_int_bounds.2]
      show Double.finite false 2147483647 < (modf (Double.finite s a)).2 ↔ _
      rw [double_lt_iff]
      simp only [modf, Double.lt, decide_eq_true_eq, hval, Bool.false_eq_true, if_false]
      constructor
      · intro hh
        have : ((2147483647 : Int) : ℚ) < (v : ℚ) := by push_cast; linarith
        exact_mod_cast this
      · intro hh
        have : ((2147483647 : Int) : ℚ) < (v : ℚ) := by exact_mod_cast hh
        push_cast at this
        linarith
    · simp only [modf, toInt, Int.floor_intCast, hfl2]
      cases s <;> simp

/-- A `double` that passes the tests of lines 41 to 53 is finite and its value
is the integer that line 60 stores. -/
theorem double_int_of_check (x : Double) (h1 : Double.ne (modf x).1 0 = false)
    (h2 : ¬ ((modf x).2 < Double.ofInt (-2147483648) ∨ (modf x).2 > Double.ofInt 2147483647)) :
    x.toRat = some ((toInt (modf x).2 : Int) : ℚ) := by
  cases x with
  | nan => simp [modf, Double.ne] at h1
  | inf s =>
    exfalso
    apply h2
    rw [double_int_bounds.1, double_int_bounds.2]
    cases s
    · right
      show Double.finite false 2147483647 < Double.inf false
      decide
    · left
      show Double.inf true < Double.finite true 2147483648
      decide
  | finite s a =>
    have hfl : (⌊a⌋ : ℚ) = a := by
      have hfr : Int.fract a = 0 := by
        cases s <;> simpa [modf, Double.ne, double_zero_eq] using h1
      have := Int.self_sub_floor a
      rw [hfr] at this
      linarith
    simp only [modf, toInt, Int.floor_intCast, Double.toRat, Option.some.injEq]
    cases s
    · simp [hfl]
    · simp [hfl]

theorem validate_integer_input_of_parts (ws num trail : List Char) (v : Int)
    (hws : ws.all isspace = true) (htrail : trail.all isspace = true)
    (hnum : is_number num = true) (hval : (strtod num).1.toRat = some (v : ℚ))
    (hlo : -2147483648 ≤ v) (hhi : v ≤ 2147483647) :
    validate_integer_input (ws ++ num ++ trail) = some v := by
  obtain ⟨hnum', hval'⟩ := is_number_dropWhile num hnum
  have hne : num.dropWhile isspace ≠ [] := by
    intro h0
    rw [h0] at hnum'
    exact absurd hnum' (by decide)
  have hd : (ws ++ num ++ trail).dropWhile isspace = num.dropWhile isspace ++ trail := by
    rw [List.append_assoc, dropWhile_all isspace ws _ hws]
    exact dropWhile_append_of_ne_nil num trail hne
  have hhead : ∀ c ∈ trail.head?, continues_number c = false := by
    intro c hc
    cases trail with
    | nil => cases hc
    | cons a t =>
      simp only [List.head?_cons, Option.mem_def, Option.some.injEq] at hc
      simp only [List.all_cons, Bool.and_eq_true] at htrail
      rw [← hc]
      exact not_continues_of_isspace a htrail.1
  have hs := strtod_append (num.dropWhile isspace) trail hnum' hhead
  have hlen : ¬ (trail.length = (num.dropWhile isspace ++ trail).length) := by
    rw [List.length_append]
    have : 0 < (num.dropWhile isspace).length := List.length_pos.mpr hne
    omega
  have hne2 : (num.dropWhile isspace ++ trail).isEmpty = false := by
    cases h : num.dropWhile isspace with
    | nil => exact absurd h hne
    | cons a t => rfl
  obtain ⟨c1, c2, c3, c4⟩ := double_int_check (strtod num).1 v hval
  have hrange : ¬ ((modf (strtod num).1).2 < Double.ofInt (-2147483648)
      ∨ (modf (strtod num).1).2 > Double.ofInt 2147483647) := by
    rw [c2, c3]
    omega
  simp only [validate_integer_input, hd, hne2, hs, hval', c1, c4, hrange,
    htrail, hlen, beq_iff_eq, Bool.not_true, if_false, Bool.false_eq_true]

theorem validate_integer_input_parts (s : List Char) (v : Int)
    (h : validate_integer_input s = some v) :
    ∃ ws num trail, s = ws ++ num ++ trail ∧ ws.all isspace = true ∧
      trail.all isspace = true ∧ is_number num = true ∧
      (strtod num).1.toRat = some (v : ℚ) ∧ -2147483648 ≤ v ∧ v ≤ 2147483647 := by
  simp only [validate_integer_input] at h
  split_ifs at h with h1 h2 h3 h4 h5
  simp only [Option.some.injEq] at h
  have hconv : (strtod (s.dropWhile isspace)).2.length ≠ (s.dropWhile isspace).length := by
    simpa using h2
  obtain ⟨num, hsplit, hnum, hval⟩ := strtod_prefix (s.dropWhile isspace) hconv
  have hm := double_int_of_check (strtod (s.dropWhile isspace)).1 (by simpa using h4) h5
  rw [h] at hm
  obtain ⟨_, c2, c3, _⟩ := double_int_check _ v hm
  rw [c2, c3] at h5
  refine ⟨s.takeWhile isspace, num, (strtod (s.dropWhile isspace)).2, ?_, ?_, ?_, hnum, ?_,
    by omega, by omega⟩
  · rw [List.append_assoc, ← hsplit, List.takeWhile_append_dropWhile]
  · rw [List.all_eq_true]
    exact fun x hx => List.mem_takeWhile_imp hx
  · simpa using h3
  · rw [hval, hm]

theorem validate_integer_input_blank (s : List Char) (h : s.all isspace = true) :
    validate_integer_input s = none := by
  have : s.dropWhile isspace = [] := by
    have := dropWhile_all isspace s [] h
    rwa [List.append_nil] at this
  simp [validate_integer_input, this]

/-- C17 (as amended): `validate_integer_input(s, &out)` returns 1 and stores
`v` exactly when `s` is white space, then a number that `strtod` converts
completely and whose value as a `double`, that is after rounding, is the
integer `v` with `-2147483648 ≤ v ≤ 2147483647`, then white space only.  The
number can be decimal or hexadecimal, with or without exponent.  It returns 0
for a string of white space only, and so for the empty string; `"3"`, `"3.0"`
and `"0x10"` give 3, 3 and 16, while `"abc"`, `"3.A"`, `"3.4"`, `"inf"`,
`"nan"` and the two values next to the range of `int` give 0. -/
theorem validate_integer_input_iff (s : List Char) (v : Int) :
    (validate_integer_input s = some v ↔
      ∃ ws num trail, s = ws ++ num ++ trail ∧ ws.all isspace = true ∧
        trail.all isspace = true ∧ is_number num = true ∧
        (strtod num).1.toRat = some (v : ℚ) ∧ -2147483648 ≤ v ∧ v ≤ 2147483647) ∧
    (s.all isspace = true → validate_integer_input s = none) ∧
    validate_integer_input "3".toList = some 3 ∧
    validate_integer_input "3.0".toList = some 3 ∧
    validate_integer_input " -3e0\n".toList = some (-3) ∧
    validate_integer_input "0x10".toList = some 16 ∧
    validate_integer_input "-0".toList = some 0 ∧
    validate_integer_input "2147483647".toList = some 2147483647 ∧
    validate_integer_input "-2147483648".toList = some (-2147483648) ∧
    validate_integer_input "".toList = none ∧
    validate_integer_input " \t\n".toList = none ∧
    validate_integer_input "abc".toList = none ∧
    validate_integer_input "3.A".toList = none ∧
    validate_integer_input "3.4".toList = none ∧
    validate_integer_input "inf".toList = none ∧
    validate_integer_input "nan".toList = none ∧
    validate_integer_input "2147483648".toList = none ∧
    validate_integer_input "-2147483649".toList = none := by
  refine ⟨⟨validate_integer_input_parts s v, ?_⟩, validate_integer_input_blank s,
    by decide!, by decide!, by decide!, by decide!, by decide!, by decide!, by decide!,
    by decide!, by decide!, by decide!, by decide!, by decide!, by decide!, by decide!,
    by decide!, by decide!⟩
  rintro ⟨ws, num, trail, hs, hws, htrail, hnum, hval, hlo, hhi⟩
  rw [hs]
  exact validate_integer_input_of_parts ws num trail v hws htrail hnum hval hlo hhi

/-- An instance: `" 42.0 "` is a blank, the number `42.0` and a blank, so it is
accepted as 42, and the blank string `"  "` is rejected. -/
theorem validate_integer_input_iff_witness :
    validate_integer_input " 42.0 ".toList = some 42 ∧
      validate_integer_input "  ".toList = none :=
  ⟨(validate_integer_input_iff " 42.0 ".toList 42).1.mpr
      ⟨[' '], "42.0".toList, [' '], by decide, by decide!, by decide!, by decide!, by decide!,
        by decide, by decide⟩,
    (validate_integer_input_iff "  ".toList 0).2.1 (by decide!)⟩

/-- C17 (as stated) fails on the string `2.0000000000000000001`: the value of
the literal, 2 + 1/10^19, has a fractional part that is not zero, but the
`double` nearest to it is 2, so the function accepts the string and stores 2.
In the same way `2147483647.0000001`, a value above the range of `int`, is
accepted as 2147483647. -/
theorem validate_integer_input_rounds :
    strtodSubject "2.0000000000000000001".toList
      = some (Subject.number (2 + 1 / 10 ^ 19), []) ∧
    (strtod "2.0000000000000000001".toList).1 = Double.finite false 2 ∧
    validate_integer_input "2.0000000000000000001".toList = some 2 ∧
    strtodSubject "2147483647.0000001".toList
      = some (Subject.number (2147483647 + 1 / 10 ^ 7), []) ∧
    validate_integer_input "2147483647.0000001".toList = some 2147483647 := by
  decide!

end Kmeans
